import Mathlib

/-! # Sudoku solver (sudoku.c / sudoku.h): shallow embedding and verification

The C program keeps a 9x9 grid of `short` cells and solves it in place by an
iterative backtracking loop over a precomputed array of blank-cell
descriptors.  This file embeds the functions of `sudoku.c` as Lean functions
over an explicit grid state and proves the properties of the specification.

Conventions of the embedding:

* a `short` cell value is an `Int`; every value the program writes is in `0..9`,
  so no wrap-around ever occurs;
* loop indices (`i`, `j`, `k`, `row`, `column`, `blankIndex`) are never negative
  in the program and are natural numbers here;
* the C array `BlankCell *blanks`, terminated by a descriptor whose `cell`
  pointer is `NULL`, is a `List BlankCell` (the end of the list is the sentinel);
  a `NULL` array is `none`;
* the pointer `cell` of a descriptor always equals `&s->grid[row][col]`
  (`fillBlankCell`), so `*blanks[k].cell` is the grid cell at `(row, col)`;
* functions that write the grid return the new grid;
* in `solve` the cell under the cursor was empty when the descriptors were built and is
  only written by `solve` itself, so `currentValue` is never negative and the scan
  index `j` is a natural number;
* `malloc` is assumed to succeed, and `blankCount` is the number of empty cells, so
  that the allocated array holds every descriptor and the sentinel;
* the local array `isUsed` of `isValidCombination` is a list of 9 flags; for a cell
  value above 9 the C code indexes it out of bounds (undefined behaviour), which the
  list reads as `FALSE` and does not write; on grids with cells in `0..9` this never
  happens;
* the cursor loop of `solve` is iterated by a `fuel` counter: `none` means that
  the fuel ran out before the loop reached a `return`.
-/

namespace SudokuSolver

/-! ## Data model (sudoku.h) -/

/-- Grid size: `#define SIZE 9`. -/
abbrev SIZE : Nat := 9

/-- Size of a sub-grid: `#define ONE_THIRD_SIZE (SIZE / 3)`. -/
abbrev ONE_THIRD_SIZE : Nat := SIZE / 3

/-- The struct `Sudoku`: `short grid[SIZE][SIZE]`, a list of rows. -/
structure Sudoku where
  grid : List (List Int)
deriving DecidableEq

/-- The struct `BlankCell`; the field `cell` is the address of `grid[row][col]`
and is represented by `row` and `col`. -/
structure BlankCell where
  row : Nat
  col : Nat
  possibleValues : List Bool
deriving DecidableEq

/-- Read `s->grid[i][j]`. -/
def Sudoku.cell (s : Sudoku) (i j : Nat) : Int :=
  (s.grid.getD i []).getD j 0

/-- Write `s->grid[i][j] = v`. -/
def Sudoku.setCell (s : Sudoku) (i j : Nat) (v : Int) : Sudoku :=
  ⟨s.grid.set i ((s.grid.getD i []).set j v)⟩

/-- The cells `(i, j)` visited by `for (i = rowMin; i < rowMax; i++)
for (j = colMin; j < colMax; j++)`, in the order of the visit. -/
def region (rowMin rowMax colMin colMax : Nat) : List (Nat × Nat) :=
  (List.range' rowMin (rowMax - rowMin)).flatMap fun i =>
    (List.range' colMin (colMax - colMin)).map fun j => (i, j)

/-! ## isValidCombination and isCellValueAdmissible -/

/-- The body of the nested loops of `isValidCombination` over the cells still to
visit, with the current contents of the local array `isUsed`. -/
def isValidCombinationLoop (s : Sudoku) : List (Nat × Nat) → List Bool → Bool
  | [], _ => true
  | (i, j) :: rest, isUsed =>
    let value : Int := s.cell i j - 1
    if value ≥ 0 then
      if isUsed.getD value.toNat false then false
      else isValidCombinationLoop s rest (isUsed.set value.toNat true)
    else isValidCombinationLoop s rest isUsed

/-- The function `isValidCombination(s, rowMin, rowMax, colMin, colMax)`. -/
def isValidCombination (s : Sudoku) (rowMin rowMax colMin colMax : Nat) : Bool :=
  isValidCombinationLoop s (region rowMin rowMax colMin colMax) (List.replicate SIZE false)

/-- The function `isCellValueAdmissible(s, row, column)`. -/
def isCellValueAdmissible (s : Sudoku) (row column : Nat) : Bool :=
  let x := (column / ONE_THIRD_SIZE) * ONE_THIRD_SIZE
  let y := (row / ONE_THIRD_SIZE) * ONE_THIRD_SIZE
  isValidCombination s row (row + 1) 0 SIZE &&
  isValidCombination s 0 SIZE column (column + 1) &&
  isValidCombination s y (y + ONE_THIRD_SIZE) x (x + ONE_THIRD_SIZE)

/-! ## fillBlankCell and initBlankCells -/

/-- The loop `for (k = 0; k < SIZE; k++)` of `fillBlankCell`: writes `k + 1` into
the cell and records the admissibility flag in `possibleValues[k]`. -/
def fillBlankCellLoop (row column : Nat) : List Nat → Sudoku → List Bool → Sudoku × List Bool
  | [], s, possibleValues => (s, possibleValues)
  | k :: ks, s, possibleValues =>
    let s1 := s.setCell row column ((k : Int) + 1)
    fillBlankCellLoop row column ks s1 (possibleValues.set k (isCellValueAdmissible s1 row column))

/-- The function `fillBlankCell(s, blanks, index, row, column)`: returns the grid
after the call and the descriptor stored in `blanks[index]`. -/
def fillBlankCell (s : Sudoku) (row column : Nat) : Sudoku × BlankCell :=
  let r := fillBlankCellLoop row column (List.range SIZE) s (List.replicate SIZE false)
  (r.1.setCell row column 0, ⟨row, column, r.2⟩)

/-- The nested loops of `initBlankCells` over the cells still to visit; `blanks`
holds the descriptors `blanks[0 .. blankIndex)` written so far. -/
def initBlankCellsLoop : List (Nat × Nat) → Sudoku → List BlankCell → Sudoku × List BlankCell
  | [], s, blanks => (s, blanks)
  | (i, j) :: rest, s, blanks =>
    if s.cell i j = 0 then
      let r := fillBlankCell s i j
      initBlankCellsLoop rest r.1 (blanks ++ [r.2])
    else initBlankCellsLoop rest s blanks

/-- The function `initBlankCells(s, blankCount)`: returns the grid after the call
and the descriptor array (`none` is the `NULL` pointer). -/
def initBlankCells (s : Sudoku) (blankCount : Nat) : Sudoku × Option (List BlankCell) :=
  if blankCount = 0 then (s, none)
  else
    let r := initBlankCellsLoop (region 0 SIZE 0 SIZE) s []
    (r.1, some r.2)

/-! ## solve -/

/-- The scan `for (j = currentValue; j < SIZE; j++)` of `solve`, with `n` iterations
left: the value `j + 1` of the first set flag, or `0` (`nextValue`). -/
def nextAdmissible (possibleValues : List Bool) : Nat → Nat → Int
  | 0, _ => 0
  | n + 1, j =>
    if possibleValues.getD j false then (j : Int) + 1
    else nextAdmissible possibleValues n (j + 1)

/-- What one pass through the body of the cursor loop does. -/
inductive Step where
  | ret (result : Bool) (s : Sudoku)
  | next (s : Sudoku) (blankIndex : Nat)
deriving DecidableEq

/-- One pass of the cursor loop of `solve` at cursor `blankIndex`: the test of the
`while`, then the body from `nextTrial:` on. `goto nextTrial` is the pass that
keeps `blankIndex`: the test of the `while` and `row`, `col` are then the same. -/
def solveStep (blanks : List BlankCell) (s : Sudoku) (blankIndex : Nat) : Step :=
  match blanks[blankIndex]? with
  | none => Step.ret true s
  | some b =>
    let currentValue := s.cell b.row b.col
    let nextValue :=
      nextAdmissible b.possibleValues (SIZE - currentValue.toNat) currentValue.toNat
    let s1 := s.setCell b.row b.col nextValue
    if nextValue = 0 then
      if blankIndex = 0 then Step.ret false s1
      else Step.next s1 (blankIndex - 1)
    else if isCellValueAdmissible s1 b.row b.col then Step.next s1 (blankIndex + 1)
    else Step.next s1 blankIndex

/-- The cursor loop of `solve`, at most `fuel` passes. -/
def solveLoop (blanks : List BlankCell) : Nat → Sudoku → Nat → Option (Bool × Sudoku)
  | 0, _, _ => none
  | fuel + 1, s, blankIndex =>
    match solveStep blanks s blankIndex with
    | Step.ret result s1 => some (result, s1)
    | Step.next s1 blankIndex1 => solveLoop blanks fuel s1 blankIndex1

/-- The function `solve(s, blanks)`: the result and the grid after the call. -/
def solve (fuel : Nat) (s : Sudoku) (blanks : Option (List BlankCell)) : Option (Bool × Sudoku) :=
  match blanks with
  | none => some (true, s)
  | some [] => some (true, s)
  | some (b :: bs) => solveLoop (b :: bs) fuel s 0


/-! ## Specification predicates -/

/-- The grid has the shape of `short grid[9][9]`. -/
def Sudoku.WellFormed (s : Sudoku) : Prop :=
  s.grid.length = 9 ∧ ∀ row ∈ s.grid, row.length = 9

instance (s : Sudoku) : Decidable s.WellFormed := by
  unfold Sudoku.WellFormed; infer_instance

/-- Every cell of the grid is `0` (empty) or a digit `1..9`. -/
def Sudoku.InRange (s : Sudoku) : Prop :=
  ∀ i < 9, ∀ j < 9, 0 ≤ s.cell i j ∧ s.cell i j ≤ 9

instance (s : Sudoku) : Decidable s.InRange := by
  unfold Sudoku.InRange; infer_instance

/-- No non-zero value is held by two distinct cells of the list `cells`. -/
def NoDuplicate (s : Sudoku) (cells : List (Nat × Nat)) : Prop :=
  ∀ p ∈ cells, ∀ q ∈ cells, p ≠ q → s.cell p.1 p.2 ≠ 0 → s.cell p.1 p.2 ≠ s.cell q.1 q.2

instance (s : Sudoku) (cells : List (Nat × Nat)) : Decidable (NoDuplicate s cells) := by
  unfold NoDuplicate; infer_instance

/-- The cells of row `r`. -/
def rowCells (r : Nat) : List (Nat × Nat) := region r (r + 1) 0 SIZE

/-- The cells of column `c`. -/
def colCells (c : Nat) : List (Nat × Nat) := region 0 SIZE c (c + 1)

/-- The cells of the 3x3 box in box-row `br` and box-column `bc` (`0..2` each). -/
def boxCells (br bc : Nat) : List (Nat × Nat) :=
  region (3 * br) (3 * br + 3) (3 * bc) (3 * bc + 3)

/-- No value `1..9` is repeated in any row, column or 3x3 box. -/
def Sudoku.ConflictFree (s : Sudoku) : Prop :=
  (∀ r < 9, NoDuplicate s (rowCells r)) ∧
  (∀ c < 9, NoDuplicate s (colCells c)) ∧
  (∀ br < 3, ∀ bc < 3, NoDuplicate s (boxCells br bc))

instance (s : Sudoku) : Decidable s.ConflictFree := by
  unfold Sudoku.ConflictFree; infer_instance

/-- Two cells lie in a common row, column or 3x3 box. -/
def sameUnit (p q : Nat × Nat) : Prop :=
  p.1 = q.1 ∨ p.2 = q.2 ∨ (p.1 / 3 = q.1 / 3 ∧ p.2 / 3 = q.2 / 3)

/-- The values held by the cells of a list, in order. -/
def unitValues (s : Sudoku) (cells : List (Nat × Nat)) : List Int :=
  cells.map fun p => s.cell p.1 p.2

/-- The digits `1..9`. -/
def digits : List Int := [1, 2, 3, 4, 5, 6, 7, 8, 9]

/-- Every row, every column and every 3x3 box is a permutation of `1..9`. -/
def Sudoku.Solved (s : Sudoku) : Prop :=
  (∀ r < 9, (unitValues s (rowCells r)).Perm digits) ∧
  (∀ c < 9, (unitValues s (colCells c)).Perm digits) ∧
  (∀ br < 3, ∀ bc < 3, (unitValues s (boxCells br bc)).Perm digits)

/-- The grid `t` is a valid completion of the puzzle `g`: a solved grid that agrees
with `g` on the non-zero cells of `g`. -/
def IsCompletion (g t : Sudoku) : Prop :=
  t.WellFormed ∧ t.Solved ∧ ∀ i < 9, ∀ j < 9, g.cell i j ≠ 0 → t.cell i j = g.cell i j

/-- The number of cells of the grid that hold `0`. -/
def zeroCount (s : Sudoku) : Nat :=
  (s.grid.map fun row => row.count 0).sum

/-- The positions `(row, col)` of a descriptor list, in order. -/
def positions (blanks : List BlankCell) : List (Nat × Nat) :=
  blanks.map fun b => (b.row, b.col)

/-- The 81 cells of the grid in row-major order (row ascending, then column ascending). -/
def allCells : List (Nat × Nat) :=
  (List.range 81).map fun n => (n / 9, n % 9)

/-- Row-major order of cell positions: row ascending, then column ascending. -/
def rowMajorLt (p q : Nat × Nat) : Prop :=
  p.1 < q.1 ∨ (p.1 = q.1 ∧ p.2 < q.2)

/-! ## Predicates on the states of the cursor loop -/

/-- The descriptors built by `initBlankCells` from a grid with at least one empty cell
(closed form, see `initBlankCells_eq`). -/
def descriptors (s : Sudoku) : List BlankCell :=
  (allCells.filter fun p => s.cell p.1 p.2 = 0).map fun p => (fillBlankCell s p.1 p.2).2

/-- The descriptor list `blanks` lists distinct cells of the 9x9 grid. -/
def DistinctCells (blanks : List BlankCell) : Prop :=
  (∀ b ∈ blanks, b.row < 9 ∧ b.col < 9) ∧ (positions blanks).Nodup

/-- Invariant of the cursor loop of `solve` started on grid `g`: at cursor `k` the cells
that are not listed are those of `g`, the listed cells hold `0..9`, those after the
cursor are empty and those before it are not. -/
def LoopInv (g : Sudoku) (blanks : List BlankCell) (s : Sudoku) (k : Nat) : Prop :=
  s.WellFormed ∧ k ≤ blanks.length ∧
  (∀ i < 9, ∀ j < 9, (i, j) ∉ positions blanks → s.cell i j = g.cell i j) ∧
  (∀ m b, blanks[m]? = some b →
    0 ≤ s.cell b.row b.col ∧ s.cell b.row b.col ≤ 9 ∧
    (k < m → s.cell b.row b.col = 0) ∧ (m < k → s.cell b.row b.col ≠ 0))

/-- From state `(s, k)` the cursor loop reaches state `(s1, k1)` after some passes. -/
def Runs (blanks : List BlankCell) (s : Sudoku) (k : Nat) (s1 : Sudoku) (k1 : Nat) : Prop :=
  ∃ n, ∀ m, solveLoop blanks (n + m) s k = solveLoop blanks m s1 k1

/-- From state `(s, k)` the cursor loop returns `r` after some passes. -/
def Halts (blanks : List BlankCell) (s : Sudoku) (k : Nat) (r : Bool × Sudoku) : Prop :=
  ∃ n, ∀ m, solveLoop blanks (n + m) s k = some r

/-- Exploration below cursor `k`: from every state satisfying the invariant the loop
either returns or comes back to the previous cursor position with the cell emptied. -/
def ExploresFrom (g : Sudoku) (blanks : List BlankCell) (k : Nat) : Prop :=
  ∀ s, LoopInv g blanks s k →
    (∃ r, Halts blanks s k r) ∨
    (0 < k ∧ ∃ b, blanks[k]? = some b ∧ Runs blanks s k (s.setCell b.row b.col 0) (k - 1))

/-- Soundness invariant of the cursor loop: the grid with the cell under the cursor
emptied is conflict-free (the whole grid, once the cursor is past the last descriptor). -/
def SoundInv (blanks : List BlankCell) (s : Sudoku) (k : Nat) : Prop :=
  match blanks[k]? with
  | some b => (s.setCell b.row b.col 0).ConflictFree
  | none => s.ConflictFree

/-- Completeness invariant of the cursor loop with respect to a completion `t`: read
over the descriptors up to the cursor, the values of the grid come strictly before
those of `t` in lexicographic order (or the grid agrees with `t` on all the listed
cells, once the cursor is past the last descriptor). -/
def BelowCompletion (blanks : List BlankCell) (t s : Sudoku) (k : Nat) : Prop :=
  (∃ i b, i ≤ k ∧ blanks[i]? = some b ∧ s.cell b.row b.col < t.cell b.row b.col ∧
    ∀ j b', j < i → blanks[j]? = some b' → s.cell b'.row b'.col = t.cell b'.row b'.col) ∨
  (k = blanks.length ∧ ∀ b ∈ blanks, s.cell b.row b.col = t.cell b.row b.col)

/-! ## The solver as it is called -/

/-- The calls `blanks = initBlankCells(&s, nBlanks); solve(&s, blanks);` of `main` and of
the tests, with `nBlanks` the number of empty cells of the grid. -/
def solvePuzzle (fuel : Nat) (g : Sudoku) : Option (Bool × Sudoku) :=
  solve fuel (initBlankCells g (zeroCount g)).1 (initBlankCells g (zeroCount g)).2

/-! ## Example grids -/

/-- The solved grid expected by the test `sudokuWithSolution`. -/
def solvedGrid : Sudoku := ⟨[
  [9, 6, 2, 8, 1, 4, 5, 7, 3],
  [5, 7, 1, 3, 9, 6, 4, 8, 2],
  [3, 8, 4, 7, 2, 5, 9, 1, 6],
  [8, 3, 5, 1, 7, 9, 2, 6, 4],
  [1, 2, 6, 4, 5, 3, 7, 9, 8],
  [7, 4, 9, 6, 8, 2, 1, 3, 5],
  [2, 1, 3, 9, 4, 8, 6, 5, 7],
  [4, 9, 8, 5, 6, 7, 3, 2, 1],
  [6, 5, 7, 2, 3, 1, 8, 4, 9]]⟩

/-- The solved grid with the cells `(0, 0)` and `(4, 4)` emptied. -/
def puzzleTwoBlanks : Sudoku := ⟨[
  [0, 6, 2, 8, 1, 4, 5, 7, 3],
  [5, 7, 1, 3, 9, 6, 4, 8, 2],
  [3, 8, 4, 7, 2, 5, 9, 1, 6],
  [8, 3, 5, 1, 7, 9, 2, 6, 4],
  [1, 2, 6, 4, 0, 3, 7, 9, 8],
  [7, 4, 9, 6, 8, 2, 1, 3, 5],
  [2, 1, 3, 9, 4, 8, 6, 5, 7],
  [4, 9, 8, 5, 6, 7, 3, 2, 1],
  [6, 5, 7, 2, 3, 1, 8, 4, 9]]⟩

/-- A conflict-free puzzle without completion: cell `(0, 8)` can only hold `9` in its
row, and `9` is already in its column. -/
def puzzleNoCompletion : Sudoku := ⟨[
  [1, 2, 3, 4, 5, 6, 7, 8, 0],
  [0, 0, 0, 0, 0, 0, 0, 0, 9],
  [0, 0, 0, 0, 0, 0, 0, 0, 0],
  [0, 0, 0, 0, 0, 0, 0, 0, 0],
  [0, 0, 0, 0, 0, 0, 0, 0, 0],
  [0, 0, 0, 0, 0, 0, 0, 0, 0],
  [0, 0, 0, 0, 0, 0, 0, 0, 0],
  [0, 0, 0, 0, 0, 0, 0, 0, 0],
  [0, 0, 0, 0, 0, 0, 0, 0, 0]]⟩

/-- A full grid that is not conflict-free: row 0 (and the first box) holds `6` twice. -/
def conflictFull : Sudoku := ⟨[
  [6, 6, 2, 8, 1, 4, 5, 7, 3],
  [5, 7, 1, 3, 9, 6, 4, 8, 2],
  [3, 8, 4, 7, 2, 5, 9, 1, 6],
  [8, 3, 5, 1, 7, 9, 2, 6, 4],
  [1, 2, 6, 4, 5, 3, 7, 9, 8],
  [7, 4, 9, 6, 8, 2, 1, 3, 5],
  [2, 1, 3, 9, 4, 8, 6, 5, 7],
  [4, 9, 8, 5, 6, 7, 3, 2, 1],
  [6, 5, 7, 2, 3, 1, 8, 4, 9]]⟩

/-- The grid `conflictFull` with cell `(8, 8)` emptied: the conflict of row 0 is in no
row, column or box of an empty cell. -/
def conflictOneBlank : Sudoku := ⟨[
  [6, 6, 2, 8, 1, 4, 5, 7, 3],
  [5, 7, 1, 3, 9, 6, 4, 8, 2],
  [3, 8, 4, 7, 2, 5, 9, 1, 6],
  [8, 3, 5, 1, 7, 9, 2, 6, 4],
  [1, 2, 6, 4, 5, 3, 7, 9, 8],
  [7, 4, 9, 6, 8, 2, 1, 3, 5],
  [2, 1, 3, 9, 4, 8, 6, 5, 7],
  [4, 9, 8, 5, 6, 7, 3, 2, 1],
  [6, 5, 7, 2, 3, 1, 8, 4, 0]]⟩

/-- The grid `conflictOneBlank` after `solve`: cell `(8, 8)` holds `9`. -/
def conflictOneBlankSolved : Sudoku := ⟨[
  [6, 6, 2, 8, 1, 4, 5, 7, 3],
  [5, 7, 1, 3, 9, 6, 4, 8, 2],
  [3, 8, 4, 7, 2, 5, 9, 1, 6],
  [8, 3, 5, 1, 7, 9, 2, 6, 4],
  [1, 2, 6, 4, 5, 3, 7, 9, 8],
  [7, 4, 9, 6, 8, 2, 1, 3, 5],
  [2, 1, 3, 9, 4, 8, 6, 5, 7],
  [4, 9, 8, 5, 6, 7, 3, 2, 1],
  [6, 5, 7, 2, 3, 1, 8, 4, 9]]⟩

/-- The grid of the test `sudokuWithoutSolution` (the box of rows 0..2 and columns 6..8
holds `7` twice, at `(1, 7)` and `(2, 6)`). -/
def fixtureWithoutSolution : Sudoku := ⟨[
  [0, 0, 6, 0, 7, 1, 0, 3, 0],
  [0, 0, 0, 0, 4, 0, 0, 7, 0],
  [0, 0, 0, 0, 5, 6, 7, 0, 0],
  [0, 1, 0, 0, 0, 4, 0, 5, 0],
  [0, 8, 0, 0, 3, 0, 0, 0, 0],
  [7, 0, 0, 5, 0, 0, 6, 0, 0],
  [0, 6, 8, 0, 2, 0, 0, 0, 0],
  [0, 4, 2, 9, 0, 0, 0, 0, 7],
  [0, 9, 7, 0, 0, 3, 5, 0, 0]]⟩

/-! ## States of the cursor loop, traces of the precomputer -/

/-- The states `(s, blankIndex)` at the head of a pass of the cursor loop of `solve`
started in state `(s0, k0)`. -/
inductive Reaches (blanks : List BlankCell) (s0 : Sudoku) (k0 : Nat) : Sudoku → Nat → Prop
  | start : Reaches blanks s0 k0 s0 k0
  | pass {s : Sudoku} {k : Nat} {s1 : Sudoku} {k1 : Nat} :
      Reaches blanks s0 k0 s k → solveStep blanks s k = Step.next s1 k1 →
      Reaches blanks s0 k0 s1 k1

/-- A grid in which cell `(0, 0)` holds `3`, found nowhere else, and row 0 holds `5`
twice. -/
def duplicateElsewhere : Sudoku := ⟨[
  [3, 5, 5, 0, 0, 0, 0, 0, 0],
  [0, 0, 0, 0, 0, 0, 0, 0, 0],
  [0, 0, 0, 0, 0, 0, 0, 0, 0],
  [0, 0, 0, 0, 0, 0, 0, 0, 0],
  [0, 0, 0, 0, 0, 0, 0, 0, 0],
  [0, 0, 0, 0, 0, 0, 0, 0, 0],
  [0, 0, 0, 0, 0, 0, 0, 0, 0],
  [0, 0, 0, 0, 0, 0, 0, 0, 0],
  [0, 0, 0, 0, 0, 0, 0, 0, 0]]⟩

/-- The grid states written by the loop of `fillBlankCell`: the grid after each write
`s->grid[row][column] = k + 1`, on which `isCellValueAdmissible` is called. -/
def fillBlankCellStates (row column : Nat) : List Nat → Sudoku → List Sudoku
  | [], _ => []
  | k :: ks, s =>
    s.setCell row column ((k : Int) + 1) ::
      fillBlankCellStates row column ks (s.setCell row column ((k : Int) + 1))

/-- The grid states written by `fillBlankCell`: those of its loop, then the grid after
the final write `s->grid[row][column] = 0`. -/
def fillBlankCellTrace (s : Sudoku) (row column : Nat) : List Sudoku :=
  fillBlankCellStates row column (List.range SIZE) s ++ [(fillBlankCell s row column).1]

/-- The grid states written during the nested loops of `initBlankCells`. -/
def initBlankCellsTraceLoop : List (Nat × Nat) → Sudoku → List Sudoku
  | [], _ => []
  | (i, j) :: rest, s =>
    if s.cell i j = 0 then
      fillBlankCellTrace s i j ++ initBlankCellsTraceLoop rest (fillBlankCell s i j).1
    else initBlankCellsTraceLoop rest s

/-- The grid states written during `initBlankCells(s, blankCount)`. -/
def initBlankCellsTrace (s : Sudoku) (blankCount : Nat) : List Sudoku :=
  if blankCount = 0 then [] else initBlankCellsTraceLoop (region 0 SIZE 0 SIZE) s

/-! ## Lexicographic order of the completions -/

/-- Lexicographic order (less or equal) on sequences of values. -/
def LexLe : List Int → List Int → Prop
  | [], _ => True
  | _ :: _, [] => False
  | a :: as, b :: bs => a < b ∨ (a = b ∧ LexLe as bs)

/-- The values that the grid `t` holds at the empty cells of the puzzle `g`, read in
row-major order. -/
def blankValues (g t : Sudoku) : List Int :=
  (allCells.filter fun p => g.cell p.1 p.2 = 0).map fun p => t.cell p.1 p.2

/-! ## Descriptors without precomputed candidates -/

/-- Descriptors for the same positions in the same order whose `possibleValues` flags
are all `TRUE`. -/
def allTrueFlags (blanks : List BlankCell) : List BlankCell :=
  blanks.map fun b => ⟨b.row, b.col, List.replicate SIZE true⟩


/-! ## The parsers initSudokuFromMultipleStrings and initSudokuFromSingleString

A `char` is the integer of its code (`'\0'` is `0`, `'0'` is `48`, `'1'` is `49`, `'9'`
is `57`) and a C string is the list of its characters before the terminating `'\0'`;
reading the string at its length yields the terminator, and the parsers read nothing
after it. `rows[i]` is `none` for a `NULL` pointer. The parsers return the grid they
filled and `blankCount`. Each `for` loop takes a number of passes that its test cuts
short. -/

/-- The loop `for (; j < SIZE; j++) { s->grid[i][j] = 0; blankCount++; }`. -/
def clearRowFrom (i : Nat) : Nat → Nat → Sudoku → Nat → Sudoku × Nat
  | 0, _, s, blankCount => (s, blankCount)
  | n + 1, j, s, blankCount =>
    if j < SIZE then clearRowFrom i n (j + 1) (s.setCell i j 0) (blankCount + 1)
    else (s, blankCount)

/-- The loop `for (; i < SIZE; i++) for (j = 0; j < SIZE; j++) { s->grid[i][j] = 0;
blankCount++; }` of `initSudokuFromSingleString`. -/
def clearRowsFrom : Nat → Nat → Sudoku → Nat → Sudoku × Nat
  | 0, _, s, blankCount => (s, blankCount)
  | n + 1, i, s, blankCount =>
    if i < SIZE then
      let r := clearRowFrom i (SIZE + 1) 0 s blankCount
      clearRowsFrom n (i + 1) r.1 r.2
    else (s, blankCount)

/-- The loop `for (j = 0; j < SIZE; j++)` of `initSudokuFromMultipleStrings` on the row
`i`, from `j` on. After the inner loop of the case `c == '\0'` the variable `j` is
`SIZE`, and the `j++` of this loop follows. -/
def multipleStringsRow (row : List Int) (i : Nat) : Nat → Nat → Sudoku → Nat → Sudoku × Nat
  | 0, _, s, blankCount => (s, blankCount)
  | n + 1, j, s, blankCount =>
    if j < SIZE then
      let c := row.getD j 0
      if c = 0 then
        let r := clearRowFrom i (SIZE + 1) j s blankCount
        multipleStringsRow row i n (SIZE + 1) r.1 r.2
      else if c ≥ 49 ∧ c ≤ 57 then
        multipleStringsRow row i n (j + 1) (s.setCell i j (c - 48)) blankCount
      else
        multipleStringsRow row i n (j + 1) (s.setCell i j 0) (blankCount + 1)
    else (s, blankCount)

/-- The string `(rows[i] != NULL) ? rows[i] : ""`. -/
def rowText (rows : List (Option (List Int))) (i : Nat) : List Int :=
  (rows.getD i none).getD []

/-- The loop `for (i = 0; i < SIZE; i++)` of `initSudokuFromMultipleStrings`. -/
def multipleStringsRows (rows : List (Option (List Int))) :
    Nat → Nat → Sudoku → Nat → Sudoku × Nat
  | 0, _, s, blankCount => (s, blankCount)
  | n + 1, i, s, blankCount =>
    if i < SIZE then
      let r := multipleStringsRow (rowText rows i) i (SIZE + 1) 0 s blankCount
      multipleStringsRows rows n (i + 1) r.1 r.2
    else (s, blankCount)

/-- The function `initSudokuFromMultipleStrings(s, rows)`. -/
def initSudokuFromMultipleStrings (s : Sudoku) (rows : List (Option (List Int))) :
    Sudoku × Nat :=
  multipleStringsRows rows (SIZE + 1) 0 s 0

/-- The loop `for (j = 0; j < SIZE; j++)` of `initSudokuFromSingleString` on the row `i`,
from `j` on; the first component of the result is the value of `i` after the loop. After
the loops of the case `c == '\0'` the variables `i` and `j` are `SIZE`, and the `j++` of
this loop follows. -/
def singleStringRow (schemaAsString : List Int) :
    Nat → Nat → Nat → Sudoku → Nat → Nat × Sudoku × Nat
  | 0, i, _, s, blankCount => (i, s, blankCount)
  | n + 1, i, j, s, blankCount =>
    if j < SIZE then
      let c := schemaAsString.getD (i * SIZE + j) 0
      if c = 0 then
        let r := clearRowFrom i (SIZE + 1) j s blankCount
        let r2 := clearRowsFrom (SIZE + 1) (i + 1) r.1 r.2
        singleStringRow schemaAsString n SIZE (SIZE + 1) r2.1 r2.2
      else if c ≥ 49 ∧ c ≤ 57 then
        singleStringRow schemaAsString n i (j + 1) (s.setCell i j (c - 48)) blankCount
      else
        singleStringRow schemaAsString n i (j + 1) (s.setCell i j 0) (blankCount + 1)
    else (i, s, blankCount)

/-- The loop `for (i = 0; i < SIZE; i++)` of `initSudokuFromSingleString`. -/
def singleStringRows (schemaAsString : List Int) : Nat → Nat → Sudoku → Nat → Sudoku × Nat
  | 0, _, s, blankCount => (s, blankCount)
  | n + 1, i, s, blankCount =>
    if i < SIZE then
      let r := singleStringRow schemaAsString (SIZE + 1) i 0 s blankCount
      singleStringRows schemaAsString n (r.1 + 1) r.2.1 r.2.2
    else (s, blankCount)

/-- The function `initSudokuFromSingleString(s, schemaAsString)`. -/
def initSudokuFromSingleString (s : Sudoku) (schemaAsString : List Int) : Sudoku × Nat :=
  singleStringRows schemaAsString (SIZE + 1) 0 s 0

/-- The function `splitSudokuString(str, rows)` of the tests: 9 rows of 9 characters,
the positions past the end of `str` filled with `'0'`. -/
def splitSudokuString (str : List Int) : List (Option (List Int)) :=
  (List.range SIZE).map fun i => some ((List.range SIZE).map fun j =>
    if i * SIZE + j < str.length then str.getD (i * SIZE + j) 0 else 48)

/-- The characters of a string literal, as their codes. -/
def codes (text : String) : List Int :=
  text.toList.map fun c => (c.toNat : Int)

/-- The value that a parser stores for a character of the text (`none` is a position
past the end of the text): `d` for the digit `d` in `'1'..'9'` and `0` otherwise. -/
def cellOfChar : Option Int → Int
  | some c => if 49 ≤ c ∧ c ≤ 57 then c - 48 else 0
  | none => 0

/-- The character is none of `'1'..'9'`. -/
def notDigit (c : Int) : Bool := !(decide (49 ≤ c) && decide (c ≤ 57))

/-- The row-strings `rows` cut the string `str` into consecutive chunks of 9 characters:
there are 9 of them, none holds a `'\0'`, the character `j` of row `i` is the character
`9 * i + j` of `str`, and positions past the end of `str` are absent or hold a character
other than `'1'..'9'`. -/
def IsChunking (str : List Int) (rows : List (Option (List Int))) : Prop :=
  rows.length = 9 ∧ (∀ r ∈ rows, (0 : Int) ∉ r.getD []) ∧
  ∀ i < 9, ∀ j < 9,
    (9 * i + j < str.length → (rowText rows i)[j]? = str[9 * i + j]?) ∧
    (str.length ≤ 9 * i + j → ((rowText rows i)[j]?).all notDigit = true)

instance (str : List Int) (rows : List (Option (List Int))) : Decidable (IsChunking str rows) := by
  unfold IsChunking; infer_instance

/-- The number of positions `q < p` of the row-major scan whose value under `f` is `0`. -/
def zerosBefore (f : Nat → Nat → Int) (p : Nat) : Nat :=
  (List.range p).countP fun q => f (q / 9) (q % 9) = 0

/-- Invariant of the parsers: the grid holds the values `f` at the positions before `p`
of the row-major scan, and `blankCount` counts the zeros among them. -/
def ParsedUpTo (f : Nat → Nat → Int) (p : Nat) (s : Sudoku) (blankCount : Nat) : Prop :=
  s.WellFormed ∧ (∀ i < 9, ∀ j < 9, 9 * i + j < p → s.cell i j = f i j) ∧
  blankCount = zerosBefore f p

/-- The array `rowsPtr` of the test `sudokuWithSolution`. -/
def fixtureRows : List (Option (List Int)) :=
  [some (codes "     4  3"), some (codes " 71 9 4"), some (codes "3  7  9 6"),
   some (codes "  517  6"), some (codes "1 64 3 9"), some (codes "  96 2 35"),
   some (codes "        7"), some (codes ""), some (codes "6      4"), none]

/-- The schema of the test `blankCellsCount`. -/
def testSchema : List Int :=
  codes "53  7    6  195    98    6 8   6   34  8 3  17   2   6 6    28    419  5    8  79"

/-- The row-strings that cut `str` into consecutive chunks of 9 characters, the missing
positions absent. -/
def chunkRows (str : List Int) : List (Option (List Int)) :=
  (List.range 9).map fun i => some ((str.drop (9 * i)).take 9)

/-! # Theorems -/

/-! ## The grid as a two-dimensional array -/

theorem cell_eq_getElem (s : Sudoku) (hs : s.WellFormed) {i j : Nat} (hi : i < 9) (hj : j < 9) :
    ∃ row, s.grid[i]? = some row ∧ row.length = 9 ∧ row[j]? = some (s.cell i j) := by
  obtain ⟨hl, hr⟩ := hs
  have hi' : i < s.grid.length := by omega
  refine ⟨s.grid[i], List.getElem?_eq_getElem hi', hr _ (List.getElem_mem hi'), ?_⟩
  have hlen : (s.grid[i]).length = 9 := hr _ (List.getElem_mem hi')
  have hj' : j < (s.grid[i]).length := by omega
  simp [Sudoku.cell, List.getD_eq_getElem?_getD, List.getElem?_eq_getElem hi', List.getElem?_eq_getElem hj']

theorem wellFormed_setCell (s : Sudoku) (hs : s.WellFormed) (i j : Nat) (v : Int) :
    (s.setCell i j v).WellFormed := by
  obtain ⟨hl, hr⟩ := hs
  refine ⟨by simp [Sudoku.setCell, hl], ?_⟩
  intro row hrow
  simp only [Sudoku.setCell] at hrow
  rcases List.mem_or_eq_of_mem_set hrow with h | h
  · exact hr row h
  · subst h
    by_cases hi : i < s.grid.length
    · rw [List.length_set, List.getD_eq_getElem _ _ hi]; exact hr _ (List.getElem_mem hi)
    · rw [List.set_eq_of_length_le (by omega)] at hrow
      exact hr _ hrow

theorem cell_setCell (s : Sudoku) (hs : s.WellFormed) {i j : Nat} (hi : i < 9) (hj : j < 9)
    (v : Int) (i' j' : Nat) :
    (s.setCell i j v).cell i' j' = if i' = i ∧ j' = j then v else s.cell i' j' := by
  obtain ⟨hl, hr⟩ := hs
  have hi' : i < s.grid.length := by omega
  have hlen : (s.grid[i]).length = 9 := hr _ (List.getElem_mem hi')
  simp only [Sudoku.cell, Sudoku.setCell, List.getD_eq_getElem?_getD, List.getElem?_set]
  by_cases h1 : i = i'
  · subst h1
    simp only [hi', if_true, List.getElem?_eq_getElem hi', Option.getD_some, List.getElem?_set, true_and]
    by_cases h2 : j = j'
    · subst h2; simp [hlen, hj]
    · have : ¬ j' = j := fun h => h2 h.symm
      simp [h2, this]
  · have : ¬ i' = i := fun h => h1 h.symm
    simp [h1, this]

theorem sudoku_ext_cell {s t : Sudoku} (hs : s.WellFormed) (ht : t.WellFormed)
    (h : ∀ i < 9, ∀ j < 9, s.cell i j = t.cell i j) : s = t := by
  obtain ⟨g⟩ := s
  obtain ⟨g'⟩ := t
  congr 1
  apply List.ext_getElem?
  intro i
  by_cases hi : i < 9
  · obtain ⟨r1, h1, l1, c1⟩ := cell_eq_getElem ⟨g⟩ hs hi (Nat.zero_lt_succ 8)
    obtain ⟨r2, h2, l2, c2⟩ := cell_eq_getElem ⟨g'⟩ ht hi (Nat.zero_lt_succ 8)
    simp only at h1 h2
    rw [h1, h2]
    congr 1
    apply List.ext_getElem?
    intro j
    by_cases hj : j < 9
    · obtain ⟨r1', h1', _, c1'⟩ := cell_eq_getElem ⟨g⟩ hs hi hj
      obtain ⟨r2', h2', _, c2'⟩ := cell_eq_getElem ⟨g'⟩ ht hi hj
      simp only at h1' h2'
      rw [h1] at h1'; rw [h2] at h2'
      cases h1'; cases h2'
      rw [c1', c2', h i hi j hj]
    · rw [List.getElem?_eq_none (by omega), List.getElem?_eq_none (by omega)]
  · rw [List.getElem?_eq_none (by have := hs.1; simp only at this; omega),
      List.getElem?_eq_none (by have := ht.1; simp only at this; omega)]


/-! ## Regions -/

theorem mem_region {a b c d : Nat} {p : Nat × Nat} :
    p ∈ region a b c d ↔ a ≤ p.1 ∧ p.1 < b ∧ c ≤ p.2 ∧ p.2 < d := by
  obtain ⟨i, j⟩ := p
  simp only [region, List.mem_flatMap, List.mem_map, List.mem_range', Prod.mk.injEq]
  constructor
  · rintro ⟨i', ⟨x, hx, rfl⟩, j', ⟨y, hy, rfl⟩, rfl, rfl⟩
    omega
  · rintro ⟨h1, h2, h3, h4⟩
    exact ⟨i, ⟨i - a, by omega, by omega⟩, j, ⟨j - c, by omega, by omega⟩, rfl, rfl⟩

theorem nodup_region (a b c d : Nat) : (region a b c d).Nodup := by
  unfold region
  rw [List.nodup_flatMap]
  constructor
  · intro i _
    exact (List.nodup_range' _ _).map (fun x y h => by simpa using h)
  · apply (List.nodup_range' _ _).pairwise_of_forall_ne
    intro i _ i' _ hne
    simp only [Function.onFun]
    intro p hp hp'
    simp only [List.mem_map] at hp hp'
    obtain ⟨_, _, rfl⟩ := hp
    obtain ⟨_, _, h⟩ := hp'
    simp only [Prod.mk.injEq] at h
    exact hne h.1.symm

/-! ## isValidCombination decides NoDuplicate -/

theorem getD_set_true (l : List Bool) (a b : Nat) (ha : a < l.length) :
    (l.set a true).getD b false = false ↔ (l.getD b false = false ∧ a ≠ b) := by
  simp only [List.getD_eq_getElem?_getD, List.getElem?_set, ha, if_true]
  by_cases h : a = b
  · simp [h]
  · simp [h]

theorem getD_replicate_false (n b : Nat) : (List.replicate n false).getD b false = false := by
  simp only [List.getD_eq_getElem?_getD, List.getElem?_replicate]
  split <;> rfl

theorem isValidCombinationLoop_iff (s : Sudoku) (cells : List (Nat × Nat)) :
    ∀ isUsed : List Bool, isUsed.length = 9 →
    (∀ p ∈ cells, 0 ≤ s.cell p.1 p.2 ∧ s.cell p.1 p.2 ≤ 9) →
    (isValidCombinationLoop s cells isUsed = true ↔
      (∀ p ∈ cells, s.cell p.1 p.2 ≠ 0 → isUsed.getD (s.cell p.1 p.2 - 1).toNat false = false) ∧
      cells.Pairwise (fun p q => s.cell p.1 p.2 ≠ 0 → s.cell p.1 p.2 ≠ s.cell q.1 q.2)) := by
  induction cells with
  | nil => intro isUsed _ _; simp [isValidCombinationLoop]
  | cons p rest ih =>
    intro isUsed hlen hr
    obtain ⟨i, j⟩ := p
    have hp := hr (i, j) (List.mem_cons_self _ _)
    have hrest : ∀ q ∈ rest, 0 ≤ s.cell q.1 q.2 ∧ s.cell q.1 q.2 ≤ 9 :=
      fun q hq => hr q (List.mem_cons_of_mem _ hq)
    simp only at hp
    rw [isValidCombinationLoop, List.forall_mem_cons, List.pairwise_cons]
    by_cases hv : s.cell i j - 1 ≥ 0
    · have hne : s.cell i j ≠ 0 := by omega
      rw [if_pos hv]
      by_cases hu : isUsed.getD (s.cell i j - 1).toNat false = true
      · rw [if_pos hu]
        constructor
        · intro h; cases h
        · rintro ⟨⟨h, _⟩, _⟩
          rw [h hne] at hu; cases hu
      · have hu' : isUsed.getD (s.cell i j - 1).toNat false = false := by
          cases h : isUsed.getD (s.cell i j - 1).toNat false
          · rfl
          · exact absurd h hu
        rw [if_neg hu, ih (isUsed.set (s.cell i j - 1).toNat true)
          (by rw [List.length_set]; exact hlen) hrest]
        have key : ∀ q ∈ rest, s.cell q.1 q.2 ≠ 0 →
            ((isUsed.set (s.cell i j - 1).toNat true).getD (s.cell q.1 q.2 - 1).toNat false = false ↔
              (isUsed.getD (s.cell q.1 q.2 - 1).toNat false = false ∧ s.cell i j ≠ s.cell q.1 q.2)) := by
          intro q hq hq0
          have hqr := hrest q hq
          rw [getD_set_true _ _ _ (by omega)]
          constructor
          · rintro ⟨h1, h2⟩
            exact ⟨h1, fun h => h2 (by rw [h])⟩
          · rintro ⟨h1, h2⟩
            exact ⟨h1, fun h => h2 (by omega)⟩
        constructor
        · rintro ⟨h1, h2⟩
          refine ⟨⟨fun _ => hu', fun q hq hq0 => ((key q hq hq0).1 (h1 q hq hq0)).1⟩, ?_, h2⟩
          intro q hq _
          by_cases hq0 : s.cell q.1 q.2 = 0
          · rw [hq0]; exact hne
          · exact ((key q hq hq0).1 (h1 q hq hq0)).2
        · rintro ⟨⟨_, h1⟩, h2, h3⟩
          exact ⟨fun q hq hq0 => (key q hq hq0).2 ⟨h1 q hq hq0, h2 q hq hne⟩, h3⟩
    · have h0 : s.cell i j = 0 := by omega
      rw [if_neg hv, ih isUsed hlen hrest]
      constructor
      · rintro ⟨h1, h2⟩
        exact ⟨⟨fun h => absurd h0 h, h1⟩, fun q _ h => absurd h0 h, h2⟩
      · rintro ⟨⟨_, h1⟩, _, h2⟩
        exact ⟨h1, h2⟩

theorem isValidCombination_iff (s : Sudoku) (hr : s.InRange) {a b c d : Nat}
    (hb : b ≤ 9) (hd : d ≤ 9) :
    isValidCombination s a b c d = true ↔ NoDuplicate s (region a b c d) := by
  unfold isValidCombination
  rw [isValidCombinationLoop_iff s _ _ (List.length_replicate _ _)]
  · constructor
    · rintro ⟨_, h⟩
      intro p hp q hq hne
      refine List.Pairwise.forall ?_ h hp hq hne
      intro x y hxy hy0 heq
      exact hxy (heq ▸ hy0) heq.symm
    · intro h
      exact ⟨fun p _ _ => getD_replicate_false _ _, (nodup_region a b c d).pairwise_of_forall_ne h⟩
  · intro p hp
    rw [mem_region] at hp
    exact hr p.1 (by omega) p.2 (by omega)

/-! ## Writing a cell twice, or writing the value it holds -/

theorem setCell_setCell (s : Sudoku) (hs : s.WellFormed) {i j : Nat} (hi : i < 9) (hj : j < 9)
    (v w : Int) : (s.setCell i j v).setCell i j w = s.setCell i j w := by
  have h1 := wellFormed_setCell s hs i j v
  apply sudoku_ext_cell (wellFormed_setCell _ h1 i j w) (wellFormed_setCell s hs i j w)
  intro i' _ j' _
  rw [cell_setCell _ h1 hi hj, cell_setCell _ hs hi hj, cell_setCell _ hs hi hj]
  split <;> rfl

theorem setCell_self (s : Sudoku) (hs : s.WellFormed) {i j : Nat} (hi : i < 9) (hj : j < 9)
    {v : Int} (hv : s.cell i j = v) : s.setCell i j v = s := by
  apply sudoku_ext_cell (wellFormed_setCell s hs i j v) hs
  intro i' _ j' _
  rw [cell_setCell _ hs hi hj]
  split
  · next h => rw [h.1, h.2, hv]
  · rfl

/-! ## Conflict-freeness, cell by cell -/

theorem mem_rowCells {r : Nat} {p : Nat × Nat} : p ∈ rowCells r ↔ p.1 = r ∧ p.2 < 9 := by
  rw [rowCells, mem_region]
  have : SIZE = 9 := rfl
  omega

theorem mem_colCells {c : Nat} {p : Nat × Nat} : p ∈ colCells c ↔ p.1 < 9 ∧ p.2 = c := by
  rw [colCells, mem_region]
  have : SIZE = 9 := rfl
  omega

theorem mem_boxCells {br bc : Nat} {p : Nat × Nat} :
    p ∈ boxCells br bc ↔ p.1 / 3 = br ∧ p.2 / 3 = bc := by
  rw [boxCells, mem_region]
  omega

theorem conflictFree_iff (s : Sudoku) :
    s.ConflictFree ↔ ∀ p q : Nat × Nat, p.1 < 9 → p.2 < 9 → q.1 < 9 → q.2 < 9 → p ≠ q →
      sameUnit p q → s.cell p.1 p.2 ≠ 0 → s.cell p.1 p.2 ≠ s.cell q.1 q.2 := by
  constructor
  · rintro ⟨hrow, hcol, hbox⟩ p q hp1 hp2 hq1 hq2 hne hu
    rcases hu with h | h | ⟨h1, h2⟩
    · exact hrow p.1 hp1 p (mem_rowCells.2 ⟨rfl, hp2⟩) q (mem_rowCells.2 ⟨h.symm, hq2⟩) hne
    · exact hcol p.2 hp2 p (mem_colCells.2 ⟨hp1, rfl⟩) q (mem_colCells.2 ⟨hq1, h.symm⟩) hne
    · exact hbox (p.1 / 3) (by omega) (p.2 / 3) (by omega) p (mem_boxCells.2 ⟨rfl, rfl⟩) q
        (mem_boxCells.2 ⟨h1.symm, h2.symm⟩) hne
  · intro h
    refine ⟨?_, ?_, ?_⟩
    · intro r hr p hp q hq hne
      rw [mem_rowCells] at hp hq
      exact h p q (by omega) (by omega) (by omega) (by omega) hne (Or.inl (by omega))
    · intro c hc p hp q hq hne
      rw [mem_colCells] at hp hq
      exact h p q (by omega) (by omega) (by omega) (by omega) hne (Or.inr (Or.inl (by omega)))
    · intro br hbr bc hbc p hp q hq hne
      rw [mem_boxCells] at hp hq
      exact h p q (by omega) (by omega) (by omega) (by omega) hne
        (Or.inr (Or.inr ⟨by omega, by omega⟩))

theorem isCellValueAdmissible_iff (s : Sudoku) (hr : s.InRange) {row column : Nat}
    (hrow : row < 9) (hcol : column < 9) :
    isCellValueAdmissible s row column = true ↔
      NoDuplicate s (rowCells row) ∧ NoDuplicate s (colCells column) ∧
      NoDuplicate s (boxCells (row / 3) (column / 3)) := by
  have e1 : row / ONE_THIRD_SIZE * ONE_THIRD_SIZE = 3 * (row / 3) := Nat.mul_comm _ _
  have e2 : column / ONE_THIRD_SIZE * ONE_THIRD_SIZE = 3 * (column / 3) := Nat.mul_comm _ _
  have e3 : ONE_THIRD_SIZE = 3 := rfl
  simp only [isCellValueAdmissible, Bool.and_eq_true, e1, e2]
  rw [isValidCombination_iff s hr (by omega) (Nat.le_refl 9),
    isValidCombination_iff s hr (Nat.le_refl 9) (by omega),
    isValidCombination_iff s hr (by omega) (by omega), and_assoc]
  rfl

/-- A conflict-free grid passes the admissibility check at every cell. -/
theorem isCellValueAdmissible_of_conflictFree (s : Sudoku) (hr : s.InRange)
    (hc : s.ConflictFree) {row column : Nat} (hrow : row < 9) (hcol : column < 9) :
    isCellValueAdmissible s row column = true :=
  (isCellValueAdmissible_iff s hr hrow hcol).2
    ⟨hc.1 row hrow, hc.2.1 column hcol, hc.2.2 (row / 3) (by omega) (column / 3) (by omega)⟩

/-- A grid whose non-zero cells agree with a conflict-free grid is conflict-free. -/
theorem conflictFree_mono (u t : Sudoku) (ht : t.ConflictFree)
    (h : ∀ i < 9, ∀ j < 9, u.cell i j ≠ 0 → u.cell i j = t.cell i j) : u.ConflictFree := by
  rw [conflictFree_iff] at ht ⊢
  intro p q hp1 hp2 hq1 hq2 hne hu hp0 heq
  have hq0 : u.cell q.1 q.2 ≠ 0 := heq ▸ hp0
  have e1 := h p.1 hp1 p.2 hp2 hp0
  have e2 := h q.1 hq1 q.2 hq2 hq0
  exact ht p q hp1 hp2 hq1 hq2 hne hu (e1 ▸ hp0) (by rw [← e1, ← e2]; exact heq)

/-- If the grid with cell `(row, column)` emptied is conflict-free and the cell passes
the admissibility check, the grid is conflict-free. -/
theorem conflictFree_of_admissible (s : Sudoku) (hs : s.WellFormed) (hr : s.InRange)
    {row column : Nat} (hrow : row < 9) (hcol : column < 9)
    (h0 : (s.setCell row column 0).ConflictFree)
    (ha : isCellValueAdmissible s row column = true) : s.ConflictFree := by
  rw [isCellValueAdmissible_iff s hr hrow hcol] at ha
  obtain ⟨a1, a2, a3⟩ := ha
  rw [conflictFree_iff] at h0 ⊢
  have hself1 : (row, column) ∈ rowCells row := mem_rowCells.2 ⟨rfl, hcol⟩
  have hself2 : (row, column) ∈ colCells column := mem_colCells.2 ⟨hrow, rfl⟩
  have hself3 : (row, column) ∈ boxCells (row / 3) (column / 3) := mem_boxCells.2 ⟨rfl, rfl⟩
  intro p q hp1 hp2 hq1 hq2 hne hu hp0
  by_cases hp : p = (row, column)
  · subst hp
    rcases hu with h | h | ⟨h1, h2⟩
    · exact a1 _ hself1 q (mem_rowCells.2 ⟨h.symm, hq2⟩) hne hp0
    · exact a2 _ hself2 q (mem_colCells.2 ⟨hq1, h.symm⟩) hne hp0
    · exact a3 _ hself3 q (mem_boxCells.2 ⟨h1.symm, h2.symm⟩) hne hp0
  · by_cases hq : q = (row, column)
    · subst hq
      rcases hu with h | h | ⟨h1, h2⟩
      · exact a1 p (mem_rowCells.2 ⟨h, hp2⟩) _ hself1 hne hp0
      · exact a2 p (mem_colCells.2 ⟨hp1, h⟩) _ hself2 hne hp0
      · exact a3 p (mem_boxCells.2 ⟨h1, h2⟩) _ hself3 hne hp0
    · have ep : (s.setCell row column 0).cell p.1 p.2 = s.cell p.1 p.2 := by
        rw [cell_setCell s hs hrow hcol, if_neg]
        rintro ⟨h1, h2⟩; exact hp (Prod.ext h1 h2)
      have eq : (s.setCell row column 0).cell q.1 q.2 = s.cell q.1 q.2 := by
        rw [cell_setCell s hs hrow hcol, if_neg]
        rintro ⟨h1, h2⟩; exact hq (Prod.ext h1 h2)
      have := h0 p q hp1 hp2 hq1 hq2 hne hu
      rw [ep, eq] at this
      exact this hp0

/-! ## Solved grids -/

theorem length_region (a b c d : Nat) : (region a b c d).length = (b - a) * (d - c) := by
  simp [region, List.length_flatMap, Function.comp_def]

theorem mem_digits {v : Int} : v ∈ digits ↔ 1 ≤ v ∧ v ≤ 9 := by
  simp only [digits, List.mem_cons, List.mem_singleton, List.not_mem_nil, or_false]
  omega

theorem nodup_digits : digits.Nodup := by decide

/-- The values of a duplicate-free unit of nine non-empty cells are a permutation of `1..9`. -/
theorem perm_digits_of_noDuplicate (s : Sudoku) (cells : List (Nat × Nat))
    (hnd : cells.Nodup) (hlen : cells.length = 9)
    (hr : ∀ p ∈ cells, 1 ≤ s.cell p.1 p.2 ∧ s.cell p.1 p.2 ≤ 9)
    (h : NoDuplicate s cells) : (unitValues s cells).Perm digits := by
  have h1 : (unitValues s cells).Nodup := by
    apply List.Nodup.map_on _ hnd
    intro p hp q hq heq
    by_contra hne
    exact h p hp q hq hne (by have := hr p hp; omega) heq
  have h2 : unitValues s cells ⊆ digits := by
    intro v hv
    simp only [unitValues, List.mem_map] at hv
    obtain ⟨p, hp, rfl⟩ := hv
    exact mem_digits.2 (hr p hp)
  exact (h1.subperm h2).perm_of_length_le (by simp [unitValues, hlen, digits])

/-- In a unit whose values are a permutation of `1..9` no value is repeated. -/
theorem noDuplicate_of_perm_digits (s : Sudoku) (cells : List (Nat × Nat))
    (h : (unitValues s cells).Perm digits) : NoDuplicate s cells := by
  have hnd : (unitValues s cells).Nodup := h.nodup_iff.2 nodup_digits
  intro p hp q hq hne _ heq
  exact hne (List.inj_on_of_nodup_map hnd hp hq heq)

theorem solved_cell_mem_digits {t : Sudoku} (ht : t.Solved) {i j : Nat}
    (hi : i < 9) (hj : j < 9) : 1 ≤ t.cell i j ∧ t.cell i j ≤ 9 := by
  apply mem_digits.1
  rw [← (ht.1 i hi).mem_iff]
  exact List.mem_map.2 ⟨(i, j), mem_rowCells.2 ⟨rfl, hj⟩, rfl⟩

theorem solved_inRange {t : Sudoku} (ht : t.Solved) : t.InRange := by
  intro i hi j hj
  have := solved_cell_mem_digits ht hi hj
  omega

theorem solved_conflictFree {t : Sudoku} (ht : t.Solved) : t.ConflictFree :=
  ⟨fun r hr => noDuplicate_of_perm_digits t _ (ht.1 r hr),
   fun c hc => noDuplicate_of_perm_digits t _ (ht.2.1 c hc),
   fun br hbr bc hbc => noDuplicate_of_perm_digits t _ (ht.2.2 br hbr bc hbc)⟩

/-- A conflict-free grid without empty cell is solved. -/
theorem solved_of_conflictFree (s : Sudoku) (hr : s.InRange)
    (hfull : ∀ i < 9, ∀ j < 9, s.cell i j ≠ 0) (hc : s.ConflictFree) : s.Solved := by
  have hcell : ∀ i < 9, ∀ j < 9, 1 ≤ s.cell i j ∧ s.cell i j ≤ 9 := by
    intro i hi j hj
    have := hr i hi j hj
    have := hfull i hi j hj
    omega
  refine ⟨?_, ?_, ?_⟩
  · intro r hr'
    apply perm_digits_of_noDuplicate s _ (nodup_region _ _ _ _) (by simp [rowCells, length_region])
      _ (hc.1 r hr')
    intro p hp
    replace hp := mem_rowCells.1 hp
    exact hcell p.1 (by omega) p.2 (by omega)
  · intro c hc'
    apply perm_digits_of_noDuplicate s _ (nodup_region _ _ _ _) (by simp [colCells, length_region])
      _ (hc.2.1 c hc')
    intro p hp
    replace hp := mem_colCells.1 hp
    exact hcell p.1 (by omega) p.2 (by omega)
  · intro br hbr bc hbc
    apply perm_digits_of_noDuplicate s _ (nodup_region _ _ _ _) (by simp [boxCells, length_region])
      _ (hc.2.2 br hbr bc hbc)
    intro p hp
    replace hp := mem_boxCells.1 hp
    exact hcell p.1 (by omega) p.2 (by omega)

/-- A permutation of `1..9` contains each digit exactly once. -/
theorem count_eq_one_of_perm_digits {l : List Int} (h : l.Perm digits) {v : Int}
    (h1 : 1 ≤ v) (h9 : v ≤ 9) : l.count v = 1 := by
  rw [h.count_eq]
  exact List.count_eq_one_of_mem nodup_digits (mem_digits.2 ⟨h1, h9⟩)

/-! ## The scan for the next candidate value -/

theorem nextAdmissible_spec (possibleValues : List Bool) : ∀ n j : Nat,
    (nextAdmissible possibleValues n j = 0 ∧
      ∀ i, j ≤ i → i < j + n → possibleValues.getD i false = false) ∨
    (∃ i, j ≤ i ∧ i < j + n ∧ nextAdmissible possibleValues n j = (i : Int) + 1 ∧
      possibleValues.getD i false = true ∧
      ∀ i', j ≤ i' → i' < i → possibleValues.getD i' false = false) := by
  intro n
  induction n with
  | zero => intro j; left; exact ⟨rfl, fun i h1 h2 => by omega⟩
  | succ n ih =>
    intro j
    rw [nextAdmissible]
    by_cases h : possibleValues.getD j false = true
    · right
      exact ⟨j, Nat.le_refl _, by omega, by rw [if_pos h], h, fun i' h1 h2 => by omega⟩
    · have h' : possibleValues.getD j false = false := by
        cases hh : possibleValues.getD j false
        · rfl
        · exact absurd hh h
      rw [if_neg h]
      rcases ih (j + 1) with ⟨e, hall⟩ | ⟨i, h1, h2, e, hi, hall⟩
      · left
        refine ⟨e, fun i h1 h2 => ?_⟩
        by_cases hij : i = j
        · rw [hij]; exact h'
        · exact hall i (by omega) (by omega)
      · right
        refine ⟨i, by omega, by omega, e, hi, fun i' h1' h2' => ?_⟩
        by_cases hij : i' = j
        · rw [hij]; exact h'
        · exact hall i' (by omega) h2'

/-! ## fillBlankCell and initBlankCells -/

theorem getD_set_bool (l : List Bool) (k k' : Nat) (x : Bool) :
    (l.set k x).getD k' false = if k = k' ∧ k < l.length then x else l.getD k' false := by
  simp only [List.getD_eq_getElem?_getD, List.getElem?_set]
  by_cases h : k = k'
  · subst h
    by_cases h2 : k < l.length
    · simp [h2]
    · simp [h2, List.getElem?_eq_none (Nat.le_of_not_lt h2)]
  · simp [h]

theorem fillBlankCellLoop_spec (g : Sudoku) {row column : Nat}
    (hrow : row < 9) (hcol : column < 9) :
    ∀ (ks : List Nat) (s : Sudoku) (pv : List Bool),
      (∀ v, s.setCell row column v = g.setCell row column v) → s.WellFormed → ks.Nodup →
      (∀ v, (fillBlankCellLoop row column ks s pv).1.setCell row column v
          = g.setCell row column v) ∧
      (fillBlankCellLoop row column ks s pv).1.WellFormed ∧
      (fillBlankCellLoop row column ks s pv).2.length = pv.length ∧
      ∀ k, (fillBlankCellLoop row column ks s pv).2.getD k false =
        if k ∈ ks ∧ k < pv.length
        then isCellValueAdmissible (g.setCell row column ((k : Int) + 1)) row column
        else pv.getD k false := by
  intro ks
  induction ks with
  | nil =>
    intro s pv hs hwf _
    exact ⟨hs, hwf, rfl, fun k => by simp [fillBlankCellLoop]⟩
  | cons k ks ih =>
    intro s pv hs hwf hnd
    rw [List.nodup_cons] at hnd
    have hs1 : ∀ v, (s.setCell row column ((k : Int) + 1)).setCell row column v
        = g.setCell row column v := by
      intro v
      rw [setCell_setCell s hwf hrow hcol]
      exact hs v
    obtain ⟨r1, r2, r3, r4⟩ := ih (s.setCell row column ((k : Int) + 1))
      (pv.set k (isCellValueAdmissible (s.setCell row column ((k : Int) + 1)) row column))
      hs1 (wellFormed_setCell s hwf _ _ _) hnd.2
    rw [fillBlankCellLoop]
    refine ⟨r1, r2, by rw [r3, List.length_set], fun k' => ?_⟩
    rw [r4 k', List.length_set, getD_set_bool, hs ((k : Int) + 1)]
    by_cases hk : k' = k
    · subst hk
      simp [hnd.1]
    · have hk' : ¬ k = k' := fun h => hk h.symm
      simp [hk, hk']

/-- Purity of `fillBlankCell`: on an empty cell the grid is restored. -/
theorem fillBlankCell_fst (s : Sudoku) (hs : s.WellFormed) {row column : Nat}
    (hrow : row < 9) (hcol : column < 9) (h0 : s.cell row column = 0) :
    (fillBlankCell s row column).1 = s := by
  obtain ⟨r1, _, _, _⟩ := fillBlankCellLoop_spec s hrow hcol (List.range SIZE) s
    (List.replicate SIZE false) (fun _ => rfl) hs (List.nodup_range _)
  simp only [fillBlankCell]
  rw [r1 0]
  exact setCell_self s hs hrow hcol h0

theorem fillBlankCell_snd (s : Sudoku) (hs : s.WellFormed) {row column : Nat}
    (hrow : row < 9) (hcol : column < 9) :
    (fillBlankCell s row column).2.row = row ∧ (fillBlankCell s row column).2.col = column ∧
    (fillBlankCell s row column).2.possibleValues.length = 9 ∧
    ∀ k < 9, (fillBlankCell s row column).2.possibleValues.getD k false =
      isCellValueAdmissible (s.setCell row column ((k : Int) + 1)) row column := by
  obtain ⟨_, _, r3, r4⟩ := fillBlankCellLoop_spec s hrow hcol (List.range SIZE) s
    (List.replicate SIZE false) (fun _ => rfl) hs (List.nodup_range _)
  refine ⟨rfl, rfl, ?_, ?_⟩
  · simp only [fillBlankCell]
    rw [r3, List.length_replicate]
  · intro k hk
    simp only [fillBlankCell]
    rw [r4 k, if_pos]
    exact ⟨List.mem_range.2 hk, by rw [List.length_replicate]; exact hk⟩

theorem initBlankCellsLoop_eq (s : Sudoku) (hs : s.WellFormed) :
    ∀ (cells : List (Nat × Nat)) (blanks : List BlankCell),
      (∀ p ∈ cells, p.1 < 9 ∧ p.2 < 9) →
      initBlankCellsLoop cells s blanks =
        (s, blanks ++ (cells.filter fun p => s.cell p.1 p.2 = 0).map
          fun p => (fillBlankCell s p.1 p.2).2) := by
  intro cells
  induction cells with
  | nil => intro blanks _; simp [initBlankCellsLoop]
  | cons p rest ih =>
    intro blanks hin
    obtain ⟨i, j⟩ := p
    have hp : i < 9 ∧ j < 9 := hin (i, j) (List.mem_cons_self _ _)
    have hrest : ∀ q ∈ rest, q.1 < 9 ∧ q.2 < 9 := fun q hq => hin q (List.mem_cons_of_mem _ hq)
    rw [initBlankCellsLoop]
    by_cases h0 : s.cell i j = 0
    · rw [if_pos h0]
      simp only []
      rw [fillBlankCell_fst s hs hp.1 hp.2 h0, ih _ hrest]
      simp [List.filter_cons, h0]
    · rw [if_neg h0, ih _ hrest]
      simp [List.filter_cons, h0]

theorem region_all : region 0 SIZE 0 SIZE = allCells := by decide

theorem mem_allCells {p : Nat × Nat} : p ∈ allCells ↔ p.1 < 9 ∧ p.2 < 9 := by
  rw [← region_all, mem_region]
  have : SIZE = 9 := rfl
  omega

/-- Closed form of `initBlankCells`: the grid is returned as it was and the descriptors
are those of the empty cells in row-major order. -/
theorem initBlankCells_eq (s : Sudoku) (hs : s.WellFormed) (blankCount : Nat) :
    initBlankCells s blankCount =
      if blankCount = 0 then (s, none)
      else (s, some ((allCells.filter fun p => s.cell p.1 p.2 = 0).map
        fun p => (fillBlankCell s p.1 p.2).2)) := by
  unfold initBlankCells
  split
  · rfl
  · rw [region_all, initBlankCellsLoop_eq s hs allCells [] (fun p hp => mem_allCells.1 hp)]
    rfl

/-! ## Counting the empty cells -/

theorem grid_eq (s : Sudoku) (hs : s.WellFormed) :
    s.grid = (List.range 9).map fun i => (List.range 9).map fun j => s.cell i j := by
  apply List.ext_getElem?
  intro i
  by_cases hi : i < 9
  · obtain ⟨r, h1, l1, _⟩ := cell_eq_getElem s hs hi (Nat.zero_lt_succ 8)
    rw [h1, List.getElem?_map, List.getElem?_range hi]
    simp only [Option.map_some']
    congr 1
    apply List.ext_getElem?
    intro j
    by_cases hj : j < 9
    · obtain ⟨r', h1', _, c'⟩ := cell_eq_getElem s hs hi hj
      rw [h1] at h1'
      cases h1'
      rw [c', List.getElem?_map, List.getElem?_range hj]
      rfl
    · rw [List.getElem?_eq_none (by omega), List.getElem?_eq_none (by simp; omega)]
  · rw [List.getElem?_eq_none (by have := hs.1; omega), List.getElem?_eq_none (by simp; omega)]

theorem unitValues_allCells (s : Sudoku) (hs : s.WellFormed) :
    unitValues s allCells = s.grid.flatten := by
  conv_rhs => rw [grid_eq s hs]
  rw [← region_all]
  simp only [unitValues, region, List.map_flatMap, List.map_map, List.range_eq_range']
  rw [List.flatMap_def]
  rfl

/-- The number of empty cells is the number of cells of the row-major scan that hold `0`. -/
theorem zeroCount_eq (s : Sudoku) (hs : s.WellFormed) :
    zeroCount s = (allCells.filter fun p => s.cell p.1 p.2 = 0).length := by
  rw [zeroCount, ← List.count_flatten, ← unitValues_allCells s hs, unitValues,
    List.count_eq_countP, List.countP_map, List.countP_eq_length_filter]
  congr 1

theorem zeroCount_eq_zero_iff (s : Sudoku) (hs : s.WellFormed) :
    zeroCount s = 0 ↔ ∀ i < 9, ∀ j < 9, s.cell i j ≠ 0 := by
  rw [zeroCount_eq s hs, List.length_eq_zero, List.filter_eq_nil_iff]
  constructor
  · intro h i hi j hj
    simpa using h (i, j) (mem_allCells.2 ⟨hi, hj⟩)
  · intro h p hp
    have := mem_allCells.1 hp
    simpa using h p.1 this.1 p.2 this.2

/-! ## One pass of the cursor loop -/

theorem solveStep_cases (blanks : List BlankCell) (s : Sudoku) (k : Nat) :
    (blanks[k]? = none ∧ solveStep blanks s k = Step.ret true s) ∨
    ∃ b, blanks[k]? = some b ∧
      (((∀ i, (s.cell b.row b.col).toNat ≤ i → i < 9 → b.possibleValues.getD i false = false) ∧
          ((k = 0 ∧ solveStep blanks s k = Step.ret false (s.setCell b.row b.col 0)) ∨
           (k ≠ 0 ∧ solveStep blanks s k = Step.next (s.setCell b.row b.col 0) (k - 1)))) ∨
       (∃ i, (s.cell b.row b.col).toNat ≤ i ∧ i < 9 ∧ b.possibleValues.getD i false = true ∧
          (∀ i', (s.cell b.row b.col).toNat ≤ i' → i' < i →
            b.possibleValues.getD i' false = false) ∧
          ((isCellValueAdmissible (s.setCell b.row b.col ((i : Int) + 1)) b.row b.col = true ∧
              solveStep blanks s k = Step.next (s.setCell b.row b.col ((i : Int) + 1)) (k + 1)) ∨
           (isCellValueAdmissible (s.setCell b.row b.col ((i : Int) + 1)) b.row b.col = false ∧
              solveStep blanks s k = Step.next (s.setCell b.row b.col ((i : Int) + 1)) k)))) := by
  unfold solveStep
  cases hb : blanks[k]? with
  | none => left; exact ⟨rfl, rfl⟩
  | some b =>
    right
    refine ⟨b, rfl, ?_⟩
    simp only []
    have hS : SIZE = 9 := rfl
    rcases nextAdmissible_spec b.possibleValues (SIZE - (s.cell b.row b.col).toNat)
        (s.cell b.row b.col).toNat with ⟨e, hall⟩ | ⟨i, h1, h2, e, hi, hall⟩
    · left
      refine ⟨fun i h1 h2 => hall i h1 (by omega), ?_⟩
      rw [e]
      by_cases hk : k = 0
      · left; exact ⟨hk, by simp [hk]⟩
      · right; exact ⟨hk, by simp [hk]⟩
    · right
      refine ⟨i, h1, by omega, hi, hall, ?_⟩
      rw [e]
      have hne : ¬ ((i : Int) + 1 = 0) := by omega
      rw [if_neg hne]
      cases ha : isCellValueAdmissible (s.setCell b.row b.col ((i : Int) + 1)) b.row b.col
      · right; exact ⟨rfl, by simp⟩
      · left; exact ⟨rfl, by simp⟩

/-! ## Composition of runs -/

theorem solveLoop_next {blanks : List BlankCell} {s s1 : Sudoku} {k k1 : Nat}
    (h : solveStep blanks s k = Step.next s1 k1) (m : Nat) :
    solveLoop blanks (m + 1) s k = solveLoop blanks m s1 k1 := by
  rw [solveLoop, h]

theorem solveLoop_ret {blanks : List BlankCell} {s s1 : Sudoku} {k : Nat} {r : Bool}
    (h : solveStep blanks s k = Step.ret r s1) (m : Nat) :
    solveLoop blanks (m + 1) s k = some (r, s1) := by
  rw [solveLoop, h]

theorem runs_of_step {blanks : List BlankCell} {s s1 : Sudoku} {k k1 : Nat}
    (h : solveStep blanks s k = Step.next s1 k1) : Runs blanks s k s1 k1 :=
  ⟨1, fun m => by rw [Nat.add_comm]; exact solveLoop_next h m⟩

theorem halts_of_step {blanks : List BlankCell} {s s1 : Sudoku} {k : Nat} {r : Bool}
    (h : solveStep blanks s k = Step.ret r s1) : Halts blanks s k (r, s1) :=
  ⟨1, fun m => by rw [Nat.add_comm]; exact solveLoop_ret h m⟩

theorem runs_trans {blanks : List BlankCell} {s s1 s2 : Sudoku} {k k1 k2 : Nat}
    (h1 : Runs blanks s k s1 k1) (h2 : Runs blanks s1 k1 s2 k2) : Runs blanks s k s2 k2 := by
  obtain ⟨n1, e1⟩ := h1
  obtain ⟨n2, e2⟩ := h2
  exact ⟨n1 + n2, fun m => by rw [Nat.add_assoc, e1, e2]⟩

theorem runs_halts {blanks : List BlankCell} {s s1 : Sudoku} {k k1 : Nat} {r : Bool × Sudoku}
    (h1 : Runs blanks s k s1 k1) (h2 : Halts blanks s1 k1 r) : Halts blanks s k r := by
  obtain ⟨n1, e1⟩ := h1
  obtain ⟨n2, e2⟩ := h2
  exact ⟨n1 + n2, fun m => by rw [Nat.add_assoc, e1, e2]⟩

/-- Invariant rule for the cursor loop. -/
theorem solveLoop_invariant (blanks : List BlankCell) (Inv : Sudoku → Nat → Prop)
    (Post : Bool → Sudoku → Prop)
    (hret : ∀ s k r s1, Inv s k → solveStep blanks s k = Step.ret r s1 → Post r s1)
    (hnext : ∀ s k s1 k1, Inv s k → solveStep blanks s k = Step.next s1 k1 → Inv s1 k1) :
    ∀ (n : Nat) (s : Sudoku) (k : Nat), Inv s k →
      ∀ r s1, solveLoop blanks n s k = some (r, s1) → Post r s1 := by
  intro n
  induction n with
  | zero => intro s k _ r s1 h; simp [solveLoop] at h
  | succ n ih =>
    intro s k hinv r s1 h
    rw [solveLoop] at h
    cases hstep : solveStep blanks s k with
    | ret r' s' =>
      rw [hstep] at h
      simp only [Option.some.injEq, Prod.mk.injEq] at h
      rw [← h.1, ← h.2]
      exact hret s k r' s' hinv hstep
    | next s' k' =>
      rw [hstep] at h
      exact ih s' k' (hnext s k s' k' hinv hstep) r s1 h

/-! ## The loop invariant -/

theorem getElem?_lt {blanks : List BlankCell} {m : Nat} {b : BlankCell}
    (h : blanks[m]? = some b) : m < blanks.length := by
  obtain ⟨h', _⟩ := List.getElem?_eq_some.1 h
  exact h'

theorem distinctCells_index_eq {blanks : List BlankCell} (hd : DistinctCells blanks)
    {m k : Nat} {b b' : BlankCell} (hm : blanks[m]? = some b') (hk : blanks[k]? = some b)
    (hr : b'.row = b.row) (hc : b'.col = b.col) : m = k := by
  have h1 : (positions blanks)[m]? = some (b.row, b.col) := by
    rw [positions, List.getElem?_map, hm, Option.map_some', hr, hc]
  have h2 : (positions blanks)[k]? = some (b.row, b.col) := by
    rw [positions, List.getElem?_map, hk, Option.map_some']
  have hnd := List.nodup_iff_getElem?_ne_getElem?.1 hd.2
  have lm : m < (positions blanks).length := by
    rw [positions, List.length_map]; exact getElem?_lt hm
  have lk : k < (positions blanks).length := by
    rw [positions, List.length_map]; exact getElem?_lt hk
  rcases Nat.lt_trichotomy m k with h | h | h
  · exact absurd (h1.trans h2.symm) (hnd m k h lk)
  · exact h
  · exact absurd (h2.trans h1.symm) (hnd k m h lm)

theorem mem_positions {blanks : List BlankCell} {m : Nat} {b : BlankCell}
    (h : blanks[m]? = some b) : (b.row, b.col) ∈ positions blanks :=
  List.mem_map.2 ⟨b, List.getElem?_mem h, rfl⟩

/-- Writing a value `0..9` into the cell under the cursor and moving the cursor by at most
one keeps the loop invariant, provided the cell is emptied when the cursor moves back and
filled when it moves on. -/
theorem loopInv_setCell {g : Sudoku} {blanks : List BlankCell} (hd : DistinctCells blanks)
    {s : Sudoku} {k : Nat} (h : LoopInv g blanks s k) {b : BlankCell}
    (hb : blanks[k]? = some b) {v : Int} (hv0 : 0 ≤ v) (hv9 : v ≤ 9) {k' : Nat}
    (h1 : k' ≤ k + 1) (h2 : k ≤ k' + 1) (hz : k' < k → v = 0) (hnz : k < k' → v ≠ 0) :
    LoopInv g blanks (s.setCell b.row b.col v) k' := by
  obtain ⟨hwf, hk, hframe, hcells⟩ := h
  have hbg := hd.1 b (List.getElem?_mem hb)
  have hklt := getElem?_lt hb
  refine ⟨wellFormed_setCell s hwf _ _ _, by omega, ?_, ?_⟩
  · intro i hi j hj hnot
    rw [cell_setCell s hwf hbg.1 hbg.2, if_neg]
    · exact hframe i hi j hj hnot
    · rintro ⟨e1, e2⟩
      exact hnot (by rw [e1, e2]; exact mem_positions hb)
  · intro m b' hb'
    have hb'g := hd.1 b' (List.getElem?_mem hb')
    rw [cell_setCell s hwf hbg.1 hbg.2]
    by_cases hm : m = k
    · subst hm
      rw [hb] at hb'
      cases hb'
      rw [if_pos ⟨rfl, rfl⟩]
      exact ⟨hv0, hv9, hz, hnz⟩
    · rw [if_neg]
      · obtain ⟨c0, c9, cz, cnz⟩ := hcells m b' hb'
        exact ⟨c0, c9, fun hlt => cz (by omega), fun hlt => cnz (by omega)⟩
      · rintro ⟨e1, e2⟩
        exact hm (distinctCells_index_eq hd hb' hb e1 e2)

/-- The value under the cursor, once emptied, leaves the state as it was before the
cursor came to the cell. -/
theorem loopInv_setCell_next_zero {g : Sudoku} {blanks : List BlankCell}
    (hd : DistinctCells blanks) {s : Sudoku} {k : Nat} (h : LoopInv g blanks s k)
    {b : BlankCell} (hb : blanks[k + 1]? = some b) : s.setCell b.row b.col 0 = s := by
  have hbg := hd.1 b (List.getElem?_mem hb)
  exact setCell_self s h.1 hbg.1 hbg.2 ((h.2.2.2 (k + 1) b hb).2.2.1 (Nat.lt_succ_self k))

/-! ## Termination of the cursor loop -/

theorem exploresFrom_step {g : Sudoku} {blanks : List BlankCell} (hd : DistinctCells blanks)
    {k : Nat} (hnext : ExploresFrom g blanks (k + 1)) : ExploresFrom g blanks k := by
  have main : ∀ (n : Nat) (s : Sudoku), LoopInv g blanks s k →
      (∀ b, blanks[k]? = some b → 10 - (s.cell b.row b.col).toNat ≤ n) →
      (∃ r, Halts blanks s k r) ∨
      (0 < k ∧ ∃ b, blanks[k]? = some b ∧ Runs blanks s k (s.setCell b.row b.col 0) (k - 1)) := by
    intro n
    induction n with
    | zero =>
      intro s hinv hmeasure
      rcases solveStep_cases blanks s k with ⟨_, hstep⟩ | ⟨b, hb, _⟩
      · exact Or.inl ⟨_, halts_of_step hstep⟩
      · have := hmeasure b hb
        have := (hinv.2.2.2 k b hb).2.1
        omega
    | succ n ih =>
      intro s hinv hmeasure
      rcases solveStep_cases blanks s k with ⟨_, hstep⟩ | ⟨b, hb, hcase⟩
      · exact Or.inl ⟨_, halts_of_step hstep⟩
      · have hbg := hd.1 b (List.getElem?_mem hb)
        have hcur := hinv.2.2.2 k b hb
        rcases hcase with ⟨_, ⟨_, hstep⟩ | ⟨hk, hstep⟩⟩ | ⟨i, hi1, hi9, _, _, hadm⟩
        · exact Or.inl ⟨_, halts_of_step hstep⟩
        · exact Or.inr ⟨Nat.pos_of_ne_zero hk, b, hb, runs_of_step hstep⟩
        · have hinv1 : LoopInv g blanks (s.setCell b.row b.col ((i : Int) + 1)) k :=
            loopInv_setCell hd hinv hb (by omega) (by omega) (Nat.le_succ k) (Nat.le_succ k)
              (fun h => absurd h (Nat.lt_irrefl k)) (fun h => absurd h (Nat.lt_irrefl k))
          have hcell1 : (s.setCell b.row b.col ((i : Int) + 1)).cell b.row b.col = (i : Int) + 1 := by
            rw [cell_setCell s hinv.1 hbg.1 hbg.2, if_pos ⟨rfl, rfl⟩]
          have hrec := ih (s.setCell b.row b.col ((i : Int) + 1)) hinv1 (by
            intro b' hb'
            rw [hb] at hb'
            cases hb'
            have := hmeasure b hb
            rw [hcell1]
            omega)
          have hback : (∃ r, Halts blanks s k r) ∨
              Runs blanks s k (s.setCell b.row b.col ((i : Int) + 1)) k := by
            rcases hadm with ⟨_, hstep⟩ | ⟨_, hstep⟩
            · have hinv2 : LoopInv g blanks (s.setCell b.row b.col ((i : Int) + 1)) (k + 1) :=
                loopInv_setCell hd hinv hb (by omega) (by omega) (Nat.le_refl _) (by omega)
                  (fun h => by omega) (fun _ => by omega)
              rcases hnext _ hinv2 with ⟨r, hr⟩ | ⟨_, b', hb', hruns⟩
              · exact Or.inl ⟨r, runs_halts (runs_of_step hstep) hr⟩
              · rw [loopInv_setCell_next_zero hd hinv1 hb'] at hruns
                exact Or.inr (runs_trans (runs_of_step hstep) hruns)
            · exact Or.inr (runs_of_step hstep)
          rcases hback with hh | hruns
          · exact Or.inl hh
          · rcases hrec with ⟨r, hr⟩ | ⟨hk, b', hb', hruns'⟩
            · exact Or.inl ⟨r, runs_halts hruns hr⟩
            · rw [hb] at hb'
              cases hb'
              rw [setCell_setCell s hinv.1 hbg.1 hbg.2] at hruns'
              exact Or.inr ⟨hk, b, hb, runs_trans hruns hruns'⟩
  intro s hinv
  apply main 10 s hinv
  intro b _
  omega

/-- Termination of the cursor loop: from every state satisfying the invariant at cursor
`0` the loop returns. -/
theorem exploresFrom_all {g : Sudoku} {blanks : List BlankCell} (hd : DistinctCells blanks) :
    ∀ d k, k + d = blanks.length → ExploresFrom g blanks k := by
  intro d
  induction d with
  | zero =>
    intro k hk s _
    rcases solveStep_cases blanks s k with ⟨_, hstep⟩ | ⟨b, hb, _⟩
    · exact Or.inl ⟨_, halts_of_step hstep⟩
    · have := getElem?_lt hb
      omega
  | succ d ih =>
    intro k hk
    exact exploresFrom_step hd (ih (k + 1) (by omega))

theorem solveLoop_halts {g : Sudoku} {blanks : List BlankCell} (hd : DistinctCells blanks)
    {s : Sudoku} (hinv : LoopInv g blanks s 0) : ∃ r, Halts blanks s 0 r := by
  rcases exploresFrom_all hd blanks.length 0 (Nat.zero_add _) s hinv with h | ⟨h, _⟩
  · exact h
  · exact absurd h (Nat.lt_irrefl 0)

/-! ## The descriptors of a grid -/

theorem positions_descriptors (g : Sudoku) :
    positions (descriptors g) = allCells.filter fun p => g.cell p.1 p.2 = 0 := by
  simp only [positions, descriptors, List.map_map]
  conv_rhs => rw [← List.map_id (List.filter _ _)]
  rfl

theorem nodup_allCells : allCells.Nodup := by
  rw [← region_all]; exact nodup_region _ _ _ _

theorem mem_positions_descriptors (g : Sudoku) {p : Nat × Nat} :
    p ∈ positions (descriptors g) ↔ p.1 < 9 ∧ p.2 < 9 ∧ g.cell p.1 p.2 = 0 := by
  rw [positions_descriptors, List.mem_filter, mem_allCells]
  simp [and_assoc]

theorem mem_descriptors {g : Sudoku} {b : BlankCell} (hb : b ∈ descriptors g) :
    b.row < 9 ∧ b.col < 9 ∧ g.cell b.row b.col = 0 ∧ b = (fillBlankCell g b.row b.col).2 := by
  simp only [descriptors, List.mem_map, List.mem_filter, decide_eq_true_eq] at hb
  obtain ⟨p, ⟨hp, h0⟩, rfl⟩ := hb
  have := mem_allCells.1 hp
  exact ⟨this.1, this.2, h0, rfl⟩

theorem distinctCells_descriptors (g : Sudoku) : DistinctCells (descriptors g) := by
  refine ⟨fun b hb => ⟨(mem_descriptors hb).1, (mem_descriptors hb).2.1⟩, ?_⟩
  rw [positions_descriptors]
  exact nodup_allCells.filter _

/-- The flags of a descriptor: `possibleValues[k]` tells whether `k + 1` written into the
cell of the initial grid passes the admissibility check. -/
theorem possibleValues_descriptors {g : Sudoku} (hg : g.WellFormed) {b : BlankCell}
    (hb : b ∈ descriptors g) {k : Nat} (hk : k < 9) :
    b.possibleValues.getD k false =
      isCellValueAdmissible (g.setCell b.row b.col ((k : Int) + 1)) b.row b.col := by
  obtain ⟨h1, h2, _, e⟩ := mem_descriptors hb
  have := (fillBlankCell_snd g hg h1 h2).2.2.2 k hk
  rw [← e] at this
  exact this

theorem loopInv_init {g : Sudoku} (hg : g.WellFormed) : LoopInv g (descriptors g) g 0 := by
  refine ⟨hg, Nat.zero_le _, fun _ _ _ _ _ => rfl, ?_⟩
  intro m b hb
  have h0 := (mem_descriptors (List.getElem?_mem hb)).2.2.1
  rw [h0]
  exact ⟨le_refl _, by omega, fun _ => rfl, fun h => absurd h (Nat.not_lt_zero m)⟩

/-! ## The loop invariant is kept by every pass -/

theorem loopInv_next {g : Sudoku} {blanks : List BlankCell} (hd : DistinctCells blanks)
    {s s1 : Sudoku} {k k1 : Nat} (hinv : LoopInv g blanks s k)
    (hstep : solveStep blanks s k = Step.next s1 k1) : LoopInv g blanks s1 k1 := by
  rcases solveStep_cases blanks s k with ⟨_, e⟩ | ⟨b, hb, ⟨_, ⟨_, e⟩ | ⟨hk, e⟩⟩ |
    ⟨i, _, hi9, _, _, ⟨_, e⟩ | ⟨_, e⟩⟩⟩
  · rw [e] at hstep; cases hstep
  · rw [e] at hstep; cases hstep
  · rw [e] at hstep; cases hstep
    exact loopInv_setCell hd hinv hb (le_refl _) (by omega) (by omega) (by omega) (fun _ => rfl)
      (fun h => by omega)
  · rw [e] at hstep; cases hstep
    exact loopInv_setCell hd hinv hb (by omega) (by omega) (le_refl _) (by omega) (fun h => by omega)
      (fun _ => by omega)
  · rw [e] at hstep; cases hstep
    exact loopInv_setCell hd hinv hb (by omega) (by omega) (Nat.le_succ _) (Nat.le_succ _)
      (fun h => by omega) (fun h => by omega)

/-- What the loop invariant gives when the loop returns: on `TRUE` the grid is the
current one and the cursor is past the last descriptor; on `FALSE` every listed cell
is empty again. -/
theorem loopInv_ret {g : Sudoku} {blanks : List BlankCell} (hd : DistinctCells blanks)
    {s s1 : Sudoku} {k : Nat} {r : Bool} (hinv : LoopInv g blanks s k)
    (hstep : solveStep blanks s k = Step.ret r s1) :
    (r = true → LoopInv g blanks s1 blanks.length) ∧
    (r = false → LoopInv g blanks s1 0 ∧ ∀ b ∈ blanks, s1.cell b.row b.col = 0) := by
  rcases solveStep_cases blanks s k with ⟨hnone, e⟩ | ⟨b, hb, ⟨_, ⟨hk, e⟩ | ⟨hk, e⟩⟩ |
    ⟨i, _, hi9, _, _, ⟨_, e⟩ | ⟨_, e⟩⟩⟩
  · rw [e] at hstep; cases hstep
    have hk : k = blanks.length := by
      have := List.getElem?_eq_none_iff.1 hnone
      have := hinv.2.1
      omega
    exact ⟨fun _ => hk ▸ hinv, fun h => by cases h⟩
  · rw [e] at hstep; cases hstep
    subst hk
    have hinv1 : LoopInv g blanks (s.setCell b.row b.col 0) 0 :=
      loopInv_setCell hd hinv hb (le_refl _) (by omega) (by omega) (by omega) (fun _ => rfl)
        (fun h => by omega)
    refine ⟨fun h => (by cases h), fun _ => ⟨hinv1, ?_⟩⟩
    intro b' hb'
    obtain ⟨m, hm⟩ := List.mem_iff_getElem?.1 hb'
    by_cases h0 : m = 0
    · subst h0
      rw [hb] at hm
      cases hm
      have hbg := hd.1 b (List.getElem?_mem hb)
      rw [cell_setCell s hinv.1 hbg.1 hbg.2, if_pos ⟨rfl, rfl⟩]
    · exact (hinv1.2.2.2 m b' hm).2.2.1 (Nat.pos_of_ne_zero h0)
  · rw [e] at hstep; cases hstep
  · rw [e] at hstep; cases hstep
  · rw [e] at hstep; cases hstep

/-! ## Soundness of the cursor loop -/

theorem loopInv_inRange {g : Sudoku} {blanks : List BlankCell} {s : Sudoku} {k : Nat}
    (h : LoopInv g blanks s k) (hg : g.InRange) : s.InRange := by
  intro i hi j hj
  by_cases hp : (i, j) ∈ positions blanks
  · obtain ⟨b, hb, e⟩ := List.mem_map.1 hp
    obtain ⟨m, hm⟩ := List.mem_iff_getElem?.1 hb
    simp only [Prod.mk.injEq] at e
    have := h.2.2.2 m b hm
    rw [e.1, e.2] at this
    exact ⟨this.1, this.2.1⟩
  · rw [h.2.2.1 i hi j hj hp]
    exact hg i hi j hj

theorem conflictFree_setCell_zero {s : Sudoku} (hs : s.WellFormed) (hc : s.ConflictFree)
    {i j : Nat} (hi : i < 9) (hj : j < 9) : (s.setCell i j 0).ConflictFree := by
  apply conflictFree_mono _ s hc
  intro i' _ j' _
  rw [cell_setCell s hs hi hj]
  split
  · intro h; exact absurd rfl h
  · intro _; rfl

theorem soundInv_of_conflictFree {blanks : List BlankCell} (hd : DistinctCells blanks)
    {s : Sudoku} (hs : s.WellFormed) (hc : s.ConflictFree) (k : Nat) : SoundInv blanks s k := by
  unfold SoundInv
  split
  · next b hb =>
    have hbg := hd.1 b (List.getElem?_mem hb)
    exact conflictFree_setCell_zero hs hc hbg.1 hbg.2
  · exact hc

theorem soundInv_next {g : Sudoku} (hg : g.InRange) {blanks : List BlankCell}
    (hd : DistinctCells blanks) {s s1 : Sudoku} {k k1 : Nat}
    (hinv : LoopInv g blanks s k) (hsound : SoundInv blanks s k)
    (hstep : solveStep blanks s k = Step.next s1 k1) : SoundInv blanks s1 k1 := by
  have hinv1 := loopInv_next hd hinv hstep
  rcases solveStep_cases blanks s k with ⟨_, e⟩ | ⟨b, hb, ⟨_, ⟨_, e⟩ | ⟨hk, e⟩⟩ |
    ⟨i, _, hi9, _, _, ⟨hadm, e⟩ | ⟨_, e⟩⟩⟩
  · rw [e] at hstep; cases hstep
  · rw [e] at hstep; cases hstep
  · rw [e] at hstep; cases hstep
    unfold SoundInv at hsound
    rw [hb] at hsound
    exact soundInv_of_conflictFree hd hinv1.1 hsound _
  · rw [e] at hstep; cases hstep
    have hbg := hd.1 b (List.getElem?_mem hb)
    unfold SoundInv at hsound
    rw [hb] at hsound
    apply soundInv_of_conflictFree hd hinv1.1
    apply conflictFree_of_admissible _ hinv1.1 (loopInv_inRange hinv1 hg) hbg.1 hbg.2 _ hadm
    rw [setCell_setCell s hinv.1 hbg.1 hbg.2]
    exact hsound
  · rw [e] at hstep; cases hstep
    have hbg := hd.1 b (List.getElem?_mem hb)
    unfold SoundInv at hsound ⊢
    rw [hb] at hsound ⊢
    simp only []
    rw [setCell_setCell s hinv.1 hbg.1 hbg.2]
    exact hsound

theorem soundInv_ret {blanks : List BlankCell} {s s1 : Sudoku} {k : Nat}
    (hsound : SoundInv blanks s k)
    (hstep : solveStep blanks s k = Step.ret true s1) : s1.ConflictFree := by
  rcases solveStep_cases blanks s k with ⟨hnone, e⟩ | ⟨b, hb, ⟨_, ⟨hk, e⟩ | ⟨hk, e⟩⟩ |
    ⟨i, _, hi9, _, _, ⟨_, e⟩ | ⟨_, e⟩⟩⟩
  · rw [e] at hstep; cases hstep
    unfold SoundInv at hsound
    rw [hnone] at hsound
    exact hsound
  all_goals (rw [e] at hstep; cases hstep)

/-- Whenever the loop, started on a conflict-free grid, returns `TRUE`, the grid is
conflict-free, every listed cell holds a non-zero value and the other cells are
unchanged. -/
theorem solveLoop_sound {g : Sudoku} (hwf : g.WellFormed) (hg : g.InRange)
    (hc : g.ConflictFree) {blanks : List BlankCell} (hd : DistinctCells blanks)
    (hinit : LoopInv g blanks g 0) {n : Nat} {s1 : Sudoku}
    (h : solveLoop blanks n g 0 = some (true, s1)) :
    LoopInv g blanks s1 blanks.length ∧ s1.ConflictFree := by
  have := solveLoop_invariant blanks (fun s k => LoopInv g blanks s k ∧ SoundInv blanks s k)
    (fun r s1 => r = true → LoopInv g blanks s1 blanks.length ∧ s1.ConflictFree)
    (fun s k r s1 hinv hstep hr => by
      subst hr
      exact ⟨(loopInv_ret hd hinv.1 hstep).1 rfl, soundInv_ret hinv.2 hstep⟩)
    (fun s k s1 k1 hinv hstep =>
      ⟨loopInv_next hd hinv.1 hstep, soundInv_next hg hd hinv.1 hinv.2 hstep⟩)
    n g 0 ⟨hinit, soundInv_of_conflictFree hd hwf hc 0⟩ true s1 h
  exact this rfl

/-! ## Completeness of the cursor loop -/

/-- Writing the cell of one descriptor does not change the cell of another one. -/
theorem cell_setCell_other {blanks : List BlankCell} (hd : DistinctCells blanks)
    {s : Sudoku} (hs : s.WellFormed) {k m : Nat} {b b' : BlankCell}
    (hb : blanks[k]? = some b) (hb' : blanks[m]? = some b') (hne : m ≠ k) (v : Int) :
    (s.setCell b.row b.col v).cell b'.row b'.col = s.cell b'.row b'.col := by
  have hbg := hd.1 b (List.getElem?_mem hb)
  rw [cell_setCell s hs hbg.1 hbg.2, if_neg]
  rintro ⟨e1, e2⟩
  exact hne (distinctCells_index_eq hd hb' hb e1 e2)

theorem cell_setCell_same {blanks : List BlankCell} (hd : DistinctCells blanks)
    {s : Sudoku} (hs : s.WellFormed) {k : Nat} {b : BlankCell}
    (hb : blanks[k]? = some b) (v : Int) :
    (s.setCell b.row b.col v).cell b.row b.col = v := by
  have hbg := hd.1 b (List.getElem?_mem hb)
  rw [cell_setCell s hs hbg.1 hbg.2, if_pos ⟨rfl, rfl⟩]

/-- The value of a completion at an empty cell has its flag set in the descriptor. -/
theorem flag_of_completion {g t : Sudoku} (hwf : g.WellFormed) (hg : g.InRange)
    (ht : IsCompletion g t) {b : BlankCell} (hb : b ∈ descriptors g) :
    b.possibleValues.getD (t.cell b.row b.col - 1).toNat false = true := by
  obtain ⟨h1, h2, _, _⟩ := mem_descriptors hb
  obtain ⟨_, hsolved, hext⟩ := ht
  have hv := solved_cell_mem_digits hsolved h1 h2
  rw [possibleValues_descriptors hwf hb (by omega)]
  have e : (((t.cell b.row b.col - 1).toNat : Nat) : Int) + 1 = t.cell b.row b.col := by omega
  rw [e]
  apply isCellValueAdmissible_of_conflictFree _ _ _ h1 h2
  · intro i hi j hj
    rw [cell_setCell g hwf h1 h2]
    split
    · omega
    · exact hg i hi j hj
  · apply conflictFree_mono _ t (solved_conflictFree hsolved)
    intro i hi j hj
    rw [cell_setCell g hwf h1 h2]
    split
    · next h => intro _; rw [h.1, h.2]
    · intro h; exact (hext i hi j hj h).symm

/-- A state that agrees with a completion on the cells up to the cursor passes the
admissibility check. -/
theorem admissible_of_agree {g t : Sudoku} (hg : g.InRange) (ht : IsCompletion g t)
    {blanks : List BlankCell} (hd : DistinctCells blanks) {s : Sudoku} {k : Nat}
    (hinv : LoopInv g blanks s k) {b : BlankCell} (hb : blanks[k]? = some b)
    (hagree : ∀ j b', j ≤ k → blanks[j]? = some b' →
      s.cell b'.row b'.col = t.cell b'.row b'.col) :
    isCellValueAdmissible s b.row b.col = true := by
  have hbg := hd.1 b (List.getElem?_mem hb)
  obtain ⟨_, hsolved, hext⟩ := ht
  apply isCellValueAdmissible_of_conflictFree _ (loopInv_inRange hinv hg) _ hbg.1 hbg.2
  apply conflictFree_mono _ t (solved_conflictFree hsolved)
  intro i hi j hj hne
  by_cases hp : (i, j) ∈ positions blanks
  · obtain ⟨b', hb', e⟩ := List.mem_map.1 hp
    obtain ⟨m, hm⟩ := List.mem_iff_getElem?.1 hb'
    simp only [Prod.mk.injEq] at e
    rw [← e.1, ← e.2] at hne ⊢
    by_cases hmk : m ≤ k
    · exact hagree m b' hmk hm
    · exact absurd ((hinv.2.2.2 m b' hm).2.2.1 (by omega)) hne
  · rw [hinv.2.2.1 i hi j hj hp] at hne ⊢
    exact (hext i hi j hj hne).symm

theorem belowCompletion_step {g t : Sudoku} (hwf : g.WellFormed) (hg : g.InRange)
    (ht : IsCompletion g t) {s : Sudoku} {k : Nat}
    (hinv : LoopInv g (descriptors g) s k) (hbelow : BelowCompletion (descriptors g) t s k) :
    (∀ s1, solveStep (descriptors g) s k ≠ Step.ret false s1) ∧
    (∀ s1 k1, solveStep (descriptors g) s k = Step.next s1 k1 →
      BelowCompletion (descriptors g) t s1 k1) := by
  have hd := distinctCells_descriptors g
  rcases solveStep_cases (descriptors g) s k with ⟨_, e⟩ | ⟨b, hb, hcase⟩
  · rw [e]
    exact ⟨fun s1 h => (by cases h), fun s1 k1 h => (by cases h)⟩
  have hklt := getElem?_lt hb
  have hbmem := List.getElem?_mem hb
  have hbg := hd.1 b hbmem
  have htb := solved_cell_mem_digits ht.2.1 hbg.1 hbg.2
  have hflag := flag_of_completion hwf hg ht hbmem
  have hcur := hinv.2.2.2 k b hb
  -- the witness of `hbelow` is an index `i ≤ k`
  obtain ⟨i, bi, hik, hbi, hlt, hpre⟩ : ∃ i b', i ≤ k ∧ (descriptors g)[i]? = some b' ∧
      s.cell b'.row b'.col < t.cell b'.row b'.col ∧
      ∀ j b'', j < i → (descriptors g)[j]? = some b'' →
        s.cell b''.row b''.col = t.cell b''.row b''.col := by
    rcases hbelow with h | ⟨h, _⟩
    · exact h
    · omega
  -- a strict witness before the cursor survives every write at the cursor
  have keep : ∀ (v : Int) (k1 : Nat), i < k → i ≤ k1 →
      BelowCompletion (descriptors g) t (s.setCell b.row b.col v) k1 := by
    intro v k1 hik' hik1
    refine Or.inl ⟨i, bi, hik1, hbi, ?_, ?_⟩
    · rw [cell_setCell_other hd hinv.1 hb hbi (by omega)]
      exact hlt
    · intro j b'' hj hb''
      rw [cell_setCell_other hd hinv.1 hb hb'' (by omega)]
      exact hpre j b'' hj hb''
  rcases hcase with ⟨hnoflag, ⟨hk, e⟩ | ⟨hk, e⟩⟩ | ⟨i0, hi1, hi9, _, hfirst, hadm⟩
  · -- no candidate at cursor 0: impossible, the value of `t` is a candidate
    exfalso
    have hi0 : i = k := by omega
    subst hi0
    rw [hb] at hbi
    cases hbi
    have := hnoflag (t.cell b.row b.col - 1).toNat (by omega) (by omega)
    rw [hflag] at this
    cases this
  · rw [e]
    refine ⟨fun s1 h => (by cases h), fun s1 k1 h => ?_⟩
    cases h
    by_cases hi0 : i = k
    · exfalso
      subst hi0
      rw [hb] at hbi
      cases hbi
      have := hnoflag (t.cell b.row b.col - 1).toNat (by omega) (by omega)
      rw [hflag] at this
      cases this
    · exact keep 0 (k - 1) (by omega) (by omega)
  · -- a candidate `i0 + 1` is written
    have hle : i = k → (i0 : Int) + 1 ≤ t.cell b.row b.col := by
      intro hi0
      subst hi0
      rw [hb] at hbi
      cases hbi
      by_contra hcon
      have := hfirst (t.cell b.row b.col - 1).toNat (by omega) (by omega)
      rw [hflag] at this
      cases this
    have hinv1 : LoopInv g (descriptors g) (s.setCell b.row b.col ((i0 : Int) + 1)) k :=
      loopInv_setCell hd hinv hb (by omega) (by omega) (Nat.le_succ _) (Nat.le_succ _)
        (fun h => by omega) (fun h => by omega)
    have hsame := cell_setCell_same hd hinv.1 hb ((i0 : Int) + 1)
    -- when the witness is the cursor and the candidate is below the value of `t`
    have stay : ∀ k1, i = k → k ≤ k1 → (i0 : Int) + 1 < t.cell b.row b.col →
        BelowCompletion (descriptors g) t (s.setCell b.row b.col ((i0 : Int) + 1)) k1 := by
      intro k1 hi0 hk1 hlt'
      subst hi0
      refine Or.inl ⟨i, b, hk1, hb, by rw [hsame]; exact hlt', ?_⟩
      intro j b'' hj hb''
      rw [cell_setCell_other hd hinv.1 hb hb'' (by omega)]
      exact hpre j b'' hj hb''
    -- when the candidate is the value of `t`, the state agrees with `t` up to the cursor
    have agree : i = k → (i0 : Int) + 1 = t.cell b.row b.col → ∀ j b', j ≤ k →
        (descriptors g)[j]? = some b' →
        (s.setCell b.row b.col ((i0 : Int) + 1)).cell b'.row b'.col = t.cell b'.row b'.col := by
      intro hi0 heq j b' hj hb'
      subst hi0
      by_cases hji : j = i
      · subst hji
        rw [hb] at hb'
        cases hb'
        rw [hsame]
        exact heq
      · rw [cell_setCell_other hd hinv.1 hb hb' hji]
        exact hpre j b' (by omega) hb'
    rcases hadm with ⟨_, e⟩ | ⟨hnadm, e⟩
    · rw [e]
      refine ⟨fun s1 h => (by cases h), fun s1 k1 h => ?_⟩
      cases h
      by_cases hi0 : i = k
      · have hle' := hle hi0
        by_cases hlt' : (i0 : Int) + 1 < t.cell b.row b.col
        · exact stay (k + 1) hi0 (Nat.le_succ _) hlt'
        · have heq : (i0 : Int) + 1 = t.cell b.row b.col := by omega
          have hag := agree hi0 heq
          cases hnext : (descriptors g)[k + 1]? with
          | none =>
            right
            have hlen : k + 1 = (descriptors g).length := by
              have := List.getElem?_eq_none_iff.1 hnext
              omega
            refine ⟨hlen, fun b' hb' => ?_⟩
            obtain ⟨m, hm⟩ := List.mem_iff_getElem?.1 hb'
            exact hag m b' (by have := getElem?_lt hm; omega) hm
          | some b1 =>
            left
            have hb1g := hd.1 b1 (List.getElem?_mem hnext)
            have ht1 := solved_cell_mem_digits ht.2.1 hb1g.1 hb1g.2
            refine ⟨k + 1, b1, le_refl _, hnext, ?_, fun j b' hj hb' => hag j b' (by omega) hb'⟩
            rw [(hinv1.2.2.2 (k + 1) b1 hnext).2.2.1 (Nat.lt_succ_self k)]
            omega
      · exact keep _ (k + 1) (by omega) (by omega)
    · rw [e]
      refine ⟨fun s1 h => (by cases h), fun s1 k1 h => ?_⟩
      cases h
      by_cases hi0 : i = k
      · have hle' := hle hi0
        by_cases hlt' : (i0 : Int) + 1 < t.cell b.row b.col
        · exact stay k hi0 (le_refl _) hlt'
        · exfalso
          have heq : (i0 : Int) + 1 = t.cell b.row b.col := by omega
          have := admissible_of_agree hg ht hd hinv1 hb (agree hi0 heq)
          rw [hnadm] at this
          cases this
      · exact keep _ k (by omega) (by omega)

theorem belowCompletion_init {g t : Sudoku} (ht : IsCompletion g t) :
    BelowCompletion (descriptors g) t g 0 := by
  cases h0 : (descriptors g)[0]? with
  | none =>
    right
    have hlen : (descriptors g).length = 0 := by
      have := List.getElem?_eq_none_iff.1 h0
      omega
    refine ⟨hlen.symm, fun b hb => ?_⟩
    rw [List.length_eq_zero.1 hlen] at hb
    cases hb
  | some b =>
    left
    obtain ⟨h1, h2, hz, _⟩ := mem_descriptors (List.getElem?_mem h0)
    have := solved_cell_mem_digits ht.2.1 h1 h2
    exact ⟨0, b, le_refl _, h0, by rw [hz]; omega, fun j _ hj => absurd hj (Nat.not_lt_zero j)⟩

/-- The loop started on a puzzle that has a completion never returns `FALSE`. -/
theorem solveLoop_complete {g t : Sudoku} (hwf : g.WellFormed) (hg : g.InRange)
    (ht : IsCompletion g t) {n : Nat} {r : Bool} {s1 : Sudoku}
    (h : solveLoop (descriptors g) n g 0 = some (r, s1)) : r = true := by
  have hd := distinctCells_descriptors g
  refine solveLoop_invariant (descriptors g)
    (fun s k => LoopInv g (descriptors g) s k ∧ BelowCompletion (descriptors g) t s k)
    (fun r _ => r = true) ?_ ?_ n g 0 ⟨loopInv_init hwf, belowCompletion_init ht⟩ r s1 h
  · intro s k r s1 hinv hstep
    cases r
    · exact absurd hstep ((belowCompletion_step hwf hg ht hinv.1 hinv.2).1 s1)
    · rfl
  · intro s k s1 k1 hinv hstep
    exact ⟨loopInv_next hd hinv.1 hstep, (belowCompletion_step hwf hg ht hinv.1 hinv.2).2 s1 k1 hstep⟩

/-! ## A descriptor without candidate stops the search -/

/-- A descriptor all of whose flags are `FALSE` is never passed by the cursor, so the
loop cannot return `TRUE`. -/
theorem solveLoop_dead_cell {blanks : List BlankCell} {m : Nat} {bad : BlankCell}
    (hbad : blanks[m]? = some bad)
    (hflags : ∀ i < 9, bad.possibleValues.getD i false = false)
    {n : Nat} {s : Sudoku} {k : Nat} (hk : k ≤ m) {r : Bool} {s1 : Sudoku}
    (h : solveLoop blanks n s k = some (r, s1)) : r = false := by
  refine solveLoop_invariant blanks (fun _ k => k ≤ m) (fun r _ => r = false) ?_ ?_ n s k hk r s1 h
  · intro s k r s1 hk hstep
    rcases solveStep_cases blanks s k with ⟨hnone, e⟩ | ⟨b, hb, ⟨_, ⟨_, e⟩ | ⟨_, e⟩⟩ |
      ⟨i, _, hi9, _, _, ⟨_, e⟩ | ⟨_, e⟩⟩⟩
    · have := List.getElem?_eq_none_iff.1 hnone
      have := getElem?_lt hbad
      omega
    all_goals (rw [e] at hstep; cases hstep)
    rfl
  · intro s k s1 k1 hk hstep
    rcases solveStep_cases blanks s k with ⟨hnone, e⟩ | ⟨b, hb, ⟨_, ⟨_, e⟩ | ⟨_, e⟩⟩ |
      ⟨i, _, hi9, hflag, _, ⟨_, e⟩ | ⟨_, e⟩⟩⟩
    · rw [e] at hstep; cases hstep
    · rw [e] at hstep; cases hstep
    · rw [e] at hstep; cases hstep
      show k - 1 ≤ m
      omega
    · rw [e] at hstep; cases hstep
      show k + 1 ≤ m
      by_cases hkm : k = m
      · subst hkm
        rw [hb] at hbad
        cases hbad
        rw [hflags i hi9] at hflag
        cases hflag
      · omega
    · rw [e] at hstep; cases hstep
      exact hk

/-! ## Fuel -/

theorem solveLoop_mono {blanks : List BlankCell} :
    ∀ (n : Nat) (s : Sudoku) (k : Nat) (r : Bool × Sudoku),
      solveLoop blanks n s k = some r → ∀ m, solveLoop blanks (n + m) s k = some r := by
  intro n
  induction n with
  | zero => intro s k r h; simp [solveLoop] at h
  | succ n ih =>
    intro s k r h m
    rw [Nat.add_right_comm, solveLoop]
    rw [solveLoop] at h
    cases hstep : solveStep blanks s k with
    | ret r' s' => rw [hstep] at h; exact h
    | next s' k' => rw [hstep] at h; exact ih s' k' r h m

/-- The result of the loop does not depend on the fuel. -/
theorem solveLoop_unique {blanks : List BlankCell} {n n' : Nat} {s : Sudoku} {k : Nat}
    {r r' : Bool × Sudoku} (h : solveLoop blanks n s k = some r)
    (h' : solveLoop blanks n' s k = some r') : r = r' := by
  have h1 := solveLoop_mono n s k r h n'
  have h2 := solveLoop_mono n' s k r' h' n
  rw [Nat.add_comm, h1] at h2
  exact Option.some.inj h2

/-! ## Candidate flags and the units of the cell -/

theorem noDuplicate_setCell_iff (g : Sudoku) (hwf : g.WellFormed) {row column : Nat}
    (hrow : row < 9) (hcol : column < 9) (h0 : g.cell row column = 0) {v : Int} (hv : v ≠ 0)
    (cells : List (Nat × Nat)) (hz : (row, column) ∈ cells) :
    NoDuplicate (g.setCell row column v) cells ↔
      NoDuplicate g cells ∧ ∀ q ∈ cells, g.cell q.1 q.2 ≠ v := by
  have hother : ∀ q : Nat × Nat, q ≠ (row, column) →
      (g.setCell row column v).cell q.1 q.2 = g.cell q.1 q.2 := by
    intro q hq
    rw [cell_setCell g hwf hrow hcol, if_neg]
    rintro ⟨e1, e2⟩
    exact hq (Prod.ext e1 e2)
  have hself : (g.setCell row column v).cell row column = v := by
    rw [cell_setCell g hwf hrow hcol, if_pos ⟨rfl, rfl⟩]
  constructor
  · intro h
    constructor
    · intro p hp q hq hne hp0
      have hpz : p ≠ (row, column) := by
        rintro rfl
        exact hp0 h0
      by_cases hqz : q = (row, column)
      · subst hqz
        simp only [h0]
        exact hp0
      · have := h p hp q hq hne
        rw [hother p hpz, hother q hqz] at this
        exact this hp0
    · intro q hq
      by_cases hqz : q = (row, column)
      · subst hqz
        simp only [h0]
        exact fun h' => hv h'.symm
      · have := h (row, column) hz q hq (fun h' => hqz h'.symm)
        simp only [hself, hother q hqz] at this
        exact fun h' => this hv h'.symm
  · rintro ⟨h1, h2⟩ p hp q hq hne hp0
    by_cases hpz : p = (row, column)
    · subst hpz
      have hqz : q ≠ (row, column) := fun h' => hne h'.symm
      simp only [hself, hother q hqz]
      exact fun h' => h2 q hq h'.symm
    · rw [hother p hpz] at hp0 ⊢
      by_cases hqz : q = (row, column)
      · subst hqz
        simp only [hself]
        exact h2 p hp
      · rw [hother q hqz]
        exact h1 p hp q hq hne hp0

/-! ## The solver as it is called -/

theorem length_descriptors (g : Sudoku) (hwf : g.WellFormed) :
    (descriptors g).length = zeroCount g := by
  rw [descriptors, List.length_map, zeroCount_eq g hwf]

theorem solvePuzzle_eq (g : Sudoku) (hwf : g.WellFormed) (fuel : Nat) :
    solvePuzzle fuel g =
      if zeroCount g = 0 then some (true, g) else solveLoop (descriptors g) fuel g 0 := by
  unfold solvePuzzle
  rw [initBlankCells_eq g hwf]
  split
  · rfl
  · next h =>
    have hlen := length_descriptors g hwf
    show solve fuel g (some (descriptors g)) = _
    cases hd : descriptors g with
    | nil => rw [hd] at hlen; exact absurd hlen.symm h
    | cons b bs => rfl

theorem descriptors_of_init (g : Sudoku) (hwf : g.WellFormed) :
    (initBlankCells g (zeroCount g)).2.getD [] = descriptors g := by
  rw [initBlankCells_eq g hwf]
  split
  · next h =>
    have hlen := length_descriptors g hwf
    rw [h] at hlen
    rw [List.length_eq_zero.1 hlen]
    rfl
  · rfl

theorem solvePuzzle_halts (g : Sudoku) (hwf : g.WellFormed) :
    ∃ fuel r, solvePuzzle fuel g = some r := by
  by_cases h : zeroCount g = 0
  · exact ⟨0, (true, g), by rw [solvePuzzle_eq g hwf, if_pos h]⟩
  · obtain ⟨r, n, hn⟩ := solveLoop_halts (distinctCells_descriptors g) (loopInv_init hwf)
    exact ⟨n, r, by rw [solvePuzzle_eq g hwf, if_neg h]; exact hn 0⟩

theorem solvePuzzle_unique (g : Sudoku) (hwf : g.WellFormed) {n n' : Nat}
    {r r' : Bool × Sudoku} (h : solvePuzzle n g = some r) (h' : solvePuzzle n' g = some r') :
    r = r' := by
  rw [solvePuzzle_eq g hwf] at h h'
  by_cases h0 : zeroCount g = 0
  · rw [if_pos h0] at h h'
    rw [h] at h'
    exact Option.some.inj h'
  · rw [if_neg h0] at h h'
    exact solveLoop_unique h h'

/-- After a `TRUE` result every cell is non-zero, the cells that were non-zero are
unchanged and the grid is conflict-free, provided the puzzle was. -/
theorem solvePuzzle_true (g : Sudoku) (hwf : g.WellFormed) (hrange : g.InRange)
    (hfree : g.ConflictFree) {fuel : Nat} {s1 : Sudoku}
    (h : solvePuzzle fuel g = some (true, s1)) :
    s1.WellFormed ∧ s1.InRange ∧ s1.ConflictFree ∧ (∀ i < 9, ∀ j < 9, s1.cell i j ≠ 0) ∧
    ∀ i < 9, ∀ j < 9, g.cell i j ≠ 0 → s1.cell i j = g.cell i j := by
  rw [solvePuzzle_eq g hwf] at h
  split at h
  · next h0 =>
    simp only [Option.some.injEq, Prod.mk.injEq, true_and] at h
    subst h
    exact ⟨hwf, hrange, hfree, (zeroCount_eq_zero_iff g hwf).1 h0, fun _ _ _ _ _ => rfl⟩
  · obtain ⟨hinv, hc⟩ := solveLoop_sound hwf hrange hfree (distinctCells_descriptors g)
      (loopInv_init hwf) h
    refine ⟨hinv.1, loopInv_inRange hinv hrange, hc, ?_, ?_⟩
    · intro i hi j hj
      by_cases hp : (i, j) ∈ positions (descriptors g)
      · obtain ⟨b, hb, e⟩ := List.mem_map.1 hp
        obtain ⟨m, hm⟩ := List.mem_iff_getElem?.1 hb
        simp only [Prod.mk.injEq] at e
        have := (hinv.2.2.2 m b hm).2.2.2 (getElem?_lt hm)
        rw [e.1, e.2] at this
        exact this
      · rw [hinv.2.2.1 i hi j hj hp]
        intro h0
        exact hp ((mem_positions_descriptors g).2 ⟨hi, hj, h0⟩)
    · intro i hi j hj hne
      apply hinv.2.2.1 i hi j hj
      intro hp
      exact hne ((mem_positions_descriptors g).1 hp).2.2

/-! ## Facts about the example grids -/

theorem isCompletion_solvedGrid : IsCompletion puzzleTwoBlanks solvedGrid :=
  ⟨by decide, solved_of_conflictFree solvedGrid (by decide) (by decide) (by decide), by decide⟩

theorem puzzleNoCompletion_unsolvable : ∀ t, ¬ IsCompletion puzzleNoCompletion t := by
  rintro t ⟨_, hsolved, hext⟩
  have hc := (conflictFree_iff t).1 (solved_conflictFree hsolved)
  have hr := solved_cell_mem_digits hsolved (show 0 < 9 by decide) (show 8 < 9 by decide)
  have key : ∀ (q : Nat × Nat) (v : Int), q.1 < 9 → q.2 < 9 → (0, 8) ≠ q → sameUnit (0, 8) q →
      puzzleNoCompletion.cell q.1 q.2 = v → v ≠ 0 → t.cell 0 8 ≠ v := by
    intro q v h1 h2 hne hu hv hv0
    have := hc (0, 8) q (by decide) (by decide) h1 h2 hne hu (by simp only; omega)
    rw [hext q.1 h1 q.2 h2 (by rw [hv]; exact hv0), hv] at this
    exact this
  have k0 := key (0, 0) 1 (by decide) (by decide) (by decide) (Or.inl rfl) (by decide) (by decide)
  have k1 := key (0, 1) 2 (by decide) (by decide) (by decide) (Or.inl rfl) (by decide) (by decide)
  have k2 := key (0, 2) 3 (by decide) (by decide) (by decide) (Or.inl rfl) (by decide) (by decide)
  have k3 := key (0, 3) 4 (by decide) (by decide) (by decide) (Or.inl rfl) (by decide) (by decide)
  have k4 := key (0, 4) 5 (by decide) (by decide) (by decide) (Or.inl rfl) (by decide) (by decide)
  have k5 := key (0, 5) 6 (by decide) (by decide) (by decide) (Or.inl rfl) (by decide) (by decide)
  have k6 := key (0, 6) 7 (by decide) (by decide) (by decide) (Or.inl rfl) (by decide) (by decide)
  have k7 := key (0, 7) 8 (by decide) (by decide) (by decide) (Or.inl rfl) (by decide) (by decide)
  have k8 := key (1, 8) 9 (by decide) (by decide) (by decide) (Or.inr (Or.inl rfl)) (by decide)
    (by decide)
  omega

/-! # The claims -/

/-- C1 (soundness of `solve`): for every conflict-free puzzle grid with cells in `0..9`,
with descriptors built by `initBlankCells(grid, number of zero cells)`, whenever `solve`
returns `TRUE` the final grid has no zero cell and every row, every column and every
3x3 box contains each digit `1..9` exactly once (is a permutation of `1..9`). -/
theorem solve_sound (g : Sudoku) (hwf : g.WellFormed) (hrange : g.InRange)
    (hfree : g.ConflictFree) (fuel : Nat) (s1 : Sudoku)
    (h : solvePuzzle fuel g = some (true, s1)) :
    (∀ i < 9, ∀ j < 9, s1.cell i j ≠ 0) ∧
    (∀ v : Int, 1 ≤ v → v ≤ 9 →
      (∀ r < 9, (unitValues s1 (rowCells r)).count v = 1) ∧
      (∀ c < 9, (unitValues s1 (colCells c)).count v = 1) ∧
      (∀ br < 3, ∀ bc < 3, (unitValues s1 (boxCells br bc)).count v = 1)) ∧
    s1.Solved := by
  obtain ⟨_, hr1, hc1, hfull, _⟩ := solvePuzzle_true g hwf hrange hfree h
  have hsolved := solved_of_conflictFree s1 hr1 hfull hc1
  refine ⟨hfull, fun v h1 h9 => ⟨?_, ?_, ?_⟩, hsolved⟩
  · exact fun r hr => count_eq_one_of_perm_digits (hsolved.1 r hr) h1 h9
  · exact fun c hc => count_eq_one_of_perm_digits (hsolved.2.1 c hc) h1 h9
  · exact fun br hbr bc hbc => count_eq_one_of_perm_digits (hsolved.2.2 br hbr bc hbc) h1 h9

theorem solve_sound_witness :
    (∀ i < 9, ∀ j < 9, solvedGrid.cell i j ≠ 0) ∧
    (∀ v : Int, 1 ≤ v → v ≤ 9 →
      (∀ r < 9, (unitValues solvedGrid (rowCells r)).count v = 1) ∧
      (∀ c < 9, (unitValues solvedGrid (colCells c)).count v = 1) ∧
      (∀ br < 3, ∀ bc < 3, (unitValues solvedGrid (boxCells br bc)).count v = 1)) ∧
    solvedGrid.Solved :=
  solve_sound puzzleTwoBlanks (by decide) (by decide) (by decide) 10 solvedGrid (by decide)

/-- C2 (completeness of `solve`): for every puzzle grid with cells in `0..9` for which
some valid completion exists, `solve` called with descriptors built by
`initBlankCells(grid, number of zero cells)` returns `TRUE`: it returns with enough fuel,
and whatever it returns is `TRUE`. -/
theorem solve_complete (g : Sudoku) (hwf : g.WellFormed) (hrange : g.InRange)
    (t : Sudoku) (ht : IsCompletion g t) :
    (∃ fuel s1, solvePuzzle fuel g = some (true, s1)) ∧
    ∀ fuel r, solvePuzzle fuel g = some r → r.1 = true := by
  have hall : ∀ fuel r, solvePuzzle fuel g = some r → r.1 = true := by
    rintro fuel ⟨rb, rs⟩ h
    rw [solvePuzzle_eq g hwf] at h
    split at h
    · rw [← Option.some.inj h]
    · exact solveLoop_complete hwf hrange ht h
  obtain ⟨fuel, r, h⟩ := solvePuzzle_halts g hwf
  refine ⟨⟨fuel, r.2, ?_⟩, hall⟩
  rw [h, ← hall fuel r h]

theorem solve_complete_witness :
    (∃ fuel s1, solvePuzzle fuel puzzleTwoBlanks = some (true, s1)) ∧
    ∀ fuel r, solvePuzzle fuel puzzleTwoBlanks = some r → r.1 = true :=
  solve_complete puzzleTwoBlanks (by decide) (by decide) solvedGrid isCompletion_solvedGrid

/-- C3 (definitive unsolvability report): for every conflict-free puzzle grid with cells
in `0..9` that has no valid completion, `solve` called with descriptors built by
`initBlankCells(grid, number of zero cells)` returns `FALSE`: it returns with enough
fuel, and whatever it returns is `FALSE`. -/
theorem solve_reports_unsolvable (g : Sudoku) (hwf : g.WellFormed) (hrange : g.InRange)
    (hfree : g.ConflictFree) (hnone : ∀ t, ¬ IsCompletion g t) :
    (∃ fuel s1, solvePuzzle fuel g = some (false, s1)) ∧
    ∀ fuel r, solvePuzzle fuel g = some r → r.1 = false := by
  have hall : ∀ fuel r, solvePuzzle fuel g = some r → r.1 = false := by
    intro fuel r h
    cases hr : r.1 with
    | false => rfl
    | true =>
      exfalso
      have h' : solvePuzzle fuel g = some (true, r.2) := by rw [h, ← hr]
      obtain ⟨hwf1, hr1, hc1, hfull, hext⟩ := solvePuzzle_true g hwf hrange hfree h'
      exact hnone r.2 ⟨hwf1, solved_of_conflictFree r.2 hr1 hfull hc1, hext⟩
  obtain ⟨fuel, r, h⟩ := solvePuzzle_halts g hwf
  refine ⟨⟨fuel, r.2, ?_⟩, hall⟩
  rw [h, ← hall fuel r h]

theorem solve_reports_unsolvable_witness :
    (∃ fuel s1, solvePuzzle fuel puzzleNoCompletion = some (false, s1)) ∧
    ∀ fuel r, solvePuzzle fuel puzzleNoCompletion = some r → r.1 = false :=
  solve_reports_unsolvable puzzleNoCompletion (by decide) (by decide) (by decide)
    puzzleNoCompletion_unsolvable

/-- C4, as stated, fails: the full grid `conflictFull` holds `6` twice in row 0, and
`solve` returns `TRUE` on it (the descriptor array is `NULL`); the grid
`conflictOneBlank` holds the same conflict and one empty cell, and `solve` returns
`TRUE` after writing `9` into the empty cell. -/
theorem solve_invalid_input_counterexample :
    (conflictFull.WellFormed ∧ conflictFull.InRange ∧ ¬ conflictFull.ConflictFree ∧
      ∀ fuel, solvePuzzle fuel conflictFull = some (true, conflictFull)) ∧
    (conflictOneBlank.WellFormed ∧ conflictOneBlank.InRange ∧
      ¬ conflictOneBlank.ConflictFree ∧
      solvePuzzle 2 conflictOneBlank = some (true, conflictOneBlankSolved)) :=
  ⟨⟨by decide, by decide, by decide, fun _ => rfl⟩, by decide, by decide, by decide, by decide⟩

/-- C4 (amended): for every grid with cells in `0..9` in which some value `1..9` occurs
twice (at distinct cells `p` and `q`) in a row, a column or a 3x3 box that contains an
empty cell `z`, `solve` called with descriptors built by
`initBlankCells(grid, number of zero cells)` returns `FALSE`: it returns with enough
fuel, and whatever it returns is `FALSE`. -/
theorem solve_rejects_conflict_at_blank (g : Sudoku) (hwf : g.WellFormed)
    (hrange : g.InRange) (p q z : Nat × Nat)
    (hp : p.1 < 9 ∧ p.2 < 9) (hq : q.1 < 9 ∧ q.2 < 9) (hz : z.1 < 9 ∧ z.2 < 9)
    (hpq : p ≠ q) (hval : g.cell p.1 p.2 ≠ 0) (heq : g.cell p.1 p.2 = g.cell q.1 q.2)
    (hblank : g.cell z.1 z.2 = 0)
    (hunit : (p.1 = z.1 ∧ q.1 = z.1) ∨ (p.2 = z.2 ∧ q.2 = z.2) ∨
      (p.1 / 3 = z.1 / 3 ∧ p.2 / 3 = z.2 / 3 ∧ q.1 / 3 = z.1 / 3 ∧ q.2 / 3 = z.2 / 3)) :
    (∃ fuel s1, solvePuzzle fuel g = some (false, s1)) ∧
    ∀ fuel r, solvePuzzle fuel g = some r → r.1 = false := by
  have hzc : zeroCount g ≠ 0 := fun h0 =>
    (zeroCount_eq_zero_iff g hwf).1 h0 z.1 hz.1 z.2 hz.2 hblank
  obtain ⟨b, hb, e⟩ := List.mem_map.1
    ((mem_positions_descriptors g).2 ⟨hz.1, hz.2, hblank⟩)
  obtain ⟨m, hm⟩ := List.mem_iff_getElem?.1 hb
  have e1 : b.row = z.1 := congrArg Prod.fst e
  have e2 : b.col = z.2 := congrArg Prod.snd e
  have hflags : ∀ i < 9, b.possibleValues.getD i false = false := by
    intro i hi
    rw [possibleValues_descriptors hwf hb hi, e1, e2]
    have hne : ((i : Int) + 1) ≠ 0 := by omega
    have hr' : (g.setCell z.1 z.2 ((i : Int) + 1)).InRange := by
      intro i' hi' j' hj'
      rw [cell_setCell g hwf hz.1 hz.2]
      split
      · omega
      · exact hrange i' hi' j' hj'
    cases hadm : isCellValueAdmissible (g.setCell z.1 z.2 ((i : Int) + 1)) z.1 z.2 with
    | false => rfl
    | true =>
      exfalso
      obtain ⟨a1, a2, a3⟩ := (isCellValueAdmissible_iff _ hr' hz.1 hz.2).1 hadm
      rcases hunit with ⟨u1, u2⟩ | ⟨u1, u2⟩ | ⟨u1, u2, u3, u4⟩
      · exact ((noDuplicate_setCell_iff g hwf hz.1 hz.2 hblank hne _
          (mem_rowCells.2 ⟨rfl, hz.2⟩)).1 a1).1 p (mem_rowCells.2 ⟨u1, hp.2⟩) q
          (mem_rowCells.2 ⟨u2, hq.2⟩) hpq hval heq
      · exact ((noDuplicate_setCell_iff g hwf hz.1 hz.2 hblank hne _
          (mem_colCells.2 ⟨hz.1, rfl⟩)).1 a2).1 p (mem_colCells.2 ⟨hp.1, u1⟩) q
          (mem_colCells.2 ⟨hq.1, u2⟩) hpq hval heq
      · exact ((noDuplicate_setCell_iff g hwf hz.1 hz.2 hblank hne _
          (mem_boxCells.2 ⟨rfl, rfl⟩)).1 a3).1 p (mem_boxCells.2 ⟨u1, u2⟩) q
          (mem_boxCells.2 ⟨u3, u4⟩) hpq hval heq
  have hall : ∀ fuel r, solvePuzzle fuel g = some r → r.1 = false := by
    rintro fuel ⟨rb, rs⟩ h
    rw [solvePuzzle_eq g hwf, if_neg hzc] at h
    exact solveLoop_dead_cell hm hflags (Nat.zero_le m) h
  obtain ⟨fuel, r, h⟩ := solvePuzzle_halts g hwf
  refine ⟨⟨fuel, r.2, ?_⟩, hall⟩
  rw [h, ← hall fuel r h]

theorem solve_rejects_conflict_at_blank_witness :
    (∃ fuel s1, solvePuzzle fuel fixtureWithoutSolution = some (false, s1)) ∧
    ∀ fuel r, solvePuzzle fuel fixtureWithoutSolution = some r → r.1 = false :=
  solve_rejects_conflict_at_blank fixtureWithoutSolution (by decide) (by decide)
    (1, 7) (2, 6) (0, 6) (by decide) (by decide) (by decide) (by decide) (by decide)
    (by decide) (by decide) (by decide)

/-- C5 (termination of `solve`): for every grid with cells in `0..9` and the descriptor
list built by `initBlankCells` from it, the cursor loop of `solve` (the retry
`goto nextTrial` included) reaches a `return` after finitely many passes: with enough
fuel `solve` returns a result, and the result does not depend on the fuel. -/
theorem solve_terminates (g : Sudoku) (hwf : g.WellFormed) (_hrange : g.InRange) :
    ∃ r : Bool × Sudoku, (∃ fuel, solvePuzzle fuel g = some r) ∧
      ∀ fuel r', solvePuzzle fuel g = some r' → r' = r := by
  obtain ⟨fuel, r, h⟩ := solvePuzzle_halts g hwf
  exact ⟨r, ⟨fuel, h⟩, fun fuel' r' h' => solvePuzzle_unique g hwf h' h⟩

theorem solve_terminates_witness :
    ∃ r : Bool × Sudoku, (∃ fuel, solvePuzzle fuel fixtureWithoutSolution = some r) ∧
      ∀ fuel r', solvePuzzle fuel fixtureWithoutSolution = some r' → r' = r :=
  solve_terminates fixtureWithoutSolution (by decide) (by decide)

/-- C6 (state on failure): for every grid and the descriptors built by `initBlankCells`
from it, whenever `solve` returns `FALSE` every cell listed in the descriptors holds `0`
again and the final grid is equal to the grid passed to `solve`. -/
theorem solve_failure_restores (g : Sudoku) (hwf : g.WellFormed) (fuel : Nat) (s1 : Sudoku)
    (h : solvePuzzle fuel g = some (false, s1)) :
    (∀ b ∈ (initBlankCells g (zeroCount g)).2.getD [], s1.cell b.row b.col = 0) ∧
    s1 = (initBlankCells g (zeroCount g)).1 ∧ s1 = g := by
  have hd := distinctCells_descriptors g
  rw [descriptors_of_init g hwf, initBlankCells_eq g hwf]
  rw [solvePuzzle_eq g hwf] at h
  split at h
  · simp at h
  · next hzc =>
    rw [if_neg hzc]
    have hpost := solveLoop_invariant (descriptors g) (fun s k => LoopInv g (descriptors g) s k)
      (fun r s1 => r = false →
        LoopInv g (descriptors g) s1 0 ∧ ∀ b ∈ descriptors g, s1.cell b.row b.col = 0)
      (fun s k r s1 hinv hstep => (loopInv_ret hd hinv hstep).2)
      (fun s k s1 k1 hinv hstep => loopInv_next hd hinv hstep)
      fuel g 0 (loopInv_init hwf) false s1 h rfl
    obtain ⟨hinv, hzero⟩ := hpost
    have heq : s1 = g := by
      apply sudoku_ext_cell hinv.1 hwf
      intro i hi j hj
      by_cases hp : (i, j) ∈ positions (descriptors g)
      · obtain ⟨b, hb, e⟩ := List.mem_map.1 hp
        simp only [Prod.mk.injEq] at e
        have h1 := hzero b hb
        rw [e.1, e.2] at h1
        rw [h1, ((mem_positions_descriptors g).1 hp).2.2]
      · exact hinv.2.2.1 i hi j hj hp
    exact ⟨hzero, heq, heq⟩

theorem solve_failure_restores_witness :
    (∀ b ∈ (initBlankCells puzzleNoCompletion (zeroCount puzzleNoCompletion)).2.getD [],
      puzzleNoCompletion.cell b.row b.col = 0) ∧
    puzzleNoCompletion = (initBlankCells puzzleNoCompletion (zeroCount puzzleNoCompletion)).1 ∧
    puzzleNoCompletion = puzzleNoCompletion :=
  solve_failure_restores puzzleNoCompletion (by decide) 1 puzzleNoCompletion (by decide)

/-- C7 (already-complete grid): for every grid with zero empty cells that satisfies
row/column/box uniqueness, the number of zero cells is `0`, `initBlankCells(grid, 0)`
yields the `NULL` descriptor list and leaves the grid as it is, and `solve` returns
`TRUE` with the grid identical to the grid before. -/
theorem solve_full_grid (g : Sudoku) (hwf : g.WellFormed)
    (hfull : ∀ i < 9, ∀ j < 9, g.cell i j ≠ 0) (_hunique : g.ConflictFree) :
    zeroCount g = 0 ∧ initBlankCells g 0 = (g, none) ∧
    (∀ fuel, solve fuel (initBlankCells g 0).1 (initBlankCells g 0).2 = some (true, g)) ∧
    ∀ fuel, solvePuzzle fuel g = some (true, g) := by
  have h0 := (zeroCount_eq_zero_iff g hwf).2 hfull
  refine ⟨h0, rfl, fun _ => rfl, fun fuel => ?_⟩
  rw [solvePuzzle_eq g hwf, if_pos h0]

theorem solve_full_grid_witness :
    zeroCount solvedGrid = 0 ∧ initBlankCells solvedGrid 0 = (solvedGrid, none) ∧
    (∀ fuel, solve fuel (initBlankCells solvedGrid 0).1 (initBlankCells solvedGrid 0).2
      = some (true, solvedGrid)) ∧
    ∀ fuel, solvePuzzle fuel solvedGrid = some (true, solvedGrid) :=
  solve_full_grid solvedGrid (by decide) (by decide) (by decide)

/-- C8 (purity of the candidate precomputer): for every grid and `blankCount` equal to
its number of zero cells, the grid after `initBlankCells` returns is identical to the
grid before the call. -/
theorem initBlankCells_pure (g : Sudoku) (hwf : g.WellFormed) :
    (initBlankCells g (zeroCount g)).1 = g := by
  rw [initBlankCells_eq g hwf]
  split <;> rfl

theorem initBlankCells_pure_witness :
    (initBlankCells fixtureWithoutSolution (zeroCount fixtureWithoutSolution)).1
      = fixtureWithoutSolution :=
  initBlankCells_pure fixtureWithoutSolution (by decide)

theorem pairwise_allCells : allCells.Pairwise rowMajorLt := by
  unfold allCells
  rw [List.pairwise_map]
  refine List.Pairwise.imp ?_ (List.pairwise_lt_range 81)
  intro a b hab
  simp only [rowMajorLt]
  omega

/-- C9 (descriptor order and length): for every grid and `blankCount` equal to its
number of zero cells, the positions of the descriptor sequence produced by
`initBlankCells` are the cells of the row-major scan that hold `0`: a cell is listed if
and only if it is `0`, the list is strictly increasing in row-major order (so each cell
is listed once), its length is the number of zero cells, and a grid with no zero cell
yields the empty (`NULL`) sequence. -/
theorem initBlankCells_positions (g : Sudoku) (hwf : g.WellFormed) :
    positions ((initBlankCells g (zeroCount g)).2.getD []) =
      allCells.filter (fun p => g.cell p.1 p.2 = 0) ∧
    (∀ i j, (i, j) ∈ positions ((initBlankCells g (zeroCount g)).2.getD []) ↔
      i < 9 ∧ j < 9 ∧ g.cell i j = 0) ∧
    (positions ((initBlankCells g (zeroCount g)).2.getD [])).Pairwise rowMajorLt ∧
    ((initBlankCells g (zeroCount g)).2.getD []).length = zeroCount g ∧
    ((∀ i < 9, ∀ j < 9, g.cell i j ≠ 0) → (initBlankCells g (zeroCount g)).2 = none) := by
  rw [descriptors_of_init g hwf]
  refine ⟨positions_descriptors g, fun i j => mem_positions_descriptors g, ?_,
    length_descriptors g hwf, fun hfull => ?_⟩
  · rw [positions_descriptors]
    exact pairwise_allCells.filter _
  · rw [(zeroCount_eq_zero_iff g hwf).2 hfull]
    rfl

theorem initBlankCells_positions_witness :
    positions ((initBlankCells puzzleTwoBlanks (zeroCount puzzleTwoBlanks)).2.getD []) =
      allCells.filter (fun p => puzzleTwoBlanks.cell p.1 p.2 = 0) ∧
    (∀ i j, (i, j) ∈ positions
        ((initBlankCells puzzleTwoBlanks (zeroCount puzzleTwoBlanks)).2.getD []) ↔
      i < 9 ∧ j < 9 ∧ puzzleTwoBlanks.cell i j = 0) ∧
    (positions ((initBlankCells puzzleTwoBlanks (zeroCount puzzleTwoBlanks)).2.getD [])).Pairwise
      rowMajorLt ∧
    ((initBlankCells puzzleTwoBlanks (zeroCount puzzleTwoBlanks)).2.getD []).length
      = zeroCount puzzleTwoBlanks ∧
    ((∀ i < 9, ∀ j < 9, puzzleTwoBlanks.cell i j ≠ 0) →
      (initBlankCells puzzleTwoBlanks (zeroCount puzzleTwoBlanks)).2 = none) :=
  initBlankCells_positions puzzleTwoBlanks (by decide)

/-- C10 (candidate sets): for every conflict-free grid with cells in `0..9` and every
descriptor produced by `initBlankCells` (for a blank cell `(row, col)`), the array
`possibleValues` has 9 entries and `possibleValues[v - 1]` is `TRUE`, for `v` in `1..9`,
if and only if `v` does not occur in row `row`, in column `col`, or in the 3x3 box
containing `(row, col)` of the grid. -/
theorem candidate_flags (g : Sudoku) (hwf : g.WellFormed) (hrange : g.InRange)
    (hfree : g.ConflictFree) (b : BlankCell)
    (hb : b ∈ (initBlankCells g (zeroCount g)).2.getD []) :
    (b.row < 9 ∧ b.col < 9 ∧ g.cell b.row b.col = 0) ∧
    b.possibleValues.length = 9 ∧
    ∀ v : Nat, 1 ≤ v → v ≤ 9 →
      (b.possibleValues.getD (v - 1) false = true ↔
        (∀ j < 9, g.cell b.row j ≠ (v : Int)) ∧
        (∀ i < 9, g.cell i b.col ≠ (v : Int)) ∧
        (∀ i < 9, ∀ j < 9, i / 3 = b.row / 3 → j / 3 = b.col / 3 → g.cell i j ≠ (v : Int))) := by
  rw [descriptors_of_init g hwf] at hb
  obtain ⟨h1, h2, h0, e⟩ := mem_descriptors hb
  refine ⟨⟨h1, h2, h0⟩, ?_, ?_⟩
  · rw [e]; exact (fillBlankCell_snd g hwf h1 h2).2.2.1
  · intro v hv1 hv9
    have hne : (v : Int) ≠ 0 := by omega
    have ev : (((v - 1 : Nat) : Int)) + 1 = (v : Int) := by omega
    have hr' : (g.setCell b.row b.col (v : Int)).InRange := by
      intro i' hi' j' hj'
      rw [cell_setCell g hwf h1 h2]
      split
      · omega
      · exact hrange i' hi' j' hj'
    rw [possibleValues_descriptors hwf hb (by omega), ev,
      isCellValueAdmissible_iff _ hr' h1 h2,
      noDuplicate_setCell_iff g hwf h1 h2 h0 hne _ (mem_rowCells.2 ⟨rfl, h2⟩),
      noDuplicate_setCell_iff g hwf h1 h2 h0 hne _ (mem_colCells.2 ⟨h1, rfl⟩),
      noDuplicate_setCell_iff g hwf h1 h2 h0 hne _ (mem_boxCells.2 ⟨rfl, rfl⟩)]
    constructor
    · rintro ⟨⟨_, a1⟩, ⟨_, a2⟩, ⟨_, a3⟩⟩
      exact ⟨fun j hj => a1 (b.row, j) (mem_rowCells.2 ⟨rfl, hj⟩),
        fun i hi => a2 (i, b.col) (mem_colCells.2 ⟨hi, rfl⟩),
        fun i _ j _ e1 e2 => a3 (i, j) (mem_boxCells.2 ⟨e1, e2⟩)⟩
    · rintro ⟨a1, a2, a3⟩
      refine ⟨⟨hfree.1 b.row h1, ?_⟩, ⟨hfree.2.1 b.col h2, ?_⟩,
        ⟨hfree.2.2 (b.row / 3) (by omega) (b.col / 3) (by omega), ?_⟩⟩
      · intro q hq
        have : q.1 = b.row ∧ q.2 < 9 := mem_rowCells.1 hq
        have h' := a1 q.2 this.2
        rw [← this.1] at h'
        exact h'
      · intro q hq
        have : q.1 < 9 ∧ q.2 = b.col := mem_colCells.1 hq
        have h' := a2 q.1 this.1
        rw [← this.2] at h'
        exact h'
      · intro q hq
        have : q.1 / 3 = b.row / 3 ∧ q.2 / 3 = b.col / 3 := mem_boxCells.1 hq
        exact a3 q.1 (by omega) q.2 (by omega) this.1 this.2

theorem candidate_flags_witness :
    ((0 : Nat) < 9 ∧ (0 : Nat) < 9 ∧ puzzleTwoBlanks.cell 0 0 = 0) ∧
    [false, false, false, false, false, false, false, false, true].length = 9 ∧
    ∀ v : Nat, 1 ≤ v → v ≤ 9 →
      ([false, false, false, false, false, false, false, false, true].getD (v - 1) false = true ↔
        (∀ j < 9, puzzleTwoBlanks.cell 0 j ≠ (v : Int)) ∧
        (∀ i < 9, puzzleTwoBlanks.cell i 0 ≠ (v : Int)) ∧
        (∀ i < 9, ∀ j < 9, i / 3 = 0 / 3 → j / 3 = 0 / 3 → puzzleTwoBlanks.cell i j ≠ (v : Int))) :=
  candidate_flags puzzleTwoBlanks (by decide) (by decide) (by decide)
    ⟨0, 0, [false, false, false, false, false, false, false, false, true]⟩ (by decide)

/-! ## The admissibility check and the region check -/

/-- C16 (region check): for every grid with cells in `0..9` and every rectangle
`rowMin <= rowMax <= 9`, `colMin <= colMax <= 9`, `isValidCombination` returns `FALSE`
if and only if some value in `1..9` is held by two distinct cells of the region
`[rowMin, rowMax) x [colMin, colMax)`; cells equal to `0` never count. The function only
reads the grid: it returns a flag and no grid. -/
theorem isValidCombination_false_iff (s : Sudoku) (hrange : s.InRange)
    (rowMin rowMax colMin colMax : Nat) (_hr : rowMin ≤ rowMax) (hr9 : rowMax ≤ 9)
    (_hc : colMin ≤ colMax) (hc9 : colMax ≤ 9) :
    isValidCombination s rowMin rowMax colMin colMax = false ↔
      ∃ i j i' j', (rowMin ≤ i ∧ i < rowMax ∧ colMin ≤ j ∧ j < colMax) ∧
        (rowMin ≤ i' ∧ i' < rowMax ∧ colMin ≤ j' ∧ j' < colMax) ∧
        (i, j) ≠ (i', j') ∧ 1 ≤ s.cell i j ∧ s.cell i j ≤ 9 ∧ s.cell i j = s.cell i' j' := by
  have hiff := isValidCombination_iff s hrange (a := rowMin) (c := colMin) hr9 hc9
  constructor
  · intro hfalse
    have hnot : ¬ NoDuplicate s (region rowMin rowMax colMin colMax) := by
      intro hnd
      rw [hiff.2 hnd] at hfalse
      cases hfalse
    unfold NoDuplicate at hnot
    push_neg at hnot
    obtain ⟨p, hp, q, hq, hne, hp0, heq⟩ := hnot
    have hp' := mem_region.1 hp
    have hq' := mem_region.1 hq
    have := hrange p.1 (by omega) p.2 (by omega)
    exact ⟨p.1, p.2, q.1, q.2, hp', hq', hne, by omega, by omega, heq⟩
  · rintro ⟨i, j, i', j', hp, hq, hne, h1, _, heq⟩
    cases hv : isValidCombination s rowMin rowMax colMin colMax with
    | false => rfl
    | true =>
      exfalso
      exact hiff.1 hv (i, j) (mem_region.2 hp) (i', j') (mem_region.2 hq) hne
        (by simp only; omega) heq

theorem isValidCombination_false_iff_witness :
    isValidCombination duplicateElsewhere 0 1 0 9 = false ↔
      ∃ i j i' j', (0 ≤ i ∧ i < 1 ∧ 0 ≤ j ∧ j < 9) ∧
        (0 ≤ i' ∧ i' < 1 ∧ 0 ≤ j' ∧ j' < 9) ∧
        (i, j) ≠ (i', j') ∧ 1 ≤ duplicateElsewhere.cell i j ∧ duplicateElsewhere.cell i j ≤ 9 ∧
        duplicateElsewhere.cell i j = duplicateElsewhere.cell i' j' :=
  isValidCombination_false_iff duplicateElsewhere (by decide) 0 1 0 9 (by decide) (by decide)
    (by decide) (by decide)

/-- C11, as stated, fails: in `duplicateElsewhere` cell `(0, 0)` holds `3`, no other cell
of its row, of its column or of its box holds `3`, and `isCellValueAdmissible` returns
`FALSE` (row 0 holds `5` twice). -/
theorem isCellValueAdmissible_counterexample :
    duplicateElsewhere.InRange ∧ duplicateElsewhere.cell 0 0 = 3 ∧
    (∀ j < 9, j ≠ 0 → duplicateElsewhere.cell 0 j ≠ 3) ∧
    (∀ i < 9, i ≠ 0 → duplicateElsewhere.cell i 0 ≠ 3) ∧
    (∀ i < 9, ∀ j < 9, i / 3 = 0 → j / 3 = 0 → (i, j) ≠ (0, 0) →
      duplicateElsewhere.cell i j ≠ 3) ∧
    isCellValueAdmissible duplicateElsewhere 0 0 = false := by
  refine ⟨by decide, by decide, by decide, by decide, ?_, by decide⟩
  intro i _ j _ e1 e2 hne
  have hi3 : i < 3 := by omega
  have hj3 : j < 3 := by omega
  interval_cases i <;> interval_cases j <;> first | exact absurd rfl hne | decide

/-- C11 (amended): for every grid with cells in `0..9` and every position `(row, col)`
whose stored value `v` is in `1..9`: if `isCellValueAdmissible(grid, row, col)` returns
`TRUE`, no other cell in the same row, in the same column or in the containing 3x3 box
holds `v`; conversely it returns `TRUE` if no other cell of the row, of the column and
of the box holds `v` and the other cells of the row, of the column and of the box hold
no value `1..9` twice among themselves. -/
theorem isCellValueAdmissible_spec (s : Sudoku) (hrange : s.InRange) (row col : Nat)
    (hrow : row < 9) (hcol : col < 9) (hv : 1 ≤ s.cell row col) :
    (isCellValueAdmissible s row col = true →
      (∀ j < 9, j ≠ col → s.cell row j ≠ s.cell row col) ∧
      (∀ i < 9, i ≠ row → s.cell i col ≠ s.cell row col) ∧
      (∀ i < 9, ∀ j < 9, i / 3 = row / 3 → j / 3 = col / 3 → (i, j) ≠ (row, col) →
        s.cell i j ≠ s.cell row col)) ∧
    ((∀ p q : Nat × Nat, p.1 < 9 → p.2 < 9 → q.1 < 9 → q.2 < 9 → p ≠ q →
        p ≠ (row, col) → q ≠ (row, col) →
        ((p.1 = row ∧ q.1 = row) ∨ (p.2 = col ∧ q.2 = col) ∨
          (p.1 / 3 = row / 3 ∧ p.2 / 3 = col / 3 ∧ q.1 / 3 = row / 3 ∧ q.2 / 3 = col / 3)) →
        s.cell p.1 p.2 ≠ 0 → s.cell p.1 p.2 ≠ s.cell q.1 q.2) →
      (∀ j < 9, j ≠ col → s.cell row j ≠ s.cell row col) →
      (∀ i < 9, i ≠ row → s.cell i col ≠ s.cell row col) →
      (∀ i < 9, ∀ j < 9, i / 3 = row / 3 → j / 3 = col / 3 → (i, j) ≠ (row, col) →
        s.cell i j ≠ s.cell row col) →
      isCellValueAdmissible s row col = true) := by
  have hv0 : s.cell row col ≠ 0 := by omega
  rw [isCellValueAdmissible_iff s hrange hrow hcol]
  constructor
  · rintro ⟨a1, a2, a3⟩
    refine ⟨fun j hj hne => ?_, fun i hi hne => ?_, fun i hi j hj e1 e2 hne => ?_⟩
    · exact fun h => a1 (row, col) (mem_rowCells.2 ⟨rfl, hcol⟩) (row, j)
        (mem_rowCells.2 ⟨rfl, hj⟩) (fun h' => hne (congrArg Prod.snd h').symm) hv0 h.symm
    · exact fun h => a2 (row, col) (mem_colCells.2 ⟨hrow, rfl⟩) (i, col)
        (mem_colCells.2 ⟨hi, rfl⟩) (fun h' => hne (congrArg Prod.fst h').symm) hv0 h.symm
    · exact fun h => a3 (row, col) (mem_boxCells.2 ⟨rfl, rfl⟩) (i, j)
        (mem_boxCells.2 ⟨e1, e2⟩) (fun h' => hne h'.symm) hv0 h.symm
  · intro hothers b1 b2 b3
    have key : ∀ (cells : List (Nat × Nat)),
        (∀ p ∈ cells, p.1 < 9 ∧ p.2 < 9) →
        (∀ p ∈ cells, ∀ q ∈ cells, (p.1 = row ∧ q.1 = row) ∨ (p.2 = col ∧ q.2 = col) ∨
          (p.1 / 3 = row / 3 ∧ p.2 / 3 = col / 3 ∧ q.1 / 3 = row / 3 ∧ q.2 / 3 = col / 3)) →
        (∀ q ∈ cells, q ≠ (row, col) → s.cell q.1 q.2 ≠ s.cell row col) →
        NoDuplicate s cells := by
      intro cells hin hunit hrhs p hp q hq hne hp0
      by_cases hpz : p = (row, col)
      · subst hpz
        exact fun h => hrhs q hq (fun h' => hne h'.symm) h.symm
      · by_cases hqz : q = (row, col)
        · subst hqz
          exact hrhs p hp hpz
        · exact hothers p q (hin p hp).1 (hin p hp).2 (hin q hq).1 (hin q hq).2 hne hpz hqz
            (hunit p hp q hq) hp0
    refine ⟨key _ ?_ ?_ ?_, key _ ?_ ?_ ?_, key _ ?_ ?_ ?_⟩
    · intro p hp
      have := mem_rowCells.1 hp
      omega
    · intro p hp q hq
      exact Or.inl ⟨(mem_rowCells.1 hp).1, (mem_rowCells.1 hq).1⟩
    · intro q hq hne
      have := mem_rowCells.1 hq
      have h' := b1 q.2 this.2 (fun h => hne (Prod.ext this.1 h))
      rw [this.1]
      exact h'
    · intro p hp
      have := mem_colCells.1 hp
      omega
    · intro p hp q hq
      exact Or.inr (Or.inl ⟨(mem_colCells.1 hp).2, (mem_colCells.1 hq).2⟩)
    · intro q hq hne
      have := mem_colCells.1 hq
      have h' := b2 q.1 this.1 (fun h => hne (Prod.ext h this.2))
      rw [this.2]
      exact h'
    · intro p hp
      have := mem_boxCells.1 hp
      omega
    · intro p hp q hq
      have h1 := mem_boxCells.1 hp
      have h2 := mem_boxCells.1 hq
      exact Or.inr (Or.inr ⟨h1.1, h1.2, h2.1, h2.2⟩)
    · intro q hq hne
      have := mem_boxCells.1 hq
      exact b3 q.1 (by omega) q.2 (by omega) this.1 this.2 hne

/-! ## Every state of the cursor loop satisfies the loop invariant -/

theorem reaches_loopInv {g : Sudoku} {blanks : List BlankCell} (hd : DistinctCells blanks)
    {s0 : Sudoku} {k0 : Nat} (h0 : LoopInv g blanks s0 k0) {s : Sudoku} {k : Nat}
    (h : Reaches blanks s0 k0 s k) : LoopInv g blanks s k := by
  induction h with
  | start => exact h0
  | pass _ hstep ih => exact loopInv_next hd ih hstep

/-- Whatever the loop returns, its grid satisfies the loop invariant at some cursor. -/
theorem solveLoop_loopInv {g : Sudoku} {blanks : List BlankCell} (hd : DistinctCells blanks)
    {s0 : Sudoku} (h0 : LoopInv g blanks s0 0) {n : Nat} {r : Bool} {s1 : Sudoku}
    (h : solveLoop blanks n s0 0 = some (r, s1)) : ∃ k, LoopInv g blanks s1 k := by
  refine solveLoop_invariant blanks (fun s k => LoopInv g blanks s k)
    (fun _ s1 => ∃ k, LoopInv g blanks s1 k) ?_ (fun s k s1 k1 hinv hstep =>
      loopInv_next hd hinv hstep) n s0 0 h0 r s1 h
  intro s k r s1 hinv hstep
  cases r
  · exact ⟨0, ((loopInv_ret hd hinv hstep).2 rfl).1⟩
  · exact ⟨blanks.length, (loopInv_ret hd hinv hstep).1 rfl⟩

theorem loopInv_frame {g : Sudoku} {s : Sudoku} {k : Nat}
    (hinv : LoopInv g (descriptors g) s k) :
    (∀ i < 9, ∀ j < 9, g.cell i j ≠ 0 → s.cell i j = g.cell i j) ∧
    (∀ i < 9, ∀ j < 9, (i, j) ∉ positions (descriptors g) → s.cell i j = g.cell i j) := by
  refine ⟨fun i hi j hj hne => ?_, hinv.2.2.1⟩
  apply hinv.2.2.1 i hi j hj
  intro hp
  exact hne ((mem_positions_descriptors g).1 hp).2.2

theorem initBlankCells_fst (g : Sudoku) (hwf : g.WellFormed) (blankCount : Nat) :
    (initBlankCells g blankCount).1 = g := by
  rw [initBlankCells_eq g hwf]
  split <;> rfl

/-- C17 (givens are never touched): for every grid and the descriptors built by
`initBlankCells` from it, after `solve` returns (`TRUE` or `FALSE`) every cell that was
non-zero in the grid passed to `solve` holds the same value, and so does every cell that
is not listed in the descriptors; the same holds in every state at the head of a pass of
the cursor loop, so `solve` writes only to cells listed in the descriptors. -/
theorem solve_keeps_givens (g : Sudoku) (hwf : g.WellFormed) :
    (∀ fuel r s1, solvePuzzle fuel g = some (r, s1) →
      (∀ i < 9, ∀ j < 9, g.cell i j ≠ 0 → s1.cell i j = g.cell i j) ∧
      (∀ i < 9, ∀ j < 9, (i, j) ∉ positions ((initBlankCells g (zeroCount g)).2.getD []) →
        s1.cell i j = g.cell i j)) ∧
    (∀ s k, Reaches ((initBlankCells g (zeroCount g)).2.getD [])
        (initBlankCells g (zeroCount g)).1 0 s k →
      (∀ i < 9, ∀ j < 9, g.cell i j ≠ 0 → s.cell i j = g.cell i j) ∧
      (∀ i < 9, ∀ j < 9, (i, j) ∉ positions ((initBlankCells g (zeroCount g)).2.getD []) →
        s.cell i j = g.cell i j)) := by
  have hd := distinctCells_descriptors g
  rw [descriptors_of_init g hwf, initBlankCells_fst g hwf]
  constructor
  · intro fuel r s1 h
    rw [solvePuzzle_eq g hwf] at h
    split at h
    · simp only [Option.some.injEq, Prod.mk.injEq] at h
      rw [← h.2]
      exact ⟨fun _ _ _ _ _ => rfl, fun _ _ _ _ _ => rfl⟩
    · obtain ⟨k, hinv⟩ := solveLoop_loopInv hd (loopInv_init hwf) h
      exact loopInv_frame hinv
  · intro s k h
    exact loopInv_frame (reaches_loopInv hd (loopInv_init hwf) h)

/-! ## Value range and index safety -/

theorem inRange_setCell {s : Sudoku} (hs : s.WellFormed) (hr : s.InRange) {i j : Nat}
    (hi : i < 9) (hj : j < 9) {v : Int} (h0 : 0 ≤ v) (h9 : v ≤ 9) :
    (s.setCell i j v).InRange := by
  intro i' hi' j' hj'
  rw [cell_setCell s hs hi hj]
  split
  · exact ⟨h0, h9⟩
  · exact hr i' hi' j' hj'

theorem fillBlankCellStates_inRange {row column : Nat} (hrow : row < 9) (hcol : column < 9) :
    ∀ (ks : List Nat) (s : Sudoku), (∀ k ∈ ks, k < 9) → s.WellFormed →
      (∀ v : Int, 0 ≤ v → v ≤ 9 → (s.setCell row column v).InRange) →
      ∀ s1 ∈ fillBlankCellStates row column ks s, s1.InRange := by
  intro ks
  induction ks with
  | nil => intro s _ _ _ s1 h1; simp [fillBlankCellStates] at h1
  | cons k ks ih =>
    intro s hks hwf hall s1 h1
    have hk := hks k (List.mem_cons_self _ _)
    rw [fillBlankCellStates, List.mem_cons] at h1
    rcases h1 with h1 | h1
    · rw [h1]
      exact hall _ (by omega) (by omega)
    · refine ih _ (fun k' hk' => hks k' (List.mem_cons_of_mem _ hk'))
        (wellFormed_setCell s hwf _ _ _) ?_ s1 h1
      intro v h0 h9
      rw [setCell_setCell s hwf hrow hcol]
      exact hall v h0 h9

theorem fillBlankCellTrace_inRange {s : Sudoku} (hs : s.WellFormed) (hr : s.InRange)
    {row column : Nat} (hrow : row < 9) (hcol : column < 9) (h0 : s.cell row column = 0) :
    ∀ s1 ∈ fillBlankCellTrace s row column, s1.InRange := by
  intro s1 h1
  rw [fillBlankCellTrace, List.mem_append, List.mem_singleton] at h1
  rcases h1 with h1 | h1
  · exact fillBlankCellStates_inRange hrow hcol _ s (fun k hk => List.mem_range.1 hk) hs
      (fun v h0 h9 => inRange_setCell hs hr hrow hcol h0 h9) s1 h1
  · rw [h1, fillBlankCell_fst s hs hrow hcol h0]
    exact hr

theorem initBlankCellsTraceLoop_inRange {s : Sudoku} (hs : s.WellFormed) (hr : s.InRange) :
    ∀ (cells : List (Nat × Nat)), (∀ p ∈ cells, p.1 < 9 ∧ p.2 < 9) →
      ∀ s1 ∈ initBlankCellsTraceLoop cells s, s1.InRange := by
  intro cells
  induction cells with
  | nil => intro _ s1 h1; simp [initBlankCellsTraceLoop] at h1
  | cons p rest ih =>
    intro hin s1 h1
    obtain ⟨i, j⟩ := p
    have hp : i < 9 ∧ j < 9 := hin (i, j) (List.mem_cons_self _ _)
    have hrest : ∀ q ∈ rest, q.1 < 9 ∧ q.2 < 9 := fun q hq => hin q (List.mem_cons_of_mem _ hq)
    rw [initBlankCellsTraceLoop] at h1
    by_cases h0 : s.cell i j = 0
    · rw [if_pos h0, fillBlankCell_fst s hs hp.1 hp.2 h0, List.mem_append] at h1
      rcases h1 with h1 | h1
      · exact fillBlankCellTrace_inRange hs hr hp.1 hp.2 h0 s1 h1
      · exact ih hrest s1 h1
    · rw [if_neg h0] at h1
      exact ih hrest s1 h1

/-- The grid returned by the loop of `fillBlankCell` is the last state it wrote. -/
theorem fillBlankCellLoop_fst (row column : Nat) :
    ∀ (ks : List Nat) (s : Sudoku) (pv : List Bool),
      (fillBlankCellLoop row column ks s pv).1 =
        (fillBlankCellStates row column ks s).getLastD s := by
  intro ks
  induction ks with
  | nil => intro s pv; rfl
  | cons k ks ih =>
    intro s pv
    rw [fillBlankCellLoop, fillBlankCellStates, ih]
    cases hst : fillBlankCellStates row column ks (s.setCell row column ((k : Int) + 1)) with
    | nil => rfl
    | cons a l => rfl

/-- C19 (value-range invariant and index safety): for every grid whose cells are all in
`0..9` and the descriptors built by `initBlankCells` from it, every grid state written
during `initBlankCells`, every state at the head of a pass of the cursor loop of `solve`
and the grid that `solve` returns have all cells in `0..9`, so that the index
`value = cell - 1` into `isUsed`, when not negative, is at most `8`; at every pass the
cursor `blankIndex` is within `0..N` (`N` the number of descriptors), the descriptor
under the cursor has 9 flags and the start `currentValue` of the scan index `j` is within
`0..9` (the scan reads `possibleValues[j]` only for `j < SIZE`). -/
theorem value_range_invariant (g : Sudoku) (hwf : g.WellFormed) (hrange : g.InRange) :
    (∀ s ∈ initBlankCellsTrace g (zeroCount g),
      s.InRange ∧ ∀ i < 9, ∀ j < 9, 0 ≤ s.cell i j - 1 → s.cell i j - 1 ≤ 8) ∧
    (∀ s k, Reaches ((initBlankCells g (zeroCount g)).2.getD [])
        (initBlankCells g (zeroCount g)).1 0 s k →
      (s.InRange ∧ ∀ i < 9, ∀ j < 9, 0 ≤ s.cell i j - 1 → s.cell i j - 1 ≤ 8) ∧
      k ≤ ((initBlankCells g (zeroCount g)).2.getD []).length ∧
      ∀ b, ((initBlankCells g (zeroCount g)).2.getD [])[k]? = some b →
        b.row < 9 ∧ b.col < 9 ∧ b.possibleValues.length = 9 ∧
        0 ≤ s.cell b.row b.col ∧ s.cell b.row b.col ≤ 9) ∧
    (∀ fuel r s1, solvePuzzle fuel g = some (r, s1) →
      s1.InRange ∧ ∀ i < 9, ∀ j < 9, 0 ≤ s1.cell i j - 1 → s1.cell i j - 1 ≤ 8) := by
  have hd := distinctCells_descriptors g
  have hidx : ∀ s : Sudoku, s.InRange →
      s.InRange ∧ ∀ i < 9, ∀ j < 9, 0 ≤ s.cell i j - 1 → s.cell i j - 1 ≤ 8 := by
    intro s hs
    refine ⟨hs, fun i hi j hj _ => ?_⟩
    have := hs i hi j hj
    omega
  rw [descriptors_of_init g hwf, initBlankCells_fst g hwf]
  refine ⟨?_, ?_, ?_⟩
  · intro s hs
    apply hidx
    unfold initBlankCellsTrace at hs
    split at hs
    · cases hs
    · rw [region_all] at hs
      exact initBlankCellsTraceLoop_inRange hwf hrange allCells (fun p hp => mem_allCells.1 hp)
        s hs
  · intro s k h
    have hinv := reaches_loopInv hd (loopInv_init hwf) h
    refine ⟨hidx s (loopInv_inRange hinv hrange), hinv.2.1, fun b hb => ?_⟩
    have hmem := List.getElem?_mem hb
    obtain ⟨h1, h2, _, e⟩ := mem_descriptors hmem
    have hcell := hinv.2.2.2 k b hb
    refine ⟨h1, h2, ?_, hcell.1, hcell.2.1⟩
    rw [e]
    exact (fillBlankCell_snd g hwf h1 h2).2.2.1
  · intro fuel r s1 h
    apply hidx
    rw [solvePuzzle_eq g hwf] at h
    split at h
    · simp only [Option.some.injEq, Prod.mk.injEq] at h
      rw [← h.2]
      exact hrange
    · obtain ⟨k, hinv⟩ := solveLoop_loopInv hd (loopInv_init hwf) h
      exact loopInv_inRange hinv hrange

/-! ## The first solution in search order -/

theorem lexLe_of_below (f f' : BlankCell → Int) : ∀ blanks : List BlankCell,
    ((∃ (i : Nat) (b : BlankCell), blanks[i]? = some b ∧ f b < f' b ∧
        ∀ (j : Nat) (b' : BlankCell), j < i → blanks[j]? = some b' → f b' = f' b') ∨
      (∀ b ∈ blanks, f b = f' b)) →
    LexLe (blanks.map f) (blanks.map f') := by
  intro blanks
  induction blanks with
  | nil => intro _; exact trivial
  | cons a l ih =>
    intro h
    show f a < f' a ∨ (f a = f' a ∧ LexLe (l.map f) (l.map f'))
    rcases h with ⟨i, b, hb, hlt, hpre⟩ | hall
    · cases i with
      | zero =>
        simp only [List.getElem?_cons_zero, Option.some.injEq] at hb
        rw [hb]
        exact Or.inl hlt
      | succ i =>
        right
        refine ⟨hpre 0 a (Nat.succ_pos i) (by simp), ih (Or.inl ⟨i, b, ?_, hlt, ?_⟩)⟩
        · simpa using hb
        · intro j b' hj hb'
          exact hpre (j + 1) b' (by omega) (by simpa using hb')
    · exact Or.inr ⟨hall a (List.mem_cons_self _ _),
        ih (Or.inr fun b hb => hall b (List.mem_cons_of_mem _ hb))⟩

theorem blankValues_eq (g t : Sudoku) :
    blankValues g t = (descriptors g).map fun b => t.cell b.row b.col := by
  simp only [blankValues, descriptors, List.map_map]
  rfl

theorem belowCompletion_ret {blanks : List BlankCell} {t s s1 : Sudoku} {k : Nat}
    (hk : k ≤ blanks.length) (hbelow : BelowCompletion blanks t s k)
    (hstep : solveStep blanks s k = Step.ret true s1) :
    BelowCompletion blanks t s1 blanks.length := by
  rcases solveStep_cases blanks s k with ⟨hnone, e⟩ | ⟨b, hb, ⟨_, ⟨hk, e⟩ | ⟨hk, e⟩⟩ |
    ⟨i, _, hi9, _, _, ⟨_, e⟩ | ⟨_, e⟩⟩⟩
  · rw [e] at hstep; cases hstep
    have : k = blanks.length := by
      have := List.getElem?_eq_none_iff.1 hnone
      omega
    rw [← this]
    exact hbelow
  all_goals (rw [e] at hstep; cases hstep)

/-- The grid of a `TRUE` result comes first, in lexicographic order of the values at the
empty cells, among the completions of the puzzle. -/
theorem solveLoop_lexLe {g t : Sudoku} (hwf : g.WellFormed) (hg : g.InRange)
    (ht : IsCompletion g t) {n : Nat} {s1 : Sudoku}
    (h : solveLoop (descriptors g) n g 0 = some (true, s1)) :
    LexLe (blankValues g s1) (blankValues g t) := by
  have hd := distinctCells_descriptors g
  have hpost := solveLoop_invariant (descriptors g)
    (fun s k => LoopInv g (descriptors g) s k ∧ BelowCompletion (descriptors g) t s k)
    (fun r s1 => r = true → BelowCompletion (descriptors g) t s1 (descriptors g).length)
    (fun s k r s1 hinv hstep hr => by
      subst hr
      exact belowCompletion_ret hinv.1.2.1 hinv.2 hstep)
    (fun s k s1 k1 hinv hstep =>
      ⟨loopInv_next hd hinv.1 hstep,
        (belowCompletion_step hwf hg ht hinv.1 hinv.2).2 s1 k1 hstep⟩)
    n g 0 ⟨loopInv_init hwf, belowCompletion_init ht⟩ true s1 h rfl
  rw [blankValues_eq, blankValues_eq]
  apply lexLe_of_below
  rcases hpost with ⟨i, b, _, hb, hlt, hpre⟩ | ⟨_, hall⟩
  · exact Or.inl ⟨i, b, hb, hlt, hpre⟩
  · exact Or.inr hall

/-- C18 (first solution in search order): for every conflict-free puzzle grid with cells
in `0..9` that has at least one valid completion, `solve` returns `TRUE` and the grid it
leaves is a valid completion whose sequence of values at the blank cells, read in
row-major order, is lexicographically smallest among all valid completions of the
puzzle; it is the unique completion when the puzzle has exactly one. -/
theorem solve_first_solution (g : Sudoku) (hwf : g.WellFormed) (hrange : g.InRange)
    (hfree : g.ConflictFree) (t0 : Sudoku) (ht0 : IsCompletion g t0) :
    (∃ fuel s1, solvePuzzle fuel g = some (true, s1)) ∧
    ∀ fuel r s1, solvePuzzle fuel g = some (r, s1) →
      r = true ∧ IsCompletion g s1 ∧
      (∀ t, IsCompletion g t → LexLe (blankValues g s1) (blankValues g t)) ∧
      ((∀ t, IsCompletion g t → t = t0) → s1 = t0) := by
  have hall : ∀ fuel r s1, solvePuzzle fuel g = some (r, s1) →
      r = true ∧ IsCompletion g s1 ∧
      (∀ t, IsCompletion g t → LexLe (blankValues g s1) (blankValues g t)) ∧
      ((∀ t, IsCompletion g t → t = t0) → s1 = t0) := by
    intro fuel r s1 h
    have hr : r = true := by
      have h' := h
      rw [solvePuzzle_eq g hwf] at h'
      split at h'
      · simp only [Option.some.injEq, Prod.mk.injEq] at h'
        exact h'.1.symm
      · exact solveLoop_complete hwf hrange ht0 h'
    subst hr
    obtain ⟨hwf1, hr1, hc1, hfull, hext⟩ := solvePuzzle_true g hwf hrange hfree h
    have hcomp : IsCompletion g s1 := ⟨hwf1, solved_of_conflictFree s1 hr1 hfull hc1, hext⟩
    refine ⟨rfl, hcomp, fun t ht => ?_, fun huniq => huniq s1 hcomp⟩
    rw [solvePuzzle_eq g hwf] at h
    split at h
    · next h0 =>
      have hnil : (allCells.filter fun p => g.cell p.1 p.2 = 0) = [] := by
        apply List.length_eq_zero.1
        rw [← zeroCount_eq g hwf]
        exact h0
      simp only [blankValues, hnil, List.map_nil]
      exact trivial
    · exact solveLoop_lexLe hwf hrange ht h
  obtain ⟨fuel, ⟨r, s1⟩, h⟩ := solvePuzzle_halts g hwf
  refine ⟨⟨fuel, s1, ?_⟩, hall⟩
  rw [h, (hall fuel r s1 h).1]

/-! ## The precomputed flags only skip values that the live check rejects -/

theorem runs_refl (blanks : List BlankCell) (s : Sudoku) (k : Nat) : Runs blanks s k s k :=
  ⟨0, fun m => by rw [Nat.zero_add]⟩

theorem getElem?_allTrueFlags (blanks : List BlankCell) (k : Nat) :
    (allTrueFlags blanks)[k]? =
      (blanks[k]?).map fun b => ⟨b.row, b.col, List.replicate SIZE true⟩ := by
  rw [allTrueFlags, List.getElem?_map]

theorem nextAdmissible_allTrue (n j : Nat) (hj : j < 9) :
    nextAdmissible (List.replicate SIZE true) (n + 1) j = (j : Int) + 1 := by
  have : (List.replicate SIZE true).getD j false = true := by
    simp [List.getD_eq_getElem?_getD, List.getElem?_replicate, hj]
  rw [nextAdmissible, if_pos this]

/-- One pass of the loop on all-`TRUE` flags: the next value after the current one is
written, or `0` when the current one is `9`. -/
theorem solveStep_allTrue {blanks : List BlankCell} {s : Sudoku} {k : Nat} {b : BlankCell}
    (hb : blanks[k]? = some b) {c : Nat} (hc : s.cell b.row b.col = (c : Int)) (hc9 : c ≤ 9) :
    solveStep (allTrueFlags blanks) s k =
      if c < 9 then
        (if isCellValueAdmissible (s.setCell b.row b.col ((c : Int) + 1)) b.row b.col
         then Step.next (s.setCell b.row b.col ((c : Int) + 1)) (k + 1)
         else Step.next (s.setCell b.row b.col ((c : Int) + 1)) k)
      else if k = 0 then Step.ret false (s.setCell b.row b.col 0)
      else Step.next (s.setCell b.row b.col 0) (k - 1) := by
  unfold solveStep
  rw [getElem?_allTrueFlags, hb]
  simp only [Option.map_some', hc, Int.toNat_ofNat]
  by_cases h9 : c < 9
  · have hn : SIZE - c = (8 - c) + 1 := by have : SIZE = 9 := rfl; omega
    rw [hn, nextAdmissible_allTrue _ _ h9, if_pos h9]
    have hne : ¬ ((c : Int) + 1 = 0) := by omega
    rw [if_neg hne]
  · have hc' : c = 9 := by omega
    subst hc'
    rw [if_neg h9]
    rfl

theorem noDuplicate_mono (u t : Sudoku) (cells : List (Nat × Nat))
    (h : ∀ p ∈ cells, u.cell p.1 p.2 ≠ 0 → u.cell p.1 p.2 = t.cell p.1 p.2)
    (ht : NoDuplicate t cells) : NoDuplicate u cells := by
  intro p hp q hq hne hp0 heq
  have hq0 : u.cell q.1 q.2 ≠ 0 := heq ▸ hp0
  have e1 := h p hp hp0
  have e2 := h q hq hq0
  exact ht p hp q hq hne (e1 ▸ hp0) (by rw [← e1, ← e2]; exact heq)

/-- A value whose flag is `FALSE` in the descriptor fails the live check in every state
of the loop. -/
theorem live_check_of_flag {g : Sudoku} (hwf : g.WellFormed) (hg : g.InRange)
    {s : Sudoku} {k : Nat} (hinv : LoopInv g (descriptors g) s k) {m : Nat} {b : BlankCell}
    (hb : (descriptors g)[m]? = some b) {j : Nat} (hj : j < 9)
    (hflag : b.possibleValues.getD j false = false) :
    isCellValueAdmissible (s.setCell b.row b.col ((j : Int) + 1)) b.row b.col = false := by
  have hmem := List.getElem?_mem hb
  obtain ⟨h1, h2, _, _⟩ := mem_descriptors hmem
  rw [possibleValues_descriptors hwf hmem hj] at hflag
  cases hadm : isCellValueAdmissible (s.setCell b.row b.col ((j : Int) + 1)) b.row b.col with
  | false => rfl
  | true =>
    exfalso
    have hs := loopInv_inRange hinv hg
    have hr1 : (s.setCell b.row b.col ((j : Int) + 1)).InRange :=
      inRange_setCell hinv.1 hs h1 h2 (by omega) (by omega)
    have hr2 : (g.setCell b.row b.col ((j : Int) + 1)).InRange :=
      inRange_setCell hwf hg h1 h2 (by omega) (by omega)
    obtain ⟨a1, a2, a3⟩ := (isCellValueAdmissible_iff _ hr1 h1 h2).1 hadm
    have hsub : ∀ p : Nat × Nat, p.1 < 9 → p.2 < 9 →
        (g.setCell b.row b.col ((j : Int) + 1)).cell p.1 p.2 ≠ 0 →
        (g.setCell b.row b.col ((j : Int) + 1)).cell p.1 p.2 =
          (s.setCell b.row b.col ((j : Int) + 1)).cell p.1 p.2 := by
      intro p hp1 hp2
      rw [cell_setCell g hwf h1 h2, cell_setCell s hinv.1 h1 h2]
      split
      · intro _; rfl
      · intro hne
        exact ((loopInv_frame hinv).1 p.1 hp1 p.2 hp2 hne).symm
    have := (isCellValueAdmissible_iff _ hr2 h1 h2).2
      ⟨noDuplicate_mono _ _ _ (fun p hp => hsub p (by have := mem_rowCells.1 hp; omega)
          (by have := mem_rowCells.1 hp; omega)) a1,
       noDuplicate_mono _ _ _ (fun p hp => hsub p (by have := mem_colCells.1 hp; omega)
          (by have := mem_colCells.1 hp; omega)) a2,
       noDuplicate_mono _ _ _ (fun p hp => hsub p (by have := mem_boxCells.1 hp; omega)
          (by have := mem_boxCells.1 hp; omega)) a3⟩
    rw [hflag] at this
    cases this

/-- On all-`TRUE` flags the loop tries, and the live check rejects, the values whose
flag is `FALSE` one after the other. -/
theorem runs_allTrue_skip {g : Sudoku} (hwf : g.WellFormed) (hg : g.InRange) {k : Nat}
    {b : BlankCell} (hb : (descriptors g)[k]? = some b) :
    ∀ (d : Nat) (s : Sudoku) (c i : Nat), LoopInv g (descriptors g) s k →
      s.cell b.row b.col = (c : Int) → c + d = i → i ≤ 9 →
      (∀ j, c ≤ j → j < i → b.possibleValues.getD j false = false) →
      Runs (allTrueFlags (descriptors g)) s k (s.setCell b.row b.col (i : Int)) k := by
  have hd := distinctCells_descriptors g
  have hbg := hd.1 b (List.getElem?_mem hb)
  intro d
  induction d with
  | zero =>
    intro s c i hinv hc hci _ _
    have : i = c := by omega
    rw [this, setCell_self s hinv.1 hbg.1 hbg.2 hc]
    exact runs_refl _ _ _
  | succ d ih =>
    intro s c i hinv hc hci hi9 hflags
    have hc9 : c < 9 := by omega
    have hlive := live_check_of_flag hwf hg hinv hb hc9 (hflags c (le_refl _) (by omega))
    have hstep := solveStep_allTrue hb hc (Nat.le_of_lt hc9)
    rw [if_pos hc9, hlive] at hstep
    simp only [Bool.false_eq_true, if_false] at hstep
    have hinv1 : LoopInv g (descriptors g) (s.setCell b.row b.col ((c : Int) + 1)) k :=
      loopInv_setCell hd hinv hb (by omega) (by omega) (Nat.le_succ _) (Nat.le_succ _)
        (fun h => by omega) (fun h => by omega)
    have hc1 : (s.setCell b.row b.col ((c : Int) + 1)).cell b.row b.col = ((c + 1 : Nat) : Int) := by
      rw [cell_setCell_same hd hinv.1 hb]
      push_cast
      rfl
    have hrec := ih _ (c + 1) i hinv1 hc1 (by omega) hi9
      (fun j h1 h2 => hflags j (by omega) h2)
    rw [setCell_setCell s hinv.1 hbg.1 hbg.2] at hrec
    exact runs_trans (runs_of_step hstep) hrec

/-- Every pass of the loop on the precomputed flags is matched by passes of the loop on
all-`TRUE` flags that lead to the same state or to the same result. -/
theorem allTrue_simulates_step {g : Sudoku} (hwf : g.WellFormed) (hg : g.InRange)
    {s : Sudoku} {k : Nat} (hinv : LoopInv g (descriptors g) s k) :
    (∀ r s1, solveStep (descriptors g) s k = Step.ret r s1 →
      Halts (allTrueFlags (descriptors g)) s k (r, s1)) ∧
    (∀ s1 k1, solveStep (descriptors g) s k = Step.next s1 k1 →
      Runs (allTrueFlags (descriptors g)) s k s1 k1) := by
  have hd := distinctCells_descriptors g
  rcases solveStep_cases (descriptors g) s k with ⟨hnone, e⟩ | ⟨b, hb, hcase⟩
  · rw [e]
    refine ⟨fun r s1 h => ?_, fun s1 k1 h => (by cases h)⟩
    cases h
    apply halts_of_step
    unfold solveStep
    rw [getElem?_allTrueFlags, hnone]
    rfl
  have hbg := hd.1 b (List.getElem?_mem hb)
  have hcur := hinv.2.2.2 k b hb
  have hc : s.cell b.row b.col = (((s.cell b.row b.col).toNat : Nat) : Int) := by omega
  have hc9 : (s.cell b.row b.col).toNat ≤ 9 := by omega
  rcases hcase with ⟨hnoflag, hres⟩ | ⟨i, hi1, hi9, _, hfirst, hadm⟩
  · -- no flag from the current value on: all values up to 9 are tried and rejected
    have hruns := runs_allTrue_skip hwf hg hb (9 - (s.cell b.row b.col).toNat) s
      (s.cell b.row b.col).toNat 9 hinv hc (by omega) (le_refl _)
      (fun j h1 h2 => hnoflag j h1 h2)
    have hinv9 : LoopInv g (descriptors g) (s.setCell b.row b.col ((9 : Nat) : Int)) k :=
      loopInv_setCell hd hinv hb (by omega) (by omega) (Nat.le_succ _) (Nat.le_succ _)
        (fun h => by omega) (fun h => by omega)
    have hstep := @solveStep_allTrue (descriptors g) (s.setCell b.row b.col ((9 : Nat) : Int))
      k b hb 9 (cell_setCell_same hd hinv.1 hb _) (le_refl 9)
    rw [if_neg (Nat.lt_irrefl 9), setCell_setCell s hinv.1 hbg.1 hbg.2] at hstep
    rcases hres with ⟨hk, e⟩ | ⟨hk, e⟩
    · rw [e]
      refine ⟨fun r s1 h => ?_, fun s1 k1 h => (by cases h)⟩
      cases h
      rw [if_pos hk] at hstep
      exact runs_halts hruns (halts_of_step hstep)
    · rw [e]
      refine ⟨fun r s1 h => (by cases h), fun s1 k1 h => ?_⟩
      cases h
      rw [if_neg hk] at hstep
      exact runs_trans hruns (runs_of_step hstep)
  · -- the first flag is at `i`: the values before it are tried and rejected
    have hruns := runs_allTrue_skip hwf hg hb (i - (s.cell b.row b.col).toNat) s
      (s.cell b.row b.col).toNat i hinv hc (by omega) (by omega) hfirst
    have hstep := @solveStep_allTrue (descriptors g) (s.setCell b.row b.col (i : Int))
      k b hb i (cell_setCell_same hd hinv.1 hb _) (Nat.le_of_lt hi9)
    rw [if_pos hi9, setCell_setCell s hinv.1 hbg.1 hbg.2] at hstep
    rcases hadm with ⟨ha, e⟩ | ⟨ha, e⟩
    · rw [e]
      refine ⟨fun r s1 h => (by cases h), fun s1 k1 h => ?_⟩
      cases h
      rw [ha] at hstep
      exact runs_trans hruns (runs_of_step hstep)
    · rw [e]
      refine ⟨fun r s1 h => (by cases h), fun s1 k1 h => ?_⟩
      cases h
      rw [ha] at hstep
      exact runs_trans hruns (runs_of_step hstep)

theorem allTrue_simulates {g : Sudoku} (hwf : g.WellFormed) (hg : g.InRange) :
    ∀ (n : Nat) (s : Sudoku) (k : Nat) (r : Bool × Sudoku),
      LoopInv g (descriptors g) s k → solveLoop (descriptors g) n s k = some r →
      Halts (allTrueFlags (descriptors g)) s k r := by
  have hd := distinctCells_descriptors g
  intro n
  induction n with
  | zero => intro s k r _ h; simp [solveLoop] at h
  | succ n ih =>
    intro s k r hinv h
    rw [solveLoop] at h
    cases hstep : solveStep (descriptors g) s k with
    | ret r' s' =>
      rw [hstep] at h
      rw [← Option.some.inj h]
      exact (allTrue_simulates_step hwf hg hinv).1 r' s' hstep
    | next s' k' =>
      rw [hstep] at h
      exact runs_halts ((allTrue_simulates_step hwf hg hinv).2 s' k' hstep)
        (ih s' k' r (loopInv_next hd hinv hstep) h)

/-- C15 (the precomputed candidate set is only an optimisation): for every grid with
cells in `0..9`, `solve` run with the descriptors built by `initBlankCells` and `solve`
run with descriptors for the same positions in the same order whose `possibleValues`
flags are all `TRUE` both return, and they return the same boolean result and the same
final grid (whatever the fuel that lets them return). -/
theorem solve_flags_only_optimise (g : Sudoku) (hwf : g.WellFormed) (hrange : g.InRange) :
    ∃ r : Bool × Sudoku,
      (∃ fuel, solve fuel (initBlankCells g (zeroCount g)).1
        (initBlankCells g (zeroCount g)).2 = some r) ∧
      (∃ fuel, solve fuel (initBlankCells g (zeroCount g)).1
        ((initBlankCells g (zeroCount g)).2.map allTrueFlags) = some r) ∧
      (∀ fuel r', solve fuel (initBlankCells g (zeroCount g)).1
        (initBlankCells g (zeroCount g)).2 = some r' → r' = r) ∧
      (∀ fuel r', solve fuel (initBlankCells g (zeroCount g)).1
        ((initBlankCells g (zeroCount g)).2.map allTrueFlags) = some r' → r' = r) := by
  have hd := distinctCells_descriptors g
  have hF : ∀ fuel, solve fuel (initBlankCells g (zeroCount g)).1
      (initBlankCells g (zeroCount g)).2 = solvePuzzle fuel g := fun _ => rfl
  simp only [hF]
  by_cases h0 : zeroCount g = 0
  · have hA : ∀ fuel, solve fuel (initBlankCells g (zeroCount g)).1
        ((initBlankCells g (zeroCount g)).2.map allTrueFlags) = some (true, g) := by
      intro fuel
      rw [initBlankCells_eq g hwf, if_pos h0]
      rfl
    have hP : ∀ fuel, solvePuzzle fuel g = some (true, g) := by
      intro fuel
      rw [solvePuzzle_eq g hwf, if_pos h0]
    refine ⟨(true, g), ⟨0, hP 0⟩, ⟨0, hA 0⟩, fun fuel r' h => ?_, fun fuel r' h => ?_⟩
    · rw [hP] at h; exact (Option.some.inj h).symm
    · rw [hA] at h; exact (Option.some.inj h).symm
  · have hlen := length_descriptors g hwf
    have hA : ∀ fuel, solve fuel (initBlankCells g (zeroCount g)).1
        ((initBlankCells g (zeroCount g)).2.map allTrueFlags) =
          solveLoop (allTrueFlags (descriptors g)) fuel g 0 := by
      intro fuel
      rw [initBlankCells_eq g hwf, if_neg h0]
      show solve fuel g (some (allTrueFlags (descriptors g))) = _
      cases hdesc : descriptors g with
      | nil => rw [hdesc] at hlen; exact absurd hlen.symm h0
      | cons b bs => rfl
    have hP : ∀ fuel, solvePuzzle fuel g = solveLoop (descriptors g) fuel g 0 := by
      intro fuel
      rw [solvePuzzle_eq g hwf, if_neg h0]
    simp only [hA, hP]
    obtain ⟨r, n, hn⟩ := solveLoop_halts hd (loopInv_init hwf)
    have hn0 : solveLoop (descriptors g) n g 0 = some r := hn 0
    obtain ⟨n', hn'⟩ := allTrue_simulates hwf hrange n g 0 r (loopInv_init hwf) hn0
    have hn0' : solveLoop (allTrueFlags (descriptors g)) n' g 0 = some r := hn' 0
    exact ⟨r, ⟨n, hn0⟩, ⟨n', hn0'⟩, fun fuel r' h => solveLoop_unique h hn0,
      fun fuel r' h => solveLoop_unique h hn0'⟩

/-! ## Instances of the theorems on the example grids -/

theorem isCellValueAdmissible_spec_witness :
    (isCellValueAdmissible solvedGrid 0 0 = true →
      (∀ j < 9, j ≠ 0 → solvedGrid.cell 0 j ≠ solvedGrid.cell 0 0) ∧
      (∀ i < 9, i ≠ 0 → solvedGrid.cell i 0 ≠ solvedGrid.cell 0 0) ∧
      (∀ i < 9, ∀ j < 9, i / 3 = 0 / 3 → j / 3 = 0 / 3 → (i, j) ≠ (0, 0) →
        solvedGrid.cell i j ≠ solvedGrid.cell 0 0)) ∧
    ((∀ p q : Nat × Nat, p.1 < 9 → p.2 < 9 → q.1 < 9 → q.2 < 9 → p ≠ q →
        p ≠ (0, 0) → q ≠ (0, 0) →
        ((p.1 = 0 ∧ q.1 = 0) ∨ (p.2 = 0 ∧ q.2 = 0) ∨
          (p.1 / 3 = 0 / 3 ∧ p.2 / 3 = 0 / 3 ∧ q.1 / 3 = 0 / 3 ∧ q.2 / 3 = 0 / 3)) →
        solvedGrid.cell p.1 p.2 ≠ 0 → solvedGrid.cell p.1 p.2 ≠ solvedGrid.cell q.1 q.2) →
      (∀ j < 9, j ≠ 0 → solvedGrid.cell 0 j ≠ solvedGrid.cell 0 0) →
      (∀ i < 9, i ≠ 0 → solvedGrid.cell i 0 ≠ solvedGrid.cell 0 0) →
      (∀ i < 9, ∀ j < 9, i / 3 = 0 / 3 → j / 3 = 0 / 3 → (i, j) ≠ (0, 0) →
        solvedGrid.cell i j ≠ solvedGrid.cell 0 0) →
      isCellValueAdmissible solvedGrid 0 0 = true) :=
  isCellValueAdmissible_spec solvedGrid (by decide) 0 0 (by decide) (by decide) (by decide)

theorem solve_keeps_givens_witness :
    (∀ fuel r s1, solvePuzzle fuel puzzleTwoBlanks = some (r, s1) →
      (∀ i < 9, ∀ j < 9, puzzleTwoBlanks.cell i j ≠ 0 → s1.cell i j = puzzleTwoBlanks.cell i j) ∧
      (∀ i < 9, ∀ j < 9,
        (i, j) ∉ positions ((initBlankCells puzzleTwoBlanks (zeroCount puzzleTwoBlanks)).2.getD []) →
        s1.cell i j = puzzleTwoBlanks.cell i j)) ∧
    (∀ s k, Reaches ((initBlankCells puzzleTwoBlanks (zeroCount puzzleTwoBlanks)).2.getD [])
        (initBlankCells puzzleTwoBlanks (zeroCount puzzleTwoBlanks)).1 0 s k →
      (∀ i < 9, ∀ j < 9, puzzleTwoBlanks.cell i j ≠ 0 → s.cell i j = puzzleTwoBlanks.cell i j) ∧
      (∀ i < 9, ∀ j < 9,
        (i, j) ∉ positions ((initBlankCells puzzleTwoBlanks (zeroCount puzzleTwoBlanks)).2.getD []) →
        s.cell i j = puzzleTwoBlanks.cell i j)) :=
  solve_keeps_givens puzzleTwoBlanks (by decide)

theorem solve_first_solution_witness :
    (∃ fuel s1, solvePuzzle fuel puzzleTwoBlanks = some (true, s1)) ∧
    ∀ fuel r s1, solvePuzzle fuel puzzleTwoBlanks = some (r, s1) →
      r = true ∧ IsCompletion puzzleTwoBlanks s1 ∧
      (∀ t, IsCompletion puzzleTwoBlanks t →
        LexLe (blankValues puzzleTwoBlanks s1) (blankValues puzzleTwoBlanks t)) ∧
      ((∀ t, IsCompletion puzzleTwoBlanks t → t = solvedGrid) → s1 = solvedGrid) :=
  solve_first_solution puzzleTwoBlanks (by decide) (by decide) (by decide) solvedGrid
    isCompletion_solvedGrid

theorem value_range_invariant_witness :
    (∀ s ∈ initBlankCellsTrace puzzleTwoBlanks (zeroCount puzzleTwoBlanks),
      s.InRange ∧ ∀ i < 9, ∀ j < 9, 0 ≤ s.cell i j - 1 → s.cell i j - 1 ≤ 8) ∧
    (∀ s k, Reaches ((initBlankCells puzzleTwoBlanks (zeroCount puzzleTwoBlanks)).2.getD [])
        (initBlankCells puzzleTwoBlanks (zeroCount puzzleTwoBlanks)).1 0 s k →
      (s.InRange ∧ ∀ i < 9, ∀ j < 9, 0 ≤ s.cell i j - 1 → s.cell i j - 1 ≤ 8) ∧
      k ≤ ((initBlankCells puzzleTwoBlanks (zeroCount puzzleTwoBlanks)).2.getD []).length ∧
      ∀ b, ((initBlankCells puzzleTwoBlanks (zeroCount puzzleTwoBlanks)).2.getD [])[k]? = some b →
        b.row < 9 ∧ b.col < 9 ∧ b.possibleValues.length = 9 ∧
        0 ≤ s.cell b.row b.col ∧ s.cell b.row b.col ≤ 9) ∧
    (∀ fuel r s1, solvePuzzle fuel puzzleTwoBlanks = some (r, s1) →
      s1.InRange ∧ ∀ i < 9, ∀ j < 9, 0 ≤ s1.cell i j - 1 → s1.cell i j - 1 ≤ 8) :=
  value_range_invariant puzzleTwoBlanks (by decide) (by decide)

theorem solve_flags_only_optimise_witness :
    ∃ r : Bool × Sudoku,
      (∃ fuel, solve fuel (initBlankCells puzzleTwoBlanks (zeroCount puzzleTwoBlanks)).1
        (initBlankCells puzzleTwoBlanks (zeroCount puzzleTwoBlanks)).2 = some r) ∧
      (∃ fuel, solve fuel (initBlankCells puzzleTwoBlanks (zeroCount puzzleTwoBlanks)).1
        ((initBlankCells puzzleTwoBlanks (zeroCount puzzleTwoBlanks)).2.map allTrueFlags)
          = some r) ∧
      (∀ fuel r', solve fuel (initBlankCells puzzleTwoBlanks (zeroCount puzzleTwoBlanks)).1
        (initBlankCells puzzleTwoBlanks (zeroCount puzzleTwoBlanks)).2 = some r' → r' = r) ∧
      (∀ fuel r', solve fuel (initBlankCells puzzleTwoBlanks (zeroCount puzzleTwoBlanks)).1
        ((initBlankCells puzzleTwoBlanks (zeroCount puzzleTwoBlanks)).2.map allTrueFlags)
          = some r' → r' = r) :=
  solve_flags_only_optimise puzzleTwoBlanks (by decide) (by decide)


/-! ## The parsers -/

theorem zerosBefore_succ (f : Nat → Nat → Int) (p : Nat) :
    zerosBefore f (p + 1) = zerosBefore f p + if f (p / 9) (p % 9) = 0 then 1 else 0 := by
  unfold zerosBefore
  rw [List.range_succ, List.countP_append]
  by_cases h : f (p / 9) (p % 9) = 0
  · simp [h]
  · simp [h]

/-- Writing the value of the next position of the scan keeps the invariant. -/
theorem parsedUpTo_step {f : Nat → Nat → Int} {i j : Nat} (hi : i < 9) (hj : j < 9)
    {s : Sudoku} {blankCount : Nat} (h : ParsedUpTo f (9 * i + j) s blankCount) :
    (f i j = 0 → ParsedUpTo f (9 * i + (j + 1)) (s.setCell i j 0) (blankCount + 1)) ∧
    (∀ v, f i j = v → v ≠ 0 → ParsedUpTo f (9 * i + (j + 1)) (s.setCell i j v) blankCount) := by
  obtain ⟨hwf, hcells, hcount⟩ := h
  have hdiv : (9 * i + j) / 9 = i := by omega
  have hmod : (9 * i + j) % 9 = j := by omega
  have hcell : ∀ v, f i j = v → ∀ i' < 9, ∀ j' < 9, 9 * i' + j' < 9 * i + (j + 1) →
      (s.setCell i j v).cell i' j' = f i' j' := by
    intro v hv i' hi' j' hj' hlt
    rw [cell_setCell s hwf hi hj]
    split
    · next h => rw [h.1, h.2, hv]
    · next h =>
      apply hcells i' hi' j' hj'
      by_contra hge
      exact h ⟨by omega, by omega⟩
  constructor
  · intro h0
    refine ⟨wellFormed_setCell s hwf _ _ _, hcell 0 h0, ?_⟩
    rw [← Nat.add_assoc, zerosBefore_succ, hdiv, hmod, if_pos h0, hcount]
  · intro v hv hne
    refine ⟨wellFormed_setCell s hwf _ _ _, hcell v hv, ?_⟩
    rw [← Nat.add_assoc, zerosBefore_succ, hdiv, hmod, if_neg (by rw [hv]; exact hne), hcount]
    rfl

theorem clearRowFrom_spec {f : Nat → Nat → Int} {i : Nat} (hi : i < 9) :
    ∀ (n j : Nat) (s : Sudoku) (blankCount : Nat), j ≤ 9 → 9 < j + n →
      (∀ j', j ≤ j' → j' < 9 → f i j' = 0) → ParsedUpTo f (9 * i + j) s blankCount →
      ParsedUpTo f (9 * i + 9) (clearRowFrom i n j s blankCount).1
        (clearRowFrom i n j s blankCount).2 := by
  intro n
  induction n with
  | zero => intro j s bc h1 h2; omega
  | succ n ih =>
    intro j s bc hj9 hfuel hzero h
    rw [clearRowFrom]
    by_cases hj : j < 9
    · rw [if_pos hj]
      exact ih (j + 1) _ _ (by omega) (by omega) (fun j' h1 h2 => hzero j' (by omega) h2)
        ((parsedUpTo_step hi hj h).1 (hzero j (le_refl _) hj))
    · rw [if_neg hj]
      have : j = 9 := by omega
      rw [this] at h
      exact h

theorem clearRowsFrom_spec {f : Nat → Nat → Int} :
    ∀ (n i : Nat) (s : Sudoku) (blankCount : Nat), i ≤ 9 → 9 < i + n →
      (∀ i' j', i ≤ i' → i' < 9 → j' < 9 → f i' j' = 0) → ParsedUpTo f (9 * i) s blankCount →
      ParsedUpTo f 81 (clearRowsFrom n i s blankCount).1 (clearRowsFrom n i s blankCount).2 := by
  intro n
  induction n with
  | zero => intro i s bc h1 h2; omega
  | succ n ih =>
    intro i s bc hi9 hfuel hzero h
    rw [clearRowsFrom]
    by_cases hi : i < 9
    · rw [if_pos hi]
      have hrow := clearRowFrom_spec hi (SIZE + 1) 0 s bc (Nat.zero_le _) (by decide)
        (fun j' _ hj' => hzero i j' (le_refl _) hi hj') h
      exact ih (i + 1) _ _ (by omega) (by omega)
        (fun i' j' h1 h2 h3 => hzero i' j' (by omega) h2 h3) hrow
    · rw [if_neg hi]
      have : i = 9 := by omega
      rw [this] at h
      exact h

theorem getElem?_of_getD_ne {l : List Int} {j : Nat} (h : l.getD j 0 ≠ 0) :
    l[j]? = some (l.getD j 0) := by
  rw [List.getD_eq_getElem?_getD] at h ⊢
  cases hl : l[j]? with
  | none => rw [hl] at h; exact absurd rfl h
  | some c => rfl

theorem getElem?_of_getD_eq {l : List Int} (hl : (0 : Int) ∉ l) {j : Nat}
    (h : l.getD j 0 = 0) : l.length ≤ j := by
  by_contra hlt
  have hj : j < l.length := by omega
  rw [List.getD_eq_getElem _ _ hj] at h
  exact hl (h ▸ List.getElem_mem hj)

theorem multipleStringsRow_exit (row : List Int) (i n j : Nat) (s : Sudoku) (blankCount : Nat)
    (hj : 9 ≤ j) : multipleStringsRow row i n j s blankCount = (s, blankCount) := by
  cases n with
  | zero => rfl
  | succ n =>
    rw [multipleStringsRow, if_neg]
    exact Nat.not_lt.2 hj

theorem multipleStringsRow_spec {f : Nat → Nat → Int} {i : Nat} (hi : i < 9)
    {row : List Int} (hrow : (0 : Int) ∉ row) (hf : ∀ j < 9, f i j = cellOfChar row[j]?) :
    ∀ (n j : Nat) (s : Sudoku) (blankCount : Nat), j ≤ 9 → 9 < j + n →
      ParsedUpTo f (9 * i + j) s blankCount →
      ParsedUpTo f (9 * i + 9) (multipleStringsRow row i n j s blankCount).1
        (multipleStringsRow row i n j s blankCount).2 := by
  intro n
  induction n with
  | zero => intro j s bc h1 h2; omega
  | succ n ih =>
    intro j s bc hj9 hfuel h
    rw [multipleStringsRow]
    by_cases hj : j < 9
    · rw [if_pos hj]
      simp only []
      by_cases hc : row.getD j 0 = 0
      · rw [if_pos hc, multipleStringsRow_exit _ _ _ _ _ _ (by decide)]
        have hlen := getElem?_of_getD_eq hrow hc
        apply clearRowFrom_spec hi (SIZE + 1) j s bc hj9 (by have : SIZE = 9 := rfl; omega) _ h
        intro j' h1 h2
        rw [hf j' h2, List.getElem?_eq_none (by omega)]
        rfl
      · rw [if_neg hc]
        have hget := getElem?_of_getD_ne hc
        have hfj : f i j = cellOfChar (some (row.getD j 0)) := by rw [hf j hj, hget]
        by_cases hd : row.getD j 0 ≥ 49 ∧ row.getD j 0 ≤ 57
        · rw [if_pos hd]
          apply ih (j + 1) _ _ (by omega) (by omega)
          apply (parsedUpTo_step hi hj h).2 _ _ (by omega)
          rw [hfj, cellOfChar, if_pos ⟨hd.1, hd.2⟩]
        · rw [if_neg hd]
          apply ih (j + 1) _ _ (by omega) (by omega)
          apply (parsedUpTo_step hi hj h).1
          rw [hfj, cellOfChar, if_neg]
          exact fun h' => hd ⟨h'.1, h'.2⟩
    · rw [if_neg hj]
      have : j = 9 := by omega
      rw [this] at h
      exact h

theorem multipleStringsRows_spec {f : Nat → Nat → Int} {rows : List (Option (List Int))}
    (hrows : ∀ i < 9, (0 : Int) ∉ rowText rows i)
    (hf : ∀ i < 9, ∀ j < 9, f i j = cellOfChar (rowText rows i)[j]?) :
    ∀ (n i : Nat) (s : Sudoku) (blankCount : Nat), i ≤ 9 → 9 < i + n →
      ParsedUpTo f (9 * i) s blankCount →
      ParsedUpTo f 81 (multipleStringsRows rows n i s blankCount).1
        (multipleStringsRows rows n i s blankCount).2 := by
  intro n
  induction n with
  | zero => intro i s bc h1 h2; omega
  | succ n ih =>
    intro i s bc hi9 hfuel h
    rw [multipleStringsRows]
    by_cases hi : i < 9
    · rw [if_pos hi]
      have hrow := multipleStringsRow_spec hi (hrows i hi) (hf i hi) (SIZE + 1) 0 s bc
        (Nat.zero_le _) (by decide) h
      exact ih (i + 1) _ _ (by omega) (by omega) hrow
    · rw [if_neg hi]
      have : i = 9 := by omega
      rw [this] at h
      exact h

theorem singleStringRow_exit (str : List Int) (n i j : Nat) (s : Sudoku) (blankCount : Nat)
    (hj : 9 ≤ j) : singleStringRow str n i j s blankCount = (i, s, blankCount) := by
  cases n with
  | zero => rfl
  | succ n =>
    rw [singleStringRow, if_neg]
    exact Nat.not_lt.2 hj

theorem singleStringRows_exit (str : List Int) (n i : Nat) (s : Sudoku) (blankCount : Nat)
    (hi : 9 ≤ i) : singleStringRows str n i s blankCount = (s, blankCount) := by
  cases n with
  | zero => rfl
  | succ n =>
    rw [singleStringRows, if_neg]
    exact Nat.not_lt.2 hi

theorem singleStringRow_spec {f : Nat → Nat → Int} {str : List Int} (hstr : (0 : Int) ∉ str)
    (hf : ∀ i < 9, ∀ j < 9, f i j = cellOfChar str[9 * i + j]?) {i : Nat} (hi : i < 9) :
    ∀ (n j : Nat) (s : Sudoku) (blankCount : Nat), j ≤ 9 → 9 < j + n →
      ParsedUpTo f (9 * i + j) s blankCount →
      ((singleStringRow str n i j s blankCount).1 = i ∧
        ParsedUpTo f (9 * i + 9) (singleStringRow str n i j s blankCount).2.1
          (singleStringRow str n i j s blankCount).2.2) ∨
      ((singleStringRow str n i j s blankCount).1 = 9 ∧
        ParsedUpTo f 81 (singleStringRow str n i j s blankCount).2.1
          (singleStringRow str n i j s blankCount).2.2) := by
  intro n
  induction n with
  | zero => intro j s bc h1 h2; omega
  | succ n ih =>
    intro j s bc hj9 hfuel h
    rw [singleStringRow]
    by_cases hj : j < 9
    · rw [if_pos hj]
      have hidx : i * SIZE + j = 9 * i + j := by show i * 9 + j = _; omega
      simp only [hidx]
      by_cases hc : str.getD (9 * i + j) 0 = 0
      · rw [if_pos hc, singleStringRow_exit _ _ _ _ _ _ (by decide)]
        right
        refine ⟨rfl, ?_⟩
        have hlen := getElem?_of_getD_eq hstr hc
        have hrow := clearRowFrom_spec hi (SIZE + 1) j s bc hj9
          (by have : SIZE = 9 := rfl; omega)
          (fun j' h1 h2 => by
            rw [hf i hi j' h2, List.getElem?_eq_none (by omega)]
            rfl) h
        apply clearRowsFrom_spec (SIZE + 1) (i + 1) _ _ (by omega)
          (by have : SIZE = 9 := rfl; omega) _ hrow
        intro i' j' h1 h2 h3
        rw [hf i' h2 j' h3, List.getElem?_eq_none (by omega)]
        rfl
      · rw [if_neg hc]
        have hget := getElem?_of_getD_ne hc
        have hfj : f i j = cellOfChar (some (str.getD (9 * i + j) 0)) := by
          rw [hf i hi j hj, hget]
        by_cases hd : str.getD (9 * i + j) 0 ≥ 49 ∧ str.getD (9 * i + j) 0 ≤ 57
        · rw [if_pos hd]
          apply ih (j + 1) _ _ (by omega) (by omega)
          apply (parsedUpTo_step hi hj h).2 _ _ (by omega)
          rw [hfj, cellOfChar, if_pos ⟨hd.1, hd.2⟩]
        · rw [if_neg hd]
          apply ih (j + 1) _ _ (by omega) (by omega)
          apply (parsedUpTo_step hi hj h).1
          rw [hfj, cellOfChar, if_neg]
          exact fun h' => hd ⟨h'.1, h'.2⟩
    · rw [if_neg hj]
      left
      have : j = 9 := by omega
      rw [this] at h
      exact ⟨rfl, h⟩

theorem singleStringRows_spec {f : Nat → Nat → Int} {str : List Int} (hstr : (0 : Int) ∉ str)
    (hf : ∀ i < 9, ∀ j < 9, f i j = cellOfChar str[9 * i + j]?) :
    ∀ (n i : Nat) (s : Sudoku) (blankCount : Nat), i ≤ 9 → 9 < i + n →
      ParsedUpTo f (9 * i) s blankCount →
      ParsedUpTo f 81 (singleStringRows str n i s blankCount).1
        (singleStringRows str n i s blankCount).2 := by
  intro n
  induction n with
  | zero => intro i s bc h1 h2; omega
  | succ n ih =>
    intro i s bc hi9 hfuel h
    rw [singleStringRows]
    by_cases hi : i < 9
    · rw [if_pos hi]
      simp only []
      rcases singleStringRow_spec hstr hf hi (SIZE + 1) 0 s bc (Nat.zero_le _) (by decide) h
        with ⟨e, hrow⟩ | ⟨e, hall⟩
      · rw [e]
        exact ih (i + 1) _ _ (by omega) (by omega) hrow
      · rw [e, singleStringRows_exit _ _ _ _ _ (by decide)]
        exact hall
    · rw [if_neg hi]
      have : i = 9 := by omega
      rw [this] at h
      exact h

theorem parsedUpTo_init (f : Nat → Nat → Int) {s : Sudoku} (hs : s.WellFormed) :
    ParsedUpTo f (9 * 0) s 0 :=
  ⟨hs, fun _ _ _ _ h => absurd h (Nat.not_lt_zero _), rfl⟩

/-- When the scan is over, the grid holds the values `f` and `blankCount` is the number
of its zero cells. -/
theorem parsedUpTo_final {f : Nat → Nat → Int} {s : Sudoku} {blankCount : Nat}
    (h : ParsedUpTo f 81 s blankCount) :
    s.WellFormed ∧ (∀ i < 9, ∀ j < 9, s.cell i j = f i j) ∧ blankCount = zeroCount s := by
  obtain ⟨hwf, hcells, hcount⟩ := h
  refine ⟨hwf, fun i hi j hj => hcells i hi j hj (by omega), ?_⟩
  rw [hcount, zeroCount_eq s hwf, ← List.countP_eq_length_filter, allCells, List.countP_map,
    zerosBefore]
  apply List.countP_congr
  intro q hq
  have hq' := List.mem_range.1 hq
  simp only [Function.comp, decide_eq_true_eq]
  rw [hcells (q / 9) (by omega) (q % 9) (by omega) (by omega)]

/-- The grid and the count produced by `initSudokuFromSingleString`. -/
theorem initSudokuFromSingleString_spec (s : Sudoku) (hs : s.WellFormed) (str : List Int)
    (hstr : (0 : Int) ∉ str) :
    (initSudokuFromSingleString s str).1.WellFormed ∧
    (∀ i < 9, ∀ j < 9,
      (initSudokuFromSingleString s str).1.cell i j = cellOfChar str[9 * i + j]?) ∧
    (initSudokuFromSingleString s str).2 = zeroCount (initSudokuFromSingleString s str).1 :=
  parsedUpTo_final (singleStringRows_spec hstr (fun _ _ _ _ => rfl) (SIZE + 1) 0 s 0
    (Nat.zero_le _) (by decide) (parsedUpTo_init _ hs))

theorem not_mem_rowText {rows : List (Option (List Int))}
    (hrows : ∀ r ∈ rows, (0 : Int) ∉ r.getD []) (i : Nat) :
    (0 : Int) ∉ rowText rows i := by
  unfold rowText
  rw [List.getD_eq_getElem?_getD]
  cases h : rows[i]? with
  | none => simp
  | some r => exact hrows r (List.getElem?_mem h)

/-- The grid and the count produced by `initSudokuFromMultipleStrings`. -/
theorem initSudokuFromMultipleStrings_spec (s : Sudoku) (hs : s.WellFormed)
    (rows : List (Option (List Int))) (hrows : ∀ r ∈ rows, (0 : Int) ∉ r.getD []) :
    (initSudokuFromMultipleStrings s rows).1.WellFormed ∧
    (∀ i < 9, ∀ j < 9,
      (initSudokuFromMultipleStrings s rows).1.cell i j = cellOfChar (rowText rows i)[j]?) ∧
    (initSudokuFromMultipleStrings s rows).2 =
      zeroCount (initSudokuFromMultipleStrings s rows).1 :=
  parsedUpTo_final (multipleStringsRows_spec (fun i _ => not_mem_rowText hrows i)
    (fun _ _ _ _ => rfl) (SIZE + 1) 0 s 0 (Nat.zero_le _) (by decide) (parsedUpTo_init _ hs))

/-! ## Cutting a string into rows -/

theorem cellOfChar_eq_zero_iff (c : Int) : cellOfChar (some c) = 0 ↔ notDigit c = true := by
  rw [cellOfChar]
  unfold notDigit
  by_cases h : 49 ≤ c ∧ c ≤ 57
  · rw [if_pos h]
    simp only [h.1, h.2, decide_True, Bool.and_self, Bool.not_true, Bool.false_eq_true,
      iff_false]
    omega
  · rw [if_neg h]
    simp only [true_iff, Bool.not_eq_true', Bool.and_eq_false_imp, decide_eq_true_eq,
      decide_eq_false_iff_not]
    intro h1 h2
    exact h ⟨h1, h2⟩

theorem rowText_map (rowOf : Nat → List Int) {i : Nat} (hi : i < 9) :
    rowText ((List.range 9).map fun i => some (rowOf i)) i = rowOf i := by
  unfold rowText
  rw [List.getD_eq_getElem?_getD, List.getElem?_map, List.getElem?_range hi]
  rfl

theorem isChunking_chunkRows (str : List Int) (hstr : (0 : Int) ∉ str) :
    IsChunking str (chunkRows str) := by
  refine ⟨by simp [chunkRows], ?_, ?_⟩
  · intro r hr h0
    simp only [chunkRows, List.mem_map] at hr
    obtain ⟨i, _, rfl⟩ := hr
    exact hstr (List.mem_of_mem_drop (List.mem_of_mem_take h0))
  · intro i hi j hj
    have hrow : rowText (chunkRows str) i = (str.drop (9 * i)).take 9 :=
      rowText_map (fun i => (str.drop (9 * i)).take 9) hi
    rw [hrow, List.getElem?_take, if_pos hj, List.getElem?_drop]
    refine ⟨fun _ => rfl, fun hlen => ?_⟩
    rw [List.getElem?_eq_none hlen]
    rfl

theorem isChunking_splitSudokuString (str : List Int) (hstr : (0 : Int) ∉ str) :
    IsChunking str (splitSudokuString str) := by
  have hidx : ∀ i j : Nat, i * SIZE + j = 9 * i + j := by
    intro i j
    show i * 9 + j = _
    omega
  refine ⟨by simp [splitSudokuString], ?_, ?_⟩
  · intro r hr h0
    simp only [splitSudokuString, List.mem_map] at hr
    obtain ⟨i, _, rfl⟩ := hr
    simp only [Option.getD_some, List.mem_map] at h0
    obtain ⟨j, _, hj⟩ := h0
    by_cases hlt : i * SIZE + j < str.length
    · rw [if_pos hlt, List.getD_eq_getElem _ _ hlt] at hj
      exact hstr (hj ▸ List.getElem_mem hlt)
    · rw [if_neg hlt] at hj
      cases hj
  · intro i hi j hj
    have hrow : rowText (splitSudokuString str) i = (List.range SIZE).map fun j =>
        if i * SIZE + j < str.length then str.getD (i * SIZE + j) 0 else 48 :=
      rowText_map (fun i => (List.range SIZE).map fun j =>
        if i * SIZE + j < str.length then str.getD (i * SIZE + j) 0 else 48) hi
    rw [hrow, List.getElem?_map, List.getElem?_range (show j < SIZE from hj)]
    simp only [Option.map_some', hidx]
    constructor
    · intro hlt
      rw [if_pos hlt, List.getD_eq_getElem _ _ hlt, List.getElem?_eq_getElem hlt]
    · intro hlen
      rw [if_neg (by omega)]
      rfl

/-! ## The blank count and the text -/

theorem countP_range_cellOfChar (l : List Int) : ∀ n : Nat,
    (List.range n).countP (fun q => cellOfChar l[q]? = 0) =
      (l.take n).countP notDigit + (n - l.length) := by
  intro n
  induction n with
  | zero => simp
  | succ n ih =>
    rw [List.range_succ, List.countP_append, ih, List.take_succ, List.countP_append,
      List.countP_singleton]
    by_cases hn : n < l.length
    · rw [List.getElem?_eq_getElem hn]
      simp only [Option.toList_some, List.countP_singleton, decide_eq_true_eq,
        cellOfChar_eq_zero_iff]
      omega
    · rw [List.getElem?_eq_none (by omega)]
      simp only [Option.toList_none, List.countP_nil, cellOfChar, decide_True, if_true]
      omega

/-- C12 (equivalence of the two input shapes): for every flat string `str` and every
9 row-strings that cut `str` into consecutive chunks of 9 characters (missing positions
absent or padded with a character other than `'1'..'9'`), `initSudokuFromSingleString`
on `str` and `initSudokuFromMultipleStrings` on the rows produce identical grids and
return identical blank counts, whatever the grids held before. -/
theorem input_shapes_equivalent (str : List Int) (hstr : (0 : Int) ∉ str)
    (rows : List (Option (List Int))) (hrows : IsChunking str rows)
    (s s' : Sudoku) (hs : s.WellFormed) (hs' : s'.WellFormed) :
    (initSudokuFromSingleString s str).1 = (initSudokuFromMultipleStrings s' rows).1 ∧
    (initSudokuFromSingleString s str).2 = (initSudokuFromMultipleStrings s' rows).2 := by
  obtain ⟨w1, c1, n1⟩ := initSudokuFromSingleString_spec s hs str hstr
  obtain ⟨w2, c2, n2⟩ := initSudokuFromMultipleStrings_spec s' hs' rows hrows.2.1
  have heq : (initSudokuFromSingleString s str).1 = (initSudokuFromMultipleStrings s' rows).1 := by
    apply sudoku_ext_cell w1 w2
    intro i hi j hj
    rw [c1 i hi j hj, c2 i hi j hj]
    obtain ⟨h1, h2⟩ := hrows.2.2 i hi j hj
    by_cases hlt : 9 * i + j < str.length
    · rw [h1 hlt]
    · have hlen : str.length ≤ 9 * i + j := by omega
      have hpad := h2 hlen
      rw [List.getElem?_eq_none hlen]
      cases hrow : (rowText rows i)[j]? with
      | none => rfl
      | some c =>
        rw [hrow] at hpad
        exact ((cellOfChar_eq_zero_iff c).2 hpad).symm
  exact ⟨heq, by rw [n1, n2, heq]⟩

theorem input_shapes_equivalent_witness :
    (initSudokuFromSingleString solvedGrid testSchema).1 =
      (initSudokuFromMultipleStrings puzzleTwoBlanks (splitSudokuString testSchema)).1 ∧
    (initSudokuFromSingleString solvedGrid testSchema).2 =
      (initSudokuFromMultipleStrings puzzleTwoBlanks (splitSudokuString testSchema)).2 :=
  input_shapes_equivalent testSchema (by decide) (splitSudokuString testSchema) (by decide)
    solvedGrid puzzleTwoBlanks (by decide) (by decide)

/-- C13, as stated, fails: for the empty string `initSudokuFromSingleString` returns `81`
and for the string `"5"` it returns `80`, while neither input holds a character other
than `'1'..'9'`. -/
theorem blank_count_counterexample :
    ((initSudokuFromSingleString solvedGrid []).2 = 81 ∧
      ([] : List Int).countP notDigit = 0) ∧
    ((initSudokuFromSingleString solvedGrid (codes "5")).2 = 80 ∧
      (codes "5").countP notDigit = 0) :=
  ⟨⟨by decide, by decide⟩, by decide, by decide⟩

/-- C13 (amended): for every input string, the count returned by
`initSudokuFromSingleString` equals the number of characters other than `'1'..'9'` among
the first 81 characters of the input plus the number of the 81 positions that are past
the end of the input; it equals the number of characters other than `'1'..'9'` of the
input when the input has exactly 81 characters. -/
theorem blank_count_of_text (s : Sudoku) (hs : s.WellFormed) (str : List Int)
    (hstr : (0 : Int) ∉ str) :
    (initSudokuFromSingleString s str).2 =
      (str.take 81).countP notDigit + (81 - str.length) ∧
    (str.length = 81 → (initSudokuFromSingleString s str).2 = str.countP notDigit) := by
  have hpar := singleStringRows_spec hstr
    (f := fun i j => cellOfChar str[9 * i + j]?) (fun _ _ _ _ => rfl) (SIZE + 1) 0 s 0
    (Nat.zero_le _) (by decide) (parsedUpTo_init _ hs)
  have hcount : (initSudokuFromSingleString s str).2 =
      (str.take 81).countP notDigit + (81 - str.length) := by
    rw [← countP_range_cellOfChar str 81]
    refine hpar.2.2.trans ?_
    unfold zerosBefore
    apply List.countP_congr
    intro q _
    have : 9 * (q / 9) + q % 9 = q := by omega
    simp only [this]
  refine ⟨hcount, fun hlen => ?_⟩
  rw [hcount, hlen, List.take_of_length_le (by omega)]
  rfl

theorem blank_count_of_text_witness :
    (initSudokuFromSingleString solvedGrid testSchema).2 =
      (testSchema.take 81).countP notDigit + (81 - testSchema.length) ∧
    (testSchema.length = 81 →
      (initSudokuFromSingleString solvedGrid testSchema).2 = testSchema.countP notDigit) :=
  blank_count_of_text solvedGrid (by decide) testSchema (by decide)

/-- C14 (accurate blank count and cell mapping): for every input (a flat string for
`initSudokuFromSingleString`; an array of at least 9 row-strings, possibly `NULL` or
shorter than 9, for `initSudokuFromMultipleStrings`), the produced grid does not depend on what the grid held
before (every one of the 81 cells is written), cell `(i, j)` holds `d` when the
corresponding character is the digit `d` in `'1'..'9'` and `0` otherwise (positions past
the end of the text included), and the returned count equals the number of cells equal
to `0` in the produced grid. -/
theorem parsers_cells_and_count (str : List Int) (hstr : (0 : Int) ∉ str)
    (rows : List (Option (List Int))) (_hlen : 9 ≤ rows.length)
    (hrows : ∀ r ∈ rows, (0 : Int) ∉ r.getD []) (s : Sudoku) (hs : s.WellFormed) :
    ((∀ i < 9, ∀ j < 9,
        (initSudokuFromSingleString s str).1.cell i j = cellOfChar str[9 * i + j]?) ∧
      (initSudokuFromSingleString s str).2 = zeroCount (initSudokuFromSingleString s str).1 ∧
      (∀ s' : Sudoku, s'.WellFormed →
        (initSudokuFromSingleString s' str).1 = (initSudokuFromSingleString s str).1)) ∧
    ((∀ i < 9, ∀ j < 9,
        (initSudokuFromMultipleStrings s rows).1.cell i j =
          cellOfChar (rowText rows i)[j]?) ∧
      (initSudokuFromMultipleStrings s rows).2 =
        zeroCount (initSudokuFromMultipleStrings s rows).1 ∧
      (∀ s' : Sudoku, s'.WellFormed →
        (initSudokuFromMultipleStrings s' rows).1 = (initSudokuFromMultipleStrings s rows).1)) := by
  obtain ⟨w1, c1, n1⟩ := initSudokuFromSingleString_spec s hs str hstr
  obtain ⟨w2, c2, n2⟩ := initSudokuFromMultipleStrings_spec s hs rows hrows
  refine ⟨⟨c1, n1, fun s' hs' => ?_⟩, c2, n2, fun s' hs' => ?_⟩
  · obtain ⟨w1', c1', _⟩ := initSudokuFromSingleString_spec s' hs' str hstr
    apply sudoku_ext_cell w1' w1
    intro i hi j hj
    rw [c1 i hi j hj, c1' i hi j hj]
  · obtain ⟨w2', c2', _⟩ := initSudokuFromMultipleStrings_spec s' hs' rows hrows
    apply sudoku_ext_cell w2' w2
    intro i hi j hj
    rw [c2 i hi j hj, c2' i hi j hj]

theorem parsers_cells_and_count_witness :
    ((∀ i < 9, ∀ j < 9,
        (initSudokuFromSingleString solvedGrid testSchema).1.cell i j =
          cellOfChar testSchema[9 * i + j]?) ∧
      (initSudokuFromSingleString solvedGrid testSchema).2 =
        zeroCount (initSudokuFromSingleString solvedGrid testSchema).1 ∧
      (∀ s' : Sudoku, s'.WellFormed →
        (initSudokuFromSingleString s' testSchema).1 =
          (initSudokuFromSingleString solvedGrid testSchema).1)) ∧
    ((∀ i < 9, ∀ j < 9,
        (initSudokuFromMultipleStrings solvedGrid fixtureRows).1.cell i j =
          cellOfChar (rowText fixtureRows i)[j]?) ∧
      (initSudokuFromMultipleStrings solvedGrid fixtureRows).2 =
        zeroCount (initSudokuFromMultipleStrings solvedGrid fixtureRows).1 ∧
      (∀ s' : Sudoku, s'.WellFormed →
        (initSudokuFromMultipleStrings s' fixtureRows).1 =
          (initSudokuFromMultipleStrings solvedGrid fixtureRows).1)) :=
  parsers_cells_and_count testSchema (by decide) fixtureRows (by decide) (by decide)
    solvedGrid (by decide)

end SudokuSolver
